import Mathlib

/-!
RedTimeProxy: the per-backend write engine.

A shallow embedding of `backend/backend.go` (the buffer aggregator, the flush
task, the backlog replay, the health report) together with the parts of Go's `net/url` and
`bytes` packages that the spill record format relies on, of `backend/config.go`
(defaults and validation), of `backend/pool.go`, of the write handler, the
authentication check and the response helpers of `service/http.go`, and a model of
the InfluxQL routing-parser that `backend/influxql_test.go` tests.

Conventions of the embedding:

* a Go `string` and a Go `[]byte` are both `List UInt8`;
* a Go `error` is `Option Error`, `none` being `nil`;
* a run-time panic is `Except.error` of a `Fault`;
* `uint64` arithmetic is `Nat` arithmetic modulo `2 ^ 64`;
* calls that leave the worker goroutine (`pool.Submit`, `time.After`,
  `go RewriteLoop()`) are recorded in log fields of the state, and the calls a
  task makes on its collaborators (`HttpBackend`, `FileBackend`) are returned
  as a trace of `Call`s, the results of those calls being inputs.
-/

namespace RedTimeProxy

/-- Go `[]byte` and Go `string`: a sequence of bytes. -/
abbrev Bytes := List UInt8

/-- The byte `'\n'`. -/
def NL : UInt8 := 10

/-- The byte `' '`. -/
def SP : UInt8 := 32

/-- The error values the backend distinguishes: the two sentinels the `switch err`
statements name, and every other (transient) error. -/
inductive Error where
  | ErrBadRequest
  | ErrNotFound
  | ErrShortWrite
  | EOF
  | EscapeError (s : Bytes)
  | Other (msg : Nat)
  deriving DecidableEq, Repr

/-- A run-time panic of the Go program. -/
inductive Fault where
  | indexOutOfRange
  | nilDereference
  deriving DecidableEq, Repr

/-- Go two's-complement `int64`: the representative of `x` modulo `2 ^ 64` in
`[-2 ^ 63, 2 ^ 63)`. -/
def wrapInt64 (x : Int) : Int := (x + 2 ^ 63) % 2 ^ 64 - 2 ^ 63

/-- The expression `time.Duration(n) * time.Second` for an `int` `n`: a `time.Duration`
is an `int64` count of nanoseconds and `time.Second` is `1000000000`; the product
wraps when it does not fit. -/
def secondsDuration (n : Int) : Int := wrapInt64 (n * 1000000000)

/-- The `LinePoint` the ingress hands to a backend; `WriteBuffer` reads its `Db` and
its `Line` only. -/
structure LinePoint where
  Db : Bytes
  Line : Bytes
  deriving DecidableEq, Repr

/-- The struct `CacheBuffer`: `Buffer` is a `*bytes.Buffer` (`none` is the nil
pointer, `some b` a buffer whose unread content is `b`), `Counter` a `uint64`. -/
structure CacheBuffer where
  Buffer : Option Bytes
  Counter : Nat
  deriving DecidableEq, Repr

/-- The fields of `Backend` that the worker goroutine owns, and three logs:
`submitted` lists the closures handed to `pool.Submit`, each given by the `db` and
the detached bytes `p` it captured; `timeAfter` lists the `time.Duration` arguments
(nanoseconds) of the `time.After` calls; `rewriteLoops` counts the running `RewriteLoop`
goroutines. `chTimer` is `none` for the nil channel and `some d` for the channel of a
timer created by `time.After(d)`. `flushTime` and `rewriteInterval` are `int`s, counts of
seconds. The map `buffers` is an association list in insertion order. -/
structure Backend where
  flushSize : Nat
  flushTime : Int
  rewriteInterval : Int
  rewriteRunning : Bool
  chTimer : Option Int
  buffers : List (Bytes × CacheBuffer)
  submitted : List (Bytes × Bytes)
  timeAfter : List Int
  rewriteLoops : Nat
  deriving DecidableEq, Repr

/-- Map read `m[db]`. -/
def mapGet : List (Bytes × CacheBuffer) → Bytes → Option CacheBuffer
  | [], _ => none
  | (k, v) :: rest, db => if k = db then some v else mapGet rest db

/-- Map write `m[db] = cb` (also the effect of a store through the pointer `m[db]`). -/
def mapSet : List (Bytes × CacheBuffer) → Bytes → CacheBuffer → List (Bytes × CacheBuffer)
  | [], db, cb => [(db, cb)]
  | (k, v) :: rest, db, cb => if k = db then (k, cb) :: rest else (k, v) :: mapSet rest db cb

/-- The part of `NewBackend` that sets the worker-owned fields. -/
def NewBackend (flushSize : Nat) (flushTime rewriteInterval : Int) : Backend :=
  { flushSize := flushSize
    flushTime := flushTime
    rewriteInterval := rewriteInterval
    rewriteRunning := false
    chTimer := none
    buffers := []
    submitted := []
    timeAfter := []
    rewriteLoops := 0 }

/-- Go `(*bytes.Buffer).Write`: appends, returns the length written and a nil error. -/
def bytesBufferWrite (b p : Bytes) : Bytes × Nat × Option Error :=
  (b ++ p, p.length, none)

/-- Go `(*bytes.Buffer).WriteByte`: appends one byte, returns a nil error. -/
def bytesBufferWriteByte (b : Bytes) (c : UInt8) : Bytes × Option Error :=
  (b ++ [c], none)

/-- The method `Backend.FlushBuffer`. A missing map entry is a nil `cb`, whose field
access panics. `pool.Submit(func() ...)` is logged with the captured `db` and `p`; the
body of the closure is `flushTask`. -/
def FlushBuffer (ib : Backend) (db : Bytes) : Except Fault Backend :=
  match mapGet ib.buffers db with
  | none => Except.error Fault.nilDereference
  | some cb =>
    match cb.Buffer with
    | none => Except.ok ib
    | some p =>
      let ib1 := { ib with buffers := mapSet ib.buffers db { Buffer := none, Counter := 0 } }
      if p.length = 0 then Except.ok ib1
      else Except.ok { ib1 with submitted := ib1.submitted ++ [(db, p)] }

/-- The method `Backend.WriteBuffer`. The branches on the results of `Write` and
`WriteByte` are kept as in the source; `line[len(line)-1]` panics on an empty line. The
timer is created by `time.After(time.Duration(ib.flushTime) * time.Second)`. The
returned `err` is not part of the result: the worker discards it. -/
def WriteBuffer (ib : Backend) (point : LinePoint) : Except Fault Backend :=
  let db := point.Db
  let line := point.Line
  let cb0 : CacheBuffer :=
    match mapGet ib.buffers db with
    | some cb => cb
    | none => { Buffer := some [], Counter := 0 }
  let counter := (cb0.Counter + 1) % 2 ^ 64
  let buf0 : Bytes :=
    match cb0.Buffer with
    | some b => b
    | none => []
  let (buf1, n, err) := bytesBufferWrite buf0 line
  let stored (b : Bytes) : Backend :=
    { ib with buffers := mapSet ib.buffers db { Buffer := some b, Counter := counter } }
  if err ≠ none then Except.ok (stored buf1)
  else if n ≠ line.length then Except.ok (stored buf1)
  else
    match line.getLast? with
    | none => Except.error Fault.indexOutOfRange
    | some last =>
      let (buf2, err2) :=
        if last ≠ NL then bytesBufferWriteByte buf1 NL else (buf1, none)
      if err2 ≠ none then Except.ok (stored buf2)
      else
        let ib1 := stored buf2
        if counter ≥ ib1.flushSize then FlushBuffer ib1 db
        else if ib1.chTimer = none then
          Except.ok { ib1 with chTimer := some (secondsDuration ib1.flushTime)
                               timeAfter := ib1.timeAfter ++ [secondsDuration ib1.flushTime] }
        else Except.ok ib1

/-- One pass of the loop body of `Backend.Flush` for the key `db`. -/
def flushIfCounted (ib : Backend) (db : Bytes) : Except Fault Backend :=
  match mapGet ib.buffers db with
  | none => Except.error Fault.nilDereference
  | some cb => if cb.Counter > 0 then FlushBuffer ib db else Except.ok ib

/-- The loop `for db := range ib.buffers` of `Backend.Flush` over the keys `keys`. -/
def flushRange : List Bytes → Backend → Except Fault Backend
  | [], ib => Except.ok ib
  | db :: rest, ib =>
    match flushIfCounted ib db with
    | Except.error f => Except.error f
    | Except.ok ib1 => flushRange rest ib1

/-- The method `Backend.Flush`. Go leaves the order of `range` over a map open; the
model ranges in insertion order. -/
def Flush (ib : Backend) : Except Fault Backend :=
  flushRange (ib.buffers.map Prod.fst) { ib with chTimer := none }

/-- The events of the worker loop that touch the buffers: a point received from
`chWrite` (`WriteBuffer`), and `Flush` (the timer firing, or the channel closing). -/
inductive Event where
  | write (p : LinePoint)
  | flush
  deriving DecidableEq, Repr

/-- One iteration of `Backend.worker` for a buffer event. -/
def workerStep (ib : Backend) : Event → Except Fault Backend
  | Event.write p => WriteBuffer ib p
  | Event.flush => Flush ib

/-- The worker loop over a sequence of events; a panic ends it. -/
def workerRun : Backend → List Event → Except Fault Backend
  | ib, [] => Except.ok ib
  | ib, e :: rest =>
    match workerStep ib e with
    | Except.error f => Except.error f
    | Except.ok ib1 => workerRun ib1 rest

/-! ## Calls on the collaborators -/

/-- A call a pool task or the replay loop makes on `HttpBackend`, on `FileBackend`
or on the clock; the argument of `Sleep` is a `time.Duration` (nanoseconds). -/
inductive Call where
  | IsActive
  | WriteUNCompressed (db p : Bytes)
  | fbWrite (b : Bytes)
  | fbRead
  | fbUpdateMeta
  | fbRollbackMeta
  | fbIsData
  | Sleep (d : Int)
  deriving DecidableEq, Repr

/-! ## Go library functions used by the spill record format -/

/-- Go `bytes.HasPrefix`. -/
def bytesHasPrefix : Bytes → Bytes → Bool
  | _, [] => true
  | [], _ :: _ => false
  | c :: s, d :: sep => c = d && bytesHasPrefix s sep

/-- The cut of `s` at the first occurrence of `sep`: the bytes before it and the
bytes after it (`bytes.Index` followed by `s[:m]` and `s[m+len(sep):]`). -/
def bytesCut : Bytes → Bytes → Option (Bytes × Bytes)
  | [], sep => if sep = [] then some ([], []) else none
  | c :: s, sep =>
    if bytesHasPrefix (c :: s) sep then some ([], (c :: s).drop sep.length)
    else
      match bytesCut s sep with
      | none => none
      | some (a, b) => some (c :: a, b)

/-- Go `bytes.SplitN(s, sep, n)` for a non-empty separator and `n ≥ 0`: at most `n`
pieces, the last one being the unsplit remainder. -/
def bytesSplitN (s sep : Bytes) : Nat → List Bytes
  | 0 => []
  | 1 => [s]
  | n + 2 =>
    match bytesCut s sep with
    | none => [s]
    | some (a, rest) => a :: bytesSplitN rest sep (n + 1)

/-- Go `bytes.Join`. -/
def bytesJoin : List Bytes → Bytes → Bytes
  | [], _ => []
  | [a], _ => a
  | a :: b :: rest, sep => a ++ sep ++ bytesJoin (b :: rest) sep

/-- The table `upperhex = "0123456789ABCDEF"` of `net/url`, indexed by a nibble. -/
def upperhex (n : UInt8) : UInt8 :=
  [48, 49, 50, 51, 52, 53, 54, 55, 56, 57, 65, 66, 67, 68, 69, 70].getD n.toNat 0

/-- The function `ishex` of `net/url`. -/
def ishex (c : UInt8) : Bool :=
  if 48 ≤ c ∧ c ≤ 57 then true
  else if 97 ≤ c ∧ c ≤ 102 then true
  else if 65 ≤ c ∧ c ≤ 70 then true
  else false

/-- The function `unhex` of `net/url`. -/
def unhex (c : UInt8) : UInt8 :=
  if 48 ≤ c ∧ c ≤ 57 then c - 48
  else if 97 ≤ c ∧ c ≤ 102 then c - 97 + 10
  else if 65 ≤ c ∧ c ≤ 70 then c - 65 + 10
  else 0

/-- The function `shouldEscape(c, encodeQueryComponent)` of `net/url`: letters, digits
and the marks `-` `_` `.` `~` are kept, the reserved characters and everything else are
escaped. -/
def shouldEscape (c : UInt8) : Bool :=
  if (97 ≤ c ∧ c ≤ 122) ∨ (65 ≤ c ∧ c ≤ 90) ∨ (48 ≤ c ∧ c ≤ 57) then false
  else if c = 45 ∨ c = 95 ∨ c = 46 ∨ c = 126 then false
  else true

/-- What the writing loop of `escape(s, encodeQueryComponent)` emits for one byte:
`+` for a space, `%XX` for a byte to escape, the byte itself otherwise. -/
def escapeByte (c : UInt8) : Bytes :=
  if c = SP then [43]
  else if shouldEscape c then [37, upperhex (c >>> 4), upperhex (c &&& 15)]
  else [c]

/-- Go `url.QueryEscape`. The library returns `s` itself when no byte needs a change
and only swaps spaces when no byte needs `%XX`; both shortcuts give what the general
loop gives. -/
def QueryEscape : Bytes → Bytes
  | [] => []
  | c :: s => escapeByte c ++ QueryEscape s

/-- The first loop of `unescape(s, encodeQueryComponent)`: every `%` must be followed
by two hex digits, else `EscapeError` of the (at most three) offending bytes. -/
def unescapeCheck : Bytes → Option Error
  | [] => none
  | [c] => if c = 37 then some (Error.EscapeError [c]) else none
  | [c, a] => if c = 37 then some (Error.EscapeError [c, a]) else unescapeCheck [a]
  | c :: a :: b :: s =>
    if c = 37 then
      if ishex a && ishex b then unescapeCheck s else some (Error.EscapeError [c, a, b])
    else unescapeCheck (a :: b :: s)

/-- The second loop of `unescape(s, encodeQueryComponent)`: `%XX` becomes the byte
`unhex(X)<<4 | unhex(X)`, `+` becomes a space. It runs only on a checked `s`. -/
def unescapeBuild : Bytes → Bytes
  | [] => []
  | [c] => if c = 37 then [] else if c = 43 then [SP] else [c]
  | [c, a] => if c = 37 then [] else (if c = 43 then SP else c) :: unescapeBuild [a]
  | c :: a :: b :: s =>
    if c = 37 then ((unhex a <<< 4) ||| unhex b) :: unescapeBuild s
    else (if c = 43 then SP else c) :: unescapeBuild (a :: b :: s)

/-- Go `url.QueryUnescape`: the decoded string and the error. -/
def QueryUnescape (s : Bytes) : Bytes × Option Error :=
  match unescapeCheck s with
  | some e => ([], some e)
  | none => (unescapeBuild s, none)

/-! ## The flush task and the replay of the backlog -/

/-- The record the flush task spills: `bytes.Join([escape(db), p], " ")`. -/
def spillRecord (db p : Bytes) : Bytes :=
  bytesJoin [QueryEscape db, p] [SP]

/-- The closure `FlushBuffer` hands to `pool.Submit`, for the captured `db` and `p`.
Inputs: `active` is what `ib.IsActive()` returns, `httpWrite` what `WriteUNCompressed`
returns. The result is the calls the task makes, in order. -/
def flushTask (active : Bool) (httpWrite : Bytes → Bytes → Option Error)
    (db p : Bytes) : List Call :=
  if active then
    match httpWrite db p with
    | none => [Call.IsActive, Call.WriteUNCompressed db p]
    | some Error.ErrBadRequest => [Call.IsActive, Call.WriteUNCompressed db p]
    | some Error.ErrNotFound => [Call.IsActive, Call.WriteUNCompressed db p]
    | some _ =>
      [Call.IsActive, Call.WriteUNCompressed db p, Call.fbWrite (spillRecord db p)]
  else [Call.IsActive, Call.fbWrite (spillRecord db p)]

/-- What the collaborators answer during one call of `Rewrite`: `read` is the result
`(b, err)` of `fb.Read()` (`none` for a nil slice), `httpWrite` the result of
`WriteUNCompressed`, `updateMeta` and `rollbackMeta` the results of the cursor calls. -/
structure RewriteEnv where
  read : Option Bytes × Option Error
  httpWrite : Bytes → Bytes → Option Error
  updateMeta : Option Error
  rollbackMeta : Option Error

/-- The method `Backend.Rewrite`: the returned error and the calls made, in order. -/
def Rewrite (env : RewriteEnv) : Option Error × List Call :=
  let b := env.read.1
  let err := env.read.2
  if err ≠ none ∧ err ≠ some Error.EOF then (err, [Call.fbRead])
  else
    let err : Option Error := if err = some Error.EOF then none else err
    match b with
    | none => (err, [Call.fbRead])
    | some b =>
      let p := bytesSplitN b [SP] 2
      match p with
      | p0 :: p1 :: _ =>
        match QueryUnescape p0 with
        | (_, some e) => (some e, [Call.fbRead])
        | (db, none) =>
          match env.httpWrite db p1 with
          | some Error.ErrBadRequest =>
            (env.updateMeta, [Call.fbRead, Call.WriteUNCompressed db p1, Call.fbUpdateMeta])
          | some Error.ErrNotFound =>
            (env.updateMeta, [Call.fbRead, Call.WriteUNCompressed db p1, Call.fbUpdateMeta])
          | none =>
            (env.updateMeta, [Call.fbRead, Call.WriteUNCompressed db p1, Call.fbUpdateMeta])
          | some _ =>
            (env.rollbackMeta,
              [Call.fbRead, Call.WriteUNCompressed db p1, Call.fbRollbackMeta])
      | _ => (err, [Call.fbRead])

/-- What the collaborators answer during one pass of the loop of `RewriteLoop`. -/
structure LoopEnv where
  isData : Bool
  active : Bool
  rewrite : RewriteEnv

/-- One pass of `for ib.fb.IsData() { ... }` in `RewriteLoop`: the calls made, and
whether the loop goes on (`false`: the condition failed and the loop is left). -/
def RewriteLoopPass (ib : Backend) (env : LoopEnv) : List Call × Bool :=
  if env.isData then
    if !env.active then
      ([Call.fbIsData, Call.IsActive, Call.Sleep (secondsDuration ib.rewriteInterval)], true)
    else
      let r := Rewrite env.rewrite
      if r.1 ≠ none then
        ([Call.fbIsData, Call.IsActive] ++ r.2 ++
          [Call.Sleep (secondsDuration ib.rewriteInterval)], true)
      else ([Call.fbIsData, Call.IsActive] ++ r.2, true)
  else ([Call.fbIsData], false)

/-- The last statement of `RewriteLoop`, after which the goroutine ends. -/
def RewriteLoopExit (ib : Backend) : Backend :=
  { ib with rewriteRunning := false, rewriteLoops := ib.rewriteLoops - 1 }

/-- The method `Backend.RewriteLoop`, the answers of pass `k` being `env k`; `fuel`
bounds the number of passes, `none` meaning the loop is still running after them. -/
def RewriteLoop (ib : Backend) (env : Nat → LoopEnv) : Nat → Nat → Option (Backend × List Call)
  | 0, _ => none
  | fuel + 1, k =>
    match RewriteLoopPass ib (env k) with
    | (calls, false) => some (RewriteLoopExit ib, calls)
    | (calls, true) =>
      match RewriteLoop ib env fuel (k + 1) with
      | none => none
      | some (ib1, more) => some (ib1, calls ++ more)

/-- The method `Backend.RewriteIdle` (with `SetRewriteRunning(true)` and
`go ib.RewriteLoop()` inlined); `isData` is what `ib.fb.IsData()` returns. -/
def RewriteIdle (ib : Backend) (isData : Bool) : Backend :=
  if !ib.rewriteRunning && isData then
    { ib with rewriteRunning := true, rewriteLoops := ib.rewriteLoops + 1 }
  else ib

/-- The events of the rewriter: a tick of `rewriteTicker` (with the answer of
`fb.IsData()`), and the exit of a running `RewriteLoop`. -/
inductive RewriterEvent where
  | tick (isData : Bool)
  | loopExit
  deriving DecidableEq, Repr

/-- The step relation of the rewriter as a function: `none` when the event is not
enabled (no loop is running that could exit). -/
def rewriterStep (ib : Backend) : RewriterEvent → Option Backend
  | RewriterEvent.tick isData => some (RewriteIdle ib isData)
  | RewriterEvent.loopExit => if ib.rewriteLoops > 0 then some (RewriteLoopExit ib) else none

/-- A sequence of rewriter events. -/
def rewriterRun : Backend → List RewriterEvent → Option Backend
  | ib, [] => some ib
  | ib, e :: rest =>
    match rewriterStep ib e with
    | none => none
    | some ib1 => rewriterRun ib1 rest

/-! ## Vocabulary of the statements -/

/-- The bytes a `CacheBuffer` holds, a nil `Buffer` holding none. -/
def CacheBuffer.bytes (cb : CacheBuffer) : Bytes :=
  match cb.Buffer with
  | some b => b
  | none => []

/-- The bytes buffered for `db`, a missing entry holding none. -/
def bufferedFor (ib : Backend) (db : Bytes) : Bytes :=
  match mapGet ib.buffers db with
  | some cb => cb.bytes
  | none => []

/-- The batches submitted to the pool for `db`, in submission order. -/
def batchesFor (ib : Backend) (db : Bytes) : List Bytes :=
  (ib.submitted.filter (fun t => t.1 = db)).map Prod.snd

/-- A line as the buffer stores it: with a final newline added when it has none. -/
def terminated (line : Bytes) : Bytes :=
  if line.getLast? = some NL then line else line ++ [NL]

/-- The lines that arrived for `db`, in arrival order, each terminated. -/
def arrivedFor (db : Bytes) : List Event → List Bytes
  | [] => []
  | Event.write p :: rest =>
    if p.Db = db then terminated p.Line :: arrivedFor db rest else arrivedFor db rest
  | Event.flush :: rest => arrivedFor db rest

/-- The line of a write event is non-empty. -/
def Event.lineNonEmpty : Event → Bool
  | Event.write p => !p.Line.isEmpty
  | Event.flush => true

/-- The line of a write event is non-empty and has no newline before its last byte. -/
def Event.lineSingle : Event → Bool
  | Event.write p => !p.Line.isEmpty && !p.Line.dropLast.contains NL
  | Event.flush => true

/-- The entry `FlushBuffer` leaves behind. -/
def resetEntry (cb : CacheBuffer) : CacheBuffer :=
  match cb.Buffer with
  | some _ => { Buffer := none, Counter := 0 }
  | none => cb

/-- The batch `FlushBuffer` submits for an entry of `db`, if any. -/
def resetBatch (db : Bytes) (cb : CacheBuffer) : List (Bytes × Bytes) :=
  match cb.Buffer with
  | some p => if p.length = 0 then [] else [(db, p)]
  | none => []

/-- The entry the loop body of `Flush` leaves behind. -/
def flushedEntry (cb : CacheBuffer) : CacheBuffer :=
  if cb.Counter > 0 then resetEntry cb else cb

/-- The batch the loop body of `Flush` submits for an entry of `db`, if any. -/
def flushedBatch (db : Bytes) (cb : CacheBuffer) : List (Bytes × Bytes) :=
  if cb.Counter > 0 then resetBatch db cb else []

/-- The entry `WriteBuffer` works on: the one of the map, or a fresh one. -/
def entryFor (ib : Backend) (db : Bytes) : CacheBuffer :=
  match mapGet ib.buffers db with
  | some cb => cb
  | none => { Buffer := some [], Counter := 0 }

/-- The entry of `point.Db` after the append of `WriteBuffer`, before the `switch`. -/
def appended (ib : Backend) (point : LinePoint) : CacheBuffer :=
  { Buffer := some ((entryFor ib point.Db).bytes ++ terminated point.Line)
    Counter := ((entryFor ib point.Db).Counter + 1) % 2 ^ 64 }

/-- The entry holds a sequence of lines satisfying `P`, `Counter` counts them, and
`Counter` is zero or below `flushSize`. -/
def GoodEntry (P : Bytes → Prop) (flushSize : Nat) (cb : CacheBuffer) : Prop :=
  ∃ ls : List Bytes, (∀ l ∈ ls, P l) ∧ cb.bytes = ls.flatten ∧ cb.Counter = ls.length ∧
    (cb.Counter = 0 ∨ cb.Counter < flushSize)

/-- Every entry of the map is a `GoodEntry`. -/
def GoodBuffers (P : Bytes → Prop) (ib : Backend) : Prop :=
  ∀ db cb, mapGet ib.buffers db = some cb → GoodEntry P ib.flushSize cb

/-- A line of the buffer: bytes without a newline, then one newline. -/
def IsLine (l : Bytes) : Prop :=
  ∃ body : Bytes, NL ∉ body ∧ l = body ++ [NL]

/-- The second state has the fields of the first, `buffers` and `submitted` apart. -/
def SameFrame (ib ib1 : Backend) : Prop :=
  ib1.flushSize = ib.flushSize ∧ ib1.flushTime = ib.flushTime ∧
  ib1.rewriteInterval = ib.rewriteInterval ∧ ib1.rewriteRunning = ib.rewriteRunning ∧
  ib1.chTimer = ib.chTimer ∧ ib1.timeAfter = ib.timeAfter ∧
  ib1.rewriteLoops = ib.rewriteLoops

/-! ## Configuration (`backend/config.go`) -/

/-- The bytes of an ASCII string literal of the source. -/
def str (s : String) : Bytes := s.data.map (fun c => c.toNat.toUInt8)

/-- The error values of `config.go`. -/
inductive ConfigError where
  | ErrEmptyCircles
  | ErrEmptyBackends
  | ErrEmptyBackendName
  | ErrDuplicatedBackendName
  | ErrInvalidHashKey
  deriving DecidableEq, Repr

/-- The struct `Config` of one backend. -/
structure Config where
  Name : Bytes
  Url : Bytes
  Username : Bytes
  Password : Bytes
  AuthSecure : Bool
  deriving DecidableEq, Repr

/-- The struct `CircleConfig`. `Backends` is a slice of pointers `[]*Config`: `none` is
a nil element (a `null` of the configuration file), `some b` a pointer to `b`. -/
structure CircleConfig where
  Name : Bytes
  Backends : List (Option Config)
  deriving DecidableEq, Repr

/-- The struct `MQTTConfig`. -/
structure MQTTConfig where
  Server : Bytes
  TopicPath : Bytes
  User : Bytes
  Password : Bytes
  QoS : UInt8
  CACert : Bytes
  ClientCert : Bytes
  ClientKey : Bytes
  ClientID : Bytes
  Db : Bytes
  Precision : Bytes
  deriving DecidableEq, Repr

/-- The struct `ProxyConfig`, with all its fields. `FlushSize` is a `uint64`, the
other numbers are `int`s; `MQTT` is a pointer, `none` when nil. `Circles` is a slice of
pointers `[]*CircleConfig`, `none` being a nil element. -/
@[ext]
structure ProxyConfig where
  Circles : List (Option CircleConfig)
  ListenAddr : Bytes
  DBList : List Bytes
  DataDir : Bytes
  TLogDir : Bytes
  HashKey : Bytes
  FlushSize : Nat
  FlushTime : Int
  CheckInterval : Int
  RewriteInterval : Int
  ConnPoolSize : Int
  WriteTimeout : Int
  IdleTimeout : Int
  Username : Bytes
  Password : Bytes
  AuthSecure : Bool
  WriteTracing : Bool
  QueryTracing : Bool
  HTTPSEnabled : Bool
  HTTPSCert : Bytes
  HTTPSKey : Bytes
  UDPEnable : Bool
  UDPBind : Bytes
  UDPDataBase : Bytes
  UDPPoolSize : Int
  UDPPrecision : Bytes
  MQTTEnable : Bool
  MQTT : Option MQTTConfig
  deriving DecidableEq, Repr

/-- The statement `if cfg.ListenAddr == ""` of `setDefault` and its assignment. -/
def setDefaultListenAddr (cfg : ProxyConfig) : ProxyConfig :=
  if cfg.ListenAddr = [] then { cfg with ListenAddr := str ":80" } else cfg

/-- The statement `if cfg.DataDir == ""` of `setDefault` and its assignment. -/
def setDefaultDataDir (cfg : ProxyConfig) : ProxyConfig :=
  if cfg.DataDir = [] then { cfg with DataDir := str "data" } else cfg

/-- The statement `if cfg.TLogDir == ""` of `setDefault` and its assignment. -/
def setDefaultTLogDir (cfg : ProxyConfig) : ProxyConfig :=
  if cfg.TLogDir = [] then { cfg with TLogDir := str "log" } else cfg

/-- The statement `if cfg.HashKey == ""` of `setDefault` and its assignment. -/
def setDefaultHashKey (cfg : ProxyConfig) : ProxyConfig :=
  if cfg.HashKey = [] then { cfg with HashKey := str "idx" } else cfg

/-- The statement `if cfg.FlushSize <= 0` of `setDefault` and its assignment. -/
def setDefaultFlushSize (cfg : ProxyConfig) : ProxyConfig :=
  if cfg.FlushSize ≤ 0 then { cfg with FlushSize := 10000 } else cfg

/-- The statement `if cfg.FlushTime <= 0` of `setDefault` and its assignment. -/
def setDefaultFlushTime (cfg : ProxyConfig) : ProxyConfig :=
  if cfg.FlushTime ≤ 0 then { cfg with FlushTime := 1 } else cfg

/-- The statement `if cfg.CheckInterval <= 0` of `setDefault` and its assignment. -/
def setDefaultCheckInterval (cfg : ProxyConfig) : ProxyConfig :=
  if cfg.CheckInterval ≤ 0 then { cfg with CheckInterval := 1 } else cfg

/-- The statement `if cfg.RewriteInterval <= 0` of `setDefault` and its assignment. -/
def setDefaultRewriteInterval (cfg : ProxyConfig) : ProxyConfig :=
  if cfg.RewriteInterval ≤ 0 then { cfg with RewriteInterval := 10 } else cfg

/-- The statement `if cfg.ConnPoolSize <= 0` of `setDefault` and its assignment. -/
def setDefaultConnPoolSize (cfg : ProxyConfig) : ProxyConfig :=
  if cfg.ConnPoolSize ≤ 0 then { cfg with ConnPoolSize := 20 } else cfg

/-- The statement `if cfg.WriteTimeout <= 0` of `setDefault` and its assignment. -/
def setDefaultWriteTimeout (cfg : ProxyConfig) : ProxyConfig :=
  if cfg.WriteTimeout ≤ 0 then { cfg with WriteTimeout := 10 } else cfg

/-- The statement `if cfg.IdleTimeout <= 0` of `setDefault` and its assignment. -/
def setDefaultIdleTimeout (cfg : ProxyConfig) : ProxyConfig :=
  if cfg.IdleTimeout ≤ 0 then { cfg with IdleTimeout := 10 } else cfg

/-- The method `ProxyConfig.setDefault`: its eleven `if` statements in source order. -/
def setDefault (cfg : ProxyConfig) : ProxyConfig :=
  let cfg := setDefaultListenAddr cfg
  let cfg := setDefaultDataDir cfg
  let cfg := setDefaultTLogDir cfg
  let cfg := setDefaultHashKey cfg
  let cfg := setDefaultFlushSize cfg
  let cfg := setDefaultFlushTime cfg
  let cfg := setDefaultCheckInterval cfg
  let cfg := setDefaultRewriteInterval cfg
  let cfg := setDefaultConnPoolSize cfg
  let cfg := setDefaultWriteTimeout cfg
  let cfg := setDefaultIdleTimeout cfg
  cfg

/-- Go `strings.ToLower`. A string of ASCII bytes only (every byte below
`utf8.RuneSelf = 0x80`) has its letters `A`..`Z` moved to `a`..`z`; any other string goes
through `strings.Map(unicode.ToLower, s)`, which is the parameter `unicodeLower`. -/
def ToLower (unicodeLower : Bytes → Bytes) (s : Bytes) : Bytes :=
  if s.all (fun c => c < 128) then
    s.map (fun c => if 65 ≤ c ∧ c ≤ 90 then c + 32 else c)
  else unicodeLower s

/-- The inner loop of `checkConfig` over the backends of one circle: the first error,
or the set of names after the loop. The `util.Set` is the list of the names added. The
field access `backend.Name` on a nil element panics. -/
def checkBackends (set : List Bytes) :
    List (Option Config) → Except Fault (Except ConfigError (List Bytes))
  | [] => Except.ok (Except.ok set)
  | none :: _ => Except.error Fault.nilDereference
  | some backend :: rest =>
    if backend.Name = [] then Except.ok (Except.error ConfigError.ErrEmptyBackendName)
    else if backend.Name ∈ set then
      Except.ok (Except.error ConfigError.ErrDuplicatedBackendName)
    else checkBackends (backend.Name :: set) rest

/-- The outer loop of `checkConfig` over the circles: the first error, if any. The field
access `circle.Backends` on a nil element panics. -/
def checkCircles (set : List Bytes) :
    List (Option CircleConfig) → Except Fault (Option ConfigError)
  | [] => Except.ok none
  | none :: _ => Except.error Fault.nilDereference
  | some circ :: rest =>
    if circ.Backends.length = 0 then Except.ok (some ConfigError.ErrEmptyBackends)
    else
      match checkBackends set circ.Backends with
      | Except.error f => Except.error f
      | Except.ok (Except.error e) => Except.ok (some e)
      | Except.ok (Except.ok set1) => checkCircles set1 rest

/-- The method `ProxyConfig.checkConfig`: the returned error, `none` for nil, or the
panic of a nil dereference. -/
def checkConfig (unicodeLower : Bytes → Bytes) (cfg : ProxyConfig) :
    Except Fault (Option ConfigError) :=
  if cfg.Circles.length = 0 then Except.ok (some ConfigError.ErrEmptyCircles)
  else
    match checkCircles [] cfg.Circles with
    | Except.error f => Except.error f
    | Except.ok (some e) => Except.ok (some e)
    | Except.ok none =>
      let key := ToLower unicodeLower cfg.HashKey
      if key = str "idx" then Except.ok none
      else if key = str "exi" then Except.ok none
      else if key = str "name" then Except.ok none
      else if key = str "url" then Except.ok none
      else Except.ok (some ConfigError.ErrInvalidHashKey)

/-- A circle of a configuration without nil elements: its backends held by value. -/
structure PlainCircle where
  Name : Bytes
  Backends : List Config
  deriving DecidableEq, Repr

/-- The circle as the configuration holds it: a pointer to a circle of pointers. -/
def PlainCircle.pointer (c : PlainCircle) : Option CircleConfig :=
  some { Name := c.Name, Backends := c.Backends.map some }

/-- The non-nil backends of a circle, by value. -/
def CircleConfig.plain (c : CircleConfig) : PlainCircle :=
  { Name := c.Name, Backends := c.Backends.reduceOption }

/-- The non-nil circles of a configuration, by value. -/
def plainCircles (circles : List (Option CircleConfig)) : List PlainCircle :=
  circles.reduceOption.map CircleConfig.plain

/-- No circle and no backend of the configuration is a nil pointer. -/
def noNil (circles : List (Option CircleConfig)) : Prop :=
  (∀ c ∈ circles, c ≠ none) ∧ ∀ c ∈ circles.reduceOption, ∀ b ∈ c.Backends, b ≠ none

/-- The inner loop of `checkConfig` on backends held by value, where no field access
can panic. -/
def plainCheckBackends (set : List Bytes) : List Config → Except ConfigError (List Bytes)
  | [] => Except.ok set
  | backend :: rest =>
    if backend.Name = [] then Except.error ConfigError.ErrEmptyBackendName
    else if backend.Name ∈ set then Except.error ConfigError.ErrDuplicatedBackendName
    else plainCheckBackends (backend.Name :: set) rest

/-- The outer loop of `checkConfig` on circles held by value. -/
def plainCheckCircles (set : List Bytes) : List PlainCircle → Option ConfigError
  | [] => none
  | circ :: rest =>
    if circ.Backends.length = 0 then some ConfigError.ErrEmptyBackends
    else
      match plainCheckBackends set circ.Backends with
      | Except.error e => some e
      | Except.ok set1 => plainCheckCircles set1 rest

/-- A configuration with every field zero, as `NewFileConfig` allocates it before
decoding. -/
def zeroConfig : ProxyConfig :=
  { Circles := [], ListenAddr := [], DBList := [], DataDir := [], TLogDir := [],
    HashKey := [], FlushSize := 0, FlushTime := 0, CheckInterval := 0,
    RewriteInterval := 0, ConnPoolSize := 0, WriteTimeout := 0, IdleTimeout := 0,
    Username := [], Password := [], AuthSecure := false, WriteTracing := false,
    QueryTracing := false, HTTPSEnabled := false, HTTPSCert := [], HTTPSKey := [],
    UDPEnable := false, UDPBind := [], UDPDataBase := [], UDPPoolSize := 0,
    UDPPrecision := [], MQTTEnable := false, MQTT := none }

/-- The checks of `checkConfig` in circle-then-backend order: a circle without
backends is one item, every backend of a circle with backends is one item. -/
inductive CheckItem where
  | noBackends
  | backendName (n : Bytes)
  deriving DecidableEq, Repr

/-- The items of a list of circles, in circle-then-backend order. -/
def checkItems : List PlainCircle → List CheckItem
  | [] => []
  | circ :: rest =>
    (if circ.Backends = [] then [CheckItem.noBackends]
     else circ.Backends.map (fun b => CheckItem.backendName b.Name)) ++ checkItems rest

/-- The violation at one item, given the items before it: a circle without backends,
an empty backend name, or a backend name that already occurs before. -/
def violationAt (before : List CheckItem) : CheckItem → Option ConfigError
  | CheckItem.noBackends => some ConfigError.ErrEmptyBackends
  | CheckItem.backendName n =>
    if n = [] then some ConfigError.ErrEmptyBackendName
    else if CheckItem.backendName n ∈ before then some ConfigError.ErrDuplicatedBackendName
    else none

/-- The first violation among `items`, which follow the items `before`. -/
def firstViolationFrom (before : List CheckItem) : List CheckItem → Option ConfigError
  | [] => none
  | item :: rest =>
    match violationAt before item with
    | some e => some e
    | none => firstViolationFrom (before ++ [item]) rest

/-- The first violation of a list of circles, as the specification words it: no circle
at all, else the first violating item in circle-then-backend order. -/
def firstViolation (circles : List PlainCircle) : Option ConfigError :=
  if circles = [] then some ConfigError.ErrEmptyCircles
  else firstViolationFrom [] (checkItems circles)

/-- All backend names of a list of circles held by value, in circle-then-backend
order. -/
def plainBackendNames (circles : List PlainCircle) : List Bytes :=
  circles.flatMap (fun c => c.Backends.map (fun b => b.Name))

/-- Circles held by value pass the checks of `checkConfig`, in words: there is a circle,
every circle has a backend, every backend name is non-empty, and no backend name occurs
twice in the whole configuration. -/
def plainValid (circles : List PlainCircle) : Prop :=
  circles ≠ [] ∧ (∀ c ∈ circles, c.Backends ≠ []) ∧
  (∀ n ∈ plainBackendNames circles, n ≠ []) ∧ (plainBackendNames circles).Nodup

/-- All backend names of the configuration, in circle-then-backend order. -/
def allBackendNames (circles : List (Option CircleConfig)) : List Bytes :=
  plainBackendNames (plainCircles circles)

/-- The circles of a configuration pass the checks of `checkConfig`, in words: no circle
and no backend is a nil pointer, there is a circle, every circle has a backend, every
backend name is non-empty, and no backend name occurs twice in the whole
configuration. -/
def validCircles (circles : List (Option CircleConfig)) : Prop :=
  noNil circles ∧ plainValid (plainCircles circles)

/-- The four hash keys that `checkConfig` accepts after lower-casing. -/
def hashKeys : List Bytes := [str "idx", str "exi", str "name", str "url"]

/-- A configuration with one circle of one backend and the hash key `IDX`. -/
def upperKeyConfig : ProxyConfig :=
  { zeroConfig with
    Circles := [some { Name := str "circle-1",
                       Backends := [some { Name := str "influx1",
                                           Url := str "http://127.0.0.1:8086",
                                           Username := [], Password := [],
                                           AuthSecure := false }] }]
    HashKey := str "IDX" }

/-- A configuration with two circles whose backends share the name `influx1`, and the
hash key `idx`. -/
def duplicateNameConfig : ProxyConfig :=
  { zeroConfig with
    Circles := [some { Name := str "circle-1",
                       Backends := [some { Name := str "influx1",
                                           Url := str "http://127.0.0.1:8086",
                                           Username := [], Password := [],
                                           AuthSecure := false }] },
                some { Name := str "circle-2",
                       Backends := [some { Name := str "influx1",
                                           Url := str "http://127.0.0.1:8087",
                                           Username := [], Password := [],
                                           AuthSecure := false }] }]
    HashKey := str "idx" }

/-- A configuration whose only circle is a nil pointer (`"circles": [null]` in the
file), with the hash key `idx`. -/
def nilCircleConfig : ProxyConfig :=
  { zeroConfig with Circles := [none], HashKey := str "idx" }

/-- A configuration whose only circle holds a nil backend after a valid one
(`"backends": [{...}, null]` in the file), with the hash key `idx`. -/
def nilBackendConfig : ProxyConfig :=
  { zeroConfig with
    Circles := [some { Name := str "circle-1",
                       Backends := [some { Name := str "influx1",
                                           Url := str "http://127.0.0.1:8086",
                                           Username := [], Password := [],
                                           AuthSecure := false }, none] }]
    HashKey := str "idx" }

/-! ## The byte-slice pool (`backend/pool.go`) -/

/-- A Go `[]byte` value: the backing array from the first element of the slice on
(its length is the capacity of the slice) and the length of the slice. -/
structure Slice where
  array : Bytes
  len : Nat
  deriving DecidableEq, Repr

/-- Go `cap(c)`. -/
def Slice.cap (c : Slice) : Nat := c.array.length

/-- Go `make([]byte, n)` for `n ≥ 0`. -/
def makeSlice (n : Nat) : Slice := { array := List.replicate n 0, len := n }

/-- Go `c[:n]`, used in the source only where `cap(c) ≥ n` has been checked. -/
def Slice.upTo (c : Slice) (n : Nat) : Slice := { c with len := n }

/-- The struct `Pool`: `data` is the content of the buffered channel, oldest first,
`maxSize` its capacity, `w` the width. The sizes are `int`s that `make` requires to be
non-negative. -/
structure Pool where
  data : List Slice
  maxSize : Nat
  w : Nat
  deriving DecidableEq, Repr

/-- The function `NewPool`. -/
def NewPool (maxSize w : Nat) : Pool := { data := [], maxSize := maxSize, w := w }

/-- The method `Pool.Get`: the slice returned and the pool afterwards. -/
def Pool.Get (p : Pool) : Slice × Pool :=
  match p.data with
  | b :: rest => (b, { p with data := rest })
  | [] => (makeSlice p.w, p)

/-- The method `Pool.GetBySize`: the slice returned and the pool afterwards. -/
def Pool.GetBySize (p : Pool) (sz : Nat) : Slice × Pool :=
  match p.data with
  | [] => (makeSlice sz, p)
  | c :: rest =>
    if c.cap < sz then (makeSlice sz, { p with data := rest })
    else (c.upTo sz, { p with data := rest })

/-- The method `Pool.Put`: a send on a full channel takes the `default` branch. -/
def Pool.Put (p : Pool) (c : Slice) : Pool :=
  if c.cap < p.w then p
  else if p.data.length < p.maxSize then { p with data := p.data ++ [c.upTo p.w] }
  else p

/-- A call on a pool. -/
inductive PoolCall where
  | Get
  | GetBySize (sz : Nat)
  | Put (c : Slice)
  deriving DecidableEq, Repr

/-- The pool after one call. -/
def poolStep (p : Pool) : PoolCall → Pool
  | PoolCall.Get => p.Get.2
  | PoolCall.GetBySize sz => (p.GetBySize sz).2
  | PoolCall.Put c => p.Put c

/-- The pool after a sequence of calls. -/
def poolRun : Pool → List PoolCall → Pool
  | p, [] => p
  | p, call :: rest => poolRun (poolStep p call) rest

/-! ## The HTTP service (`service/http.go`) -/

/-- The constant `backend.Version`. -/
def Version : Bytes := str "2.5.5"

/-- Go `http.Header` with one value per key: an association list. The keys the source
uses are already in canonical form. -/
abbrev Header := List (Bytes × Bytes)

/-- The value stored under a key, if any. -/
def headerLookup : Header → Bytes → Option Bytes
  | [], _ => none
  | (k, v) :: rest, key => if k = key then some v else headerLookup rest key

/-- Go `Header.Set`: the value of the key is replaced, or the key is added. -/
def headerSet : Header → Bytes → Bytes → Header
  | [], key, v => [(key, v)]
  | (k, v0) :: rest, key, v =>
    if k = key then (k, v) :: rest else (k, v0) :: headerSet rest key v

/-- Go `url.Values.Get` and `Header.Get`: the value of the key, or the empty string. -/
def valuesGet (vs : List (Bytes × Bytes)) (key : Bytes) : Bytes :=
  match headerLookup vs key with
  | some v => v
  | none => []

/-- An `http.ResponseWriter`: the header map under construction, the status and the
header map sent by the first `WriteHeader` (`none` while nothing has been sent), and the
body written. -/
structure ResponseWriter where
  header : Header
  sent : Option (Nat × Header)
  body : Bytes
  deriving DecidableEq, Repr

/-- A writer on which nothing has been set or sent. -/
def newResponseWriter : ResponseWriter := { header := [], sent := none, body := [] }

/-- The call `w.Header().Set(key, v)`. -/
def ResponseWriter.setHeader (w : ResponseWriter) (key v : Bytes) : ResponseWriter :=
  { w with header := headerSet w.header key v }

/-- The library method `w.WriteHeader(status)`: the first call sends the status with the
header map as it is then; a later call is ignored. -/
def ResponseWriter.WriteHeader (w : ResponseWriter) (status : Nat) : ResponseWriter :=
  match w.sent with
  | some _ => w
  | none => { w with sent := some (status, w.header) }

/-- The library method `w.Write(b)`: sends status 200 first when no status was sent. -/
def ResponseWriter.Write (w : ResponseWriter) (b : Bytes) : ResponseWriter :=
  let w1 := match w.sent with
    | some _ => w
    | none => w.WriteHeader 200
  { w1 with body := w1.body ++ b }

/-- The status the client receives: the one sent, or 200, which `net/http` sends when
the handler returns without a `WriteHeader` or `Write`. -/
def ResponseWriter.finalStatus (w : ResponseWriter) : Nat :=
  match w.sent with
  | some (status, _) => status
  | none => 200

/-- The header the client receives under a key, if the response carries it. -/
def ResponseWriter.sentHeader (w : ResponseWriter) (key : Bytes) : Option Bytes :=
  match w.sent with
  | some (_, h) => headerLookup h key
  | none => headerLookup w.header key

/-- What the handlers read of an `http.Request`: the method, `req.URL.Query()`, the
`Content-Encoding` header, the result of `req.BasicAuth()` (`none` when not ok), whether
`gzip.NewReader(req.Body)` fails, and the result of `ioutil.ReadAll` on the body, plain or
unzipped: the bytes and the text of the error, if any. -/
structure Request where
  Method : Bytes
  query : List (Bytes × Bytes)
  contentEncoding : Bytes
  basicAuth : Option (Bytes × Bytes)
  gzipFails : Bool
  readAll : Bytes × Option Bytes

/-- The fields of `HttpService` the handlers below read. `DBSet` is `hs.ip.DBSet`, a
`util.Set` (a `map[string]bool` filled by `Add`), given by the names it holds. -/
structure HttpService where
  DBSet : List Bytes
  Username : Bytes
  Password : Bytes
  AuthSecure : Bool

/-- Functions of the packages `util` and `backend` whose source is not part of the
embedding: `util.AesEncrypt`, and `util.MarshalJSON(backend.ResponseFromError(err),
pretty)` as one function of the error text and `pretty`. -/
structure External where
  AesEncrypt : Bytes → Bytes
  errorBody : Bytes → Bool → Bytes

/-- The `data` argument (an empty interface) of `HttpService.Write`: the string when its dynamic
type is `string`, and what `util.MarshalJSON(data, pretty)` returns. -/
structure Data where
  asString : Option Bytes
  json : Bool → Bytes

/-- The method `HttpService.WriteHeader`. -/
def WriteHeader (w : ResponseWriter) (status : Nat) : ResponseWriter :=
  (w.setHeader (str "X-Influxdb-Version") Version).WriteHeader status

/-- The method `HttpService.writeError`. -/
def writeError (ext : External) (w : ResponseWriter) (req : Request) (status : Nat)
    (err : Bytes) : ResponseWriter :=
  let w := w.setHeader (str "Content-Type") (str "application/json")
  let w := w.setHeader (str "X-Influxdb-Error") err
  let w := WriteHeader w status
  let pretty : Bool := valuesGet req.query (str "pretty") = str "true"
  w.Write (ext.errorBody err pretty)

/-- The method `HttpService.Write`; `none` is the panic of the type assertion
`data.(string)` on a value that is not a string. -/
def Write (ext : External) (w : ResponseWriter) (req : Request) (status : Nat)
    (data : Data) : Option ResponseWriter :=
  if status ≥ 400 then
    match data.asString with
    | some s => some (writeError ext w req status s)
    | none => none
  else
    let w := w.setHeader (str "Content-Type") (str "application/json")
    let w := WriteHeader w status
    let pretty : Bool := valuesGet req.query (str "pretty") = str "true"
    some (w.Write (data.json pretty))

/-- The method `HttpService.writeBody`. -/
def writeBody (w : ResponseWriter) (body : Bytes) : ResponseWriter :=
  (WriteHeader w 200).Write body

/-- The method `HttpService.writeText`. -/
def writeText (w : ResponseWriter) (status : Nat) (text : Bytes) : ResponseWriter :=
  (WriteHeader w status).Write (text ++ str "\n")

/-- The method `HttpService.transAuth`. -/
def transAuth (ext : External) (hs : HttpService) (text : Bytes) : Bytes :=
  if hs.AuthSecure then ext.AesEncrypt text else text

/-- The method `HttpService.checkMethod`: the result and the writer afterwards. -/
def checkMethod (ext : External) (w : ResponseWriter) (req : Request)
    (methods : List Bytes) : Bool × ResponseWriter :=
  if req.Method ∈ methods then (true, w)
  else (false, writeError ext w req 405 (str "method not allow"))

/-- The method `HttpService.checkAuth`: the result and the writer afterwards. -/
def checkAuth (ext : External) (hs : HttpService) (w : ResponseWriter) (req : Request) :
    Bool × ResponseWriter :=
  if hs.Username = [] ∧ hs.Password = [] then (true, w)
  else
    let u := valuesGet req.query (str "u")
    let p := valuesGet req.query (str "p")
    if transAuth ext hs u = hs.Username ∧ transAuth ext hs p = hs.Password then (true, w)
    else
      match req.basicAuth with
      | some (u, p) =>
        if transAuth ext hs u = hs.Username ∧ transAuth ext hs p = hs.Password then (true, w)
        else (false, writeError ext w req 401 (str "authentication failed"))
      | none => (false, writeError ext w req 401 (str "authentication failed"))

/-- The method `HttpService.checkMethodAndAuth`: `checkAuth` runs only when
`checkMethod` returned true. -/
def checkMethodAndAuth (ext : External) (hs : HttpService) (w : ResponseWriter)
    (req : Request) (methods : List Bytes) : Bool × ResponseWriter :=
  match checkMethod ext w req methods with
  | (true, w1) => checkAuth ext hs w1 req
  | (false, w1) => (false, w1)

/-- The part of `handlerWrite` after the allowlist check (from `body := req.Body` on):
the writer afterwards and the calls `hs.ip.Write(p, db, precision)` made. `ipWrite` is
what `hs.ip.Write` returns, `none` for nil. -/
def handlerWriteBody (ext : External) (ipWrite : Bytes → Bytes → Bytes → Option Bytes)
    (w : ResponseWriter) (req : Request) (db precision : Bytes) :
    ResponseWriter × List (Bytes × Bytes × Bytes) :=
  if req.contentEncoding = str "gzip" ∧ req.gzipFails = true then
    (writeError ext w req 400 (str "unable to decode gzip body"), [])
  else
    match req.readAll with
    | (_, some e) => (writeError ext w req 400 e, [])
    | (p, none) =>
      match ipWrite p db precision with
      | none => (WriteHeader w 204, [(p, db, precision)])
      | some _ => (w, [(p, db, precision)])

/-- The method `HttpService.handlerWrite` (the request counter and the tracing log
apart): the writer afterwards and the calls of `hs.ip.Write` made. -/
def handlerWrite (ext : External) (hs : HttpService)
    (ipWrite : Bytes → Bytes → Bytes → Option Bytes) (w : ResponseWriter) (req : Request) :
    ResponseWriter × List (Bytes × Bytes × Bytes) :=
  match checkMethodAndAuth ext hs w req [str "POST"] with
  | (false, w1) => (w1, [])
  | (true, w1) =>
    let precision :=
      if valuesGet req.query (str "precision") = [] then str "ns"
      else valuesGet req.query (str "precision")
    let db := valuesGet req.query (str "db")
    if db = [] then (writeError ext w1 req 400 (str "database not found"), [])
    else if hs.DBSet.length > 0 ∧ db ∉ hs.DBSet then
      (writeError ext w1 req 400 (str "database forbidden: " ++ db), [])
    else handlerWriteBody ext ipWrite w1 req db precision

/-- Go `strconv.Itoa` on a non-negative number, as `%d` prints it. -/
def decimal (n : Nat) : Bytes := (Nat.toDigits 10 n).map (fun c => c.toNat.toUInt8)

/-- The check of `handlerRebalance` (and of `handlerCleanup`) that the circle is not
transferring and the proxy not resyncing: the response when it rejects, `none` when the
handler goes on. -/
def transferGate (w : ResponseWriter) (circleId : Nat) (transferring resyncing : Bool) :
    Option ResponseWriter :=
  if transferring then
    some (writeText w 400 (str "circle " ++ decimal circleId ++ str " is transferring"))
  else if resyncing then some (writeText w 400 (str "proxy is resyncing"))
  else none

/-- A service without credentials and without allowlist. -/
def openService : HttpService := { DBSet := [], Username := [], Password := [], AuthSecure := false }

/-- External functions for the concrete runs below (their values do not matter there). -/
def plainExternal : External := { AesEncrypt := fun s => s, errorBody := fun e _ => e }

/-- The request `POST /write?db=mydb` with the body `cpu`. -/
def writeRequest : Request :=
  { Method := str "POST", query := [(str "db", str "mydb")], contentEncoding := [],
    basicAuth := none, gzipFails := false, readAll := (str "cpu", none) }

/-! ## The InfluxQL routing-parser

The source of the parser is not part of the repository files at hand (only its test
file `backend/influxql_test.go` is); it is modelled from section 4.2 of the
specification. -/

/-- Modelled from the spec: the tokens of the routing-parser (`influxql.go` is missing).
A bare identifier, a double-quoted identifier (held unescaped), a single-quoted string, a
regex literal (held verbatim, slashes included), any other byte, and `bad` for a quote
that is not closed. A bare identifier is a run of letters, digits and underscores; the
test corpus uses `1h` as one, so a leading digit is accepted. -/
inductive Token where
  | ident (s : Bytes)
  | quoted (s : Bytes)
  | string (s : Bytes)
  | regex (s : Bytes)
  | other (c : UInt8)
  | bad
  deriving DecidableEq, Repr

/-- Modelled from the spec: the bytes of a bare identifier, `[A-Za-z0-9_]`. -/
def isWordByte (c : UInt8) : Bool :=
  (97 ≤ c && c ≤ 122) || (65 ≤ c && c ≤ 90) || (48 ≤ c && c ≤ 57) || c = 95

/-- Modelled from the spec: the scan of a double-quoted identifier after its opening
quote `q`, which "supports the `\"` escape": a backslash followed by the quote stands for
the quote, every other byte for itself, and the first quote that is not escaped closes
the identifier. The result is the unescaped content and the bytes after the closing
quote, `none` when the quote is not closed. -/
def scanQuoted (q : UInt8) : Bytes → Option (Bytes × Bytes)
  | [] => none
  | [c] => if c = q then some ([], []) else none
  | c :: d :: s =>
    if c = q then some ([], d :: s)
    else if c = 92 ∧ d = q then
      match scanQuoted q s with
      | some (x, rest) => some (q :: x, rest)
      | none => none
    else
      match scanQuoted q (d :: s) with
      | some (x, rest) => some (c :: x, rest)
      | none => none

/-- Modelled from the spec: the scan of a single-quoted string or of a regex literal
after its opening delimiter `q`, up to the next `q`: the content and the bytes after the
closing delimiter. -/
def scanPlain (q : UInt8) : Bytes → Option (Bytes × Bytes)
  | [] => none
  | c :: s =>
    if c = q then some ([], s)
    else
      match scanPlain q s with
      | some (x, rest) => some (c :: x, rest)
      | none => none

/-- Modelled from the spec: the longest run of identifier bytes at the front, and the
bytes after it. -/
def takeWord : Bytes → Bytes × Bytes
  | [] => ([], [])
  | c :: s => if isWordByte c then ((c :: (takeWord s).1), (takeWord s).2) else ([], c :: s)

/-- Modelled from the spec: the next token of a statement and the bytes after it, `none`
at the end of the statement. Spaces before the token are skipped. -/
def nextToken : Bytes → Option (Token × Bytes)
  | [] => none
  | c :: s =>
    if c = SP then nextToken s
    else if c = 34 then
      match scanQuoted 34 s with
      | some (x, rest) => some (Token.quoted x, rest)
      | none => some (Token.bad, [])
    else if c = 39 then
      match scanPlain 39 s with
      | some (x, rest) => some (Token.string x, rest)
      | none => some (Token.bad, [])
    else if c = 47 then
      match scanPlain 47 s with
      | some (x, rest) => some (Token.regex (47 :: x ++ [47]), rest)
      | none => some (Token.other c, s)
    else if isWordByte c then some (Token.ident (c :: (takeWord s).1), (takeWord s).2)
    else some (Token.other c, s)

/-- Modelled from the spec: the keywords are ASCII and matched without regard to case
(the test corpus has `select * from` and `SELECT ... FROM`). -/
def isKeyword (t : Token) (kw : Bytes) : Bool :=
  match t with
  | Token.ident s => s.map (fun c => if 65 ≤ c ∧ c ≤ 90 then c + 32 else c) = kw
  | _ => false

/-- Modelled from the spec: the name a token gives as a component of `<fqn>`: a bare or
double-quoted identifier, or a single-quoted string (the test corpus has `from 'cpu'`). -/
def Token.component : Token → Option Bytes
  | Token.ident s => some s
  | Token.quoted s => some s
  | Token.string s => some s
  | _ => none

/-- Modelled from the spec: the name a token gives as a database identifier: a bare or
double-quoted identifier. -/
def Token.identifier : Token → Option Bytes
  | Token.ident s => some s
  | Token.quoted s => some s
  | _ => none

/-- Modelled from the spec: the third component of `ident.ident.ident`, if a dot
follows the second component `c2`; else `c2` is the last component. -/
def lastOfThree (c2 rest3 : Bytes) : Option Bytes :=
  match nextToken rest3 with
  | some (Token.other 46, rest4) =>
    match nextToken rest4 with
    | some (t, _) => t.component
    | none => none
  | _ => some c2

/-- Modelled from the spec: what follows the first dot of `<fqn>`: a second dot and the
last component (`ident..ident`), or the second component and what follows it. -/
def afterDot (rest2 : Bytes) : Option Bytes :=
  match nextToken rest2 with
  | some (Token.other 46, rest3) =>
    match nextToken rest3 with
    | some (t, _) => t.component
    | none => none
  | some (t2, rest3) =>
    match t2.component with
    | none => none
    | some c2 => lastOfThree c2 rest3
  | none => none

/-- Modelled from the spec: what follows the first component `c1` of `<fqn>`: a dot and
more components, or nothing, and then `c1` is the last component. -/
def afterFirst (c1 rest1 : Bytes) : Option Bytes :=
  match nextToken rest1 with
  | some (Token.other 46, rest2) => afterDot rest2
  | _ => some c1

/-- Modelled from the spec: `<fqn>` after `FROM` is `ident`, `ident.ident`,
`ident..ident` or `ident.ident.ident`, and "the measurement is the last component"; a
regex literal is returned verbatim. `none` is the error `NoMatch`. -/
def parseFqn (s : Bytes) : Option Bytes :=
  match nextToken s with
  | some (Token.regex r, _) => some r
  | some (t1, rest1) =>
    match t1.component with
    | none => none
    | some c1 => afterFirst c1 rest1
  | none => none

/-- Modelled from the spec: the search of the first keyword `kw` among the tokens; the
bytes after it. `fuel` bounds the number of tokens read. -/
def findKeyword (kw : Bytes) : Nat → Bytes → Option Bytes
  | 0, _ => none
  | fuel + 1, s =>
    match nextToken s with
    | none => none
    | some (t, rest) => if isKeyword t kw then some rest else findKeyword kw fuel rest

/-- Modelled from the spec: "the parser is tolerant of leading bracketing characters":
spaces and opening brackets at the front of the statement are dropped. -/
def dropBrackets : Bytes → Bytes
  | [] => []
  | c :: s => if c = SP ∨ c = 40 ∨ c = 91 ∨ c = 123 then dropBrackets s else c :: s

/-- Modelled from the spec: `GetMeasurementFromInfluxQL` (`influxql.go` is missing).
`DROP MEASUREMENT <ident>` gives the identifier; otherwise the name after the first `FROM`
is parsed as `<fqn>`; `none` is the error `NoMatch`. -/
def GetMeasurementFromInfluxQL (q : Bytes) : Option Bytes :=
  let s := dropBrackets q
  let viaFrom : Option Bytes :=
    match findKeyword (str "from") (q.length + 1) s with
    | some rest => parseFqn rest
    | none => none
  match nextToken s with
  | some (t1, rest1) =>
    if isKeyword t1 (str "drop") then
      match nextToken rest1 with
      | some (t2, rest2) =>
        if isKeyword t2 (str "measurement") then
          match nextToken rest2 with
          | some (t3, _) => t3.component
          | none => none
        else viaFrom
      | none => none
    else viaFrom
  | none => none

/-- Modelled from the spec: `GetDatabaseFromInfluxQL` (`influxql.go` is missing).
`CREATE DATABASE <ident>` and `DROP DATABASE <ident>` give the identifier, whatever
follows it; otherwise the identifier after the first `ON` is the database; `none` is the
error `NoMatch`. -/
def GetDatabaseFromInfluxQL (q : Bytes) : Option Bytes :=
  let s := dropBrackets q
  let viaOn : Option Bytes :=
    match findKeyword (str "on") (q.length + 1) s with
    | some rest =>
      match nextToken rest with
      | some (t, _) => t.identifier
      | none => none
    | none => none
  match nextToken s with
  | some (t1, rest1) =>
    if isKeyword t1 (str "create") ∨ isKeyword t1 (str "drop") then
      match nextToken rest1 with
      | some (t2, rest2) =>
        if isKeyword t2 (str "database") then
          match nextToken rest2 with
          | some (t3, _) => t3.identifier
          | none => none
        else viaOn
      | none => none
    else viaOn
  | none => none

/-- A name as a statement writes it: bare, or between double quotes. -/
inductive Name where
  | bare (s : Bytes)
  | quoted (s : Bytes)
  deriving DecidableEq, Repr

/-- The name itself. -/
def Name.text : Name → Bytes
  | Name.bare s => s
  | Name.quoted s => s

/-- The token a written name reads as. -/
def Name.token : Name → Token
  | Name.bare s => Token.ident s
  | Name.quoted s => Token.quoted s

/-- The assertions of `influxql_test.go`: whether the database (`true`) or the measurement
is asked for, the statement, and the expected result. -/
def testCorpus : List (Bool × Bytes × Bytes) :=
  [ (true, str "ALTER RETENTION POLICY \"1h.cpu\" ON \"mydb\" DEFAULT", str "mydb"),
    (true, str "ALTER RETENTION POLICY \"policy1\" ON \"somedb\" DURATION 1h REPLICATION 4", str "somedb"),
    (true, str "CREATE DATABASE \"foo\"", str "foo"),
    (true, str "CREATE DATABASE \"bar\" WITH DURATION 1d REPLICATION 1 SHARD DURATION 30m NAME \"myrp\"", str "bar"),
    (true, str "CREATE DATABASE \"mydb\" WITH NAME \"myrp\"", str "mydb"),
    (true, str "CREATE RETENTION POLICY \"10m.events\" ON \"somedb\" DURATION 60m REPLICATION 2 SHARD DURATION 30m", str "somedb"),
    (true, str "CREATE SUBSCRIPTION \"sub0\" ON \"mydb\".\"autogen\" DESTINATIONS ALL 'udp://example.com:9090'", str "mydb"),
    (true, str "CREATE SUBSCRIPTION \"sub0\" ON \"my.db\".autogen DESTINATIONS ALL 'udp://example.com:9090'", str "my.db"),
    (true, str "CREATE SUBSCRIPTION \"sub0\" ON mydb.autogen DESTINATIONS ALL 'udp://example.com:9090'", str "mydb"),
    (true, str "CREATE SUBSCRIPTION \"sub0\" ON mydb.\"autogen\" DESTINATIONS ALL 'udp://example.com:9090'", str "mydb"),
    (true, str "DROP CONTINUOUS QUERY \"myquery\" ON \"mydb\"", str "mydb"),
    (true, str "DROP DATABASE \"mydb\"", str "mydb"),
    (true, str "DROP RETENTION POLICY \"1h.cpu\" ON \"mydb\"", str "mydb"),
    (true, str "DROP SUBSCRIPTION \"sub0\" ON \"mydb\".\"autogen\"", str "mydb"),
    (true, str "GRANT READ ON \"mydb\" TO \"jdoe\"", str "mydb"),
    (true, str "REVOKE READ ON \"mydb\" FROM \"jdoe\"", str "mydb"),
    (true, str "SHOW FIELD KEY EXACT CARDINALITY ON mydb", str "mydb"),
    (true, str "SHOW MEASUREMENT EXACT CARDINALITY ON mydb", str "mydb"),
    (true, str "SHOW RETENTION POLICIES ON \"mydb\"", str "mydb"),
    (true, str "SHOW SERIES CARDINALITY ON mydb", str "mydb"),
    (true, str "SHOW SERIES EXACT CARDINALITY ON mydb", str "mydb"),
    (true, str "CREATE DATABASE foo;", str "foo"),
    (true, str "CREATE DATABASE \"f.oo\"", str "f.oo"),
    (true, str "CREATE DATABASE \"f,oo\"", str "f,oo"),
    (true, str "CREATE DATABASE \"f oo\"", str "f oo"),
    (true, str "CREATE DATABASE \"f\\\"oo\"", str "f\"oo"),
    (false, str "DELETE FROM \"cpu\"", str "cpu"),
    (false, str "DELETE FROM \"cpu\" WHERE time < '2000-01-01T00:00:00Z'", str "cpu"),
    (false, str "DROP MEASUREMENT cpu;", str "cpu"),
    (false, str "DROP MEASUREMENT \"cpu\"", str "cpu"),
    (false, str "DROP SERIES FROM \"cpu\" WHERE cpu = 'cpu8'", str "cpu"),
    (false, str "DROP SERIES FROM \"telegraf\"..\"cp u\" WHERE cpu = 'cpu8'", str "cp u"),
    (false, str "DROP SERIES FROM \"telegraf\".\"autogen\".\"cp u\" WHERE cpu = 'cpu8'", str "cp u"),
    (false, str "REVOKE ALL PRIVILEGES FROM \"jdoe\"", str "jdoe"),
    (false, str "REVOKE READ ON \"mydb\" FROM \"jdoe\"", str "jdoe"),
    (false, str "select * from cpu", str "cpu"),
    (false, str "(select *) from \"c.pu\"", str "c.pu"),
    (false, str "[select *] from \"c,pu\"", str "c,pu"),
    (false, str "{select *} from \"c pu\"", str "c pu"),
    (false, str "select * from \"cpu\"", str "cpu"),
    (false, str "select * from \"c\\\"pu\"", str "c\"pu"),
    (false, str "select * from 'cpu'", str "cpu"),
    (false, str "select * from \"db\".\"autogen\".\"cpu.load\"", str "cpu.load"),
    (false, str "select * from \"d.b\".\"autogen\".\"cpu.load\"", str "cpu.load"),
    (false, str "SELECT mean(\"value\") INTO \"cpu\\\"_1h\".:MEASUREMENT FROM /cpu.*/", str "/cpu.*/"),
    (false, str "SELECT mean(\"value\") FROM \"cpu\" WHERE \"region\" = 'uswest' GROUP BY time(10m) fill(0)", str "cpu"),
    (false, str "SHOW FIELD KEYS FROM \"cpu\"", str "cpu"),
    (false, str "SHOW FIELD KEYS FROM \"1h\".\"cpu\"", str "cpu"),
    (false, str "SHOW FIELD KEYS FROM 1h.cpu", str "cpu"),
    (false, str "SHOW FIELD KEYS FROM \"cpu.load\"", str "cpu.load"),
    (false, str "SHOW FIELD KEYS FROM 1h.\"cpu.load\"", str "cpu.load"),
    (false, str "SHOW FIELD KEYS FROM \"1h\".\"cpu.load\"", str "cpu.load"),
    (false, str "SHOW SERIES FROM \"cpu\" WHERE cpu = 'cpu8'", str "cpu"),
    (false, str "SHOW SERIES FROM \"telegraf\"..\"cp.u\" WHERE cpu = 'cpu8'", str "cp.u"),
    (false, str "SHOW SERIES FROM \"telegraf\".\"autogen\".\"cp.u\" WHERE cpu = 'cpu8'", str "cp.u"),
    (false, str "SHOW TAG KEYS FROM cpu", str "cpu"),
    (false, str "SHOW TAG KEYS FROM \"cpu\" WHERE \"region\" = 'uswest'", str "cpu"),
    (false, str "SHOW TAG VALUES FROM \"cpu\" WITH KEY = \"region\"", str "cpu"),
    (false, str "SHOW TAG VALUES FROM \"cpu\" WITH KEY IN (\"region\", \"host\") WHERE \"service\" = 'redis'", str "cpu") ]

/-- The result of the parser for one assertion of the test corpus. -/
def corpusResult (t : Bool × Bytes × Bytes) : Option Bytes :=
  if t.1 then GetDatabaseFromInfluxQL t.2.1 else GetMeasurementFromInfluxQL t.2.1

/-! ## The timer invariant of the worker loop -/

/-- Every entry with a positive `Counter` has a non-nil `Buffer`, and the flush timer
is armed (`chTimer` is not nil) as soon as one entry has a positive `Counter`. -/
def TimerCovers (ib : Backend) : Prop :=
  ∀ db cb, mapGet ib.buffers db = some cb → cb.Counter > 0 →
    ib.chTimer ≠ none ∧ cb.Buffer ≠ none

/-! ## Replica-health accounting (`Backend.GetHealth`) -/

/-- The fields of the embedded `HttpBackend` that `GetHealth` reads. -/
structure HttpBackend where
  Name : Bytes
  Url : Bytes
  deriving DecidableEq, Repr

/-- The ring `*Circle` as `GetHealth` uses it: the method `GetBackend(key)`, whose
result is taken to be a non-nil backend. -/
structure Circle where
  GetBackend : Bytes → HttpBackend

/-- What the collaborators answer during one call of `GetHealth`: `databases` is the
result of `ib.GetDatabases()`, `measurements i` the result of `ib.GetMeasurements(db)`
in the goroutine started for the `i`-th element of `databases`, `isActive` the result of
`ib.IsActive()`, `isData` the result of `ib.fb.IsData()`. -/
structure HealthEnv where
  databases : List Bytes
  measurements : Nat → List Bytes
  isActive : Bool
  isData : Bool

/-- The `map[string]int` literal that a goroutine of `GetHealth` stores: its three keys
`"measurements"`, `"inplace"`, `"incorrect"`. The two counters are incremented at most
`len(measurements)` times, so the Go `int` does not wrap. -/
structure DbStats where
  measurements : Nat
  inplace : Nat
  incorrect : Nat
  deriving DecidableEq, Repr

/-- The loop `for _, meas := range measurements` of `GetHealth`, from the counters
`(inplace, incorrect)`. `GetKey` is the routing-key function of the package. -/
def healthCount (GetKey : Bytes → Bytes → Bytes) (ic : Circle) (url db : Bytes) :
    List Bytes → Nat × Nat → Nat × Nat
  | [], acc => acc
  | meas :: rest, (inplace, incorrect) =>
    let key := GetKey db meas
    let nb := ic.GetBackend key
    if nb.Url = url then healthCount GetKey ic url db rest (inplace + 1, incorrect)
    else healthCount GetKey ic url db rest (inplace, incorrect + 1)

/-- The body of the goroutine `GetHealth` starts for `db`, up to its `smap.Store`:
the value stored under `db`, `measurements` being what `GetMeasurements(db)` returned. -/
def healthOfDb (GetKey : Bytes → Bytes → Bytes) (ic : Circle) (url db : Bytes)
    (measurements : List Bytes) : DbStats :=
  let counts := healthCount GetKey ic url db measurements (0, 0)
  { measurements := measurements.length, inplace := counts.1, incorrect := counts.2 }

/-- Map read `stats[db]`. -/
def statsGet : List (Bytes × DbStats) → Bytes → Option DbStats
  | [], _ => none
  | (k, v) :: rest, db => if k = db then some v else statsGet rest db

/-- Map write `smap.Store(db, v)`. -/
def statsSet : List (Bytes × DbStats) → Bytes → DbStats → List (Bytes × DbStats)
  | [], db, v => [(db, v)]
  | (k, w) :: rest, db, v => if k = db then (k, v) :: rest else (k, w) :: statsSet rest db v

/-- The `smap.Store` calls of the goroutines of `GetHealth`, in the order `order` in
which the goroutines (given by their index in `databases`) reach it. -/
def healthStores (GetKey : Bytes → Bytes → Bytes) (ic : Circle) (url : Bytes)
    (env : HealthEnv) : List Nat → List (Bytes × DbStats) → List (Bytes × DbStats)
  | [], smap => smap
  | i :: rest, smap =>
    match env.databases.get? i with
    | none => healthStores GetKey ic url env rest smap
    | some db =>
      healthStores GetKey ic url env rest
        (statsSet smap db (healthOfDb GetKey ic url db (env.measurements i)))

/-- The map `GetHealth` returns, its keys `"name"`, `"url"`, `"active"`, `"backlog"`,
`"rewrite"`, `"stats"` as fields. -/
structure Health where
  name : Bytes
  url : Bytes
  active : Bool
  backlog : Bool
  rewrite : Bool
  stats : List (Bytes × DbStats)
  deriving DecidableEq, Repr

/-- The method `Backend.GetHealth`. One goroutine per element of `databases` computes
the entry of its db and stores it; `wg.Wait()` lets all of them finish, in an order
`order` (a permutation of the indices of `databases`) that the scheduler chooses; the
stored entries are then copied to `stats`. -/
def GetHealth (GetKey : Bytes → Bytes → Bytes) (hb : HttpBackend) (ib : Backend)
    (ic : Circle) (env : HealthEnv) (order : List Nat) : Health :=
  { name := hb.Name
    url := hb.Url
    active := env.isActive
    backlog := env.isData
    rewrite := ib.rewriteRunning
    stats := healthStores GetKey ic hb.Url env order [] }

/-- A backend with the url `u`. -/
def backendAt (u : Bytes) : HttpBackend := { Name := u, Url := u }

/-- A ring of two backends `a` and `b`: keys that start with the byte `x` go to `b`,
all other keys to `a`. -/
def sampleCircle : Circle :=
  { GetBackend := fun key =>
      match key with
      | 120 :: _ => backendAt (str "b")
      | _ => backendAt (str "a") }

/-- The answers of a backend with the databases `d1` and `d2`: `d1` has the
measurements `cpu`, `xmem`, `disk`, and `d2` has `xnet`. -/
def sampleHealthEnv : HealthEnv :=
  { databases := [str "d1", str "d2"]
    measurements := fun i => if i = 0 then [str "cpu", str "xmem", str "disk"] else [str "xnet"]
    isActive := true
    isData := false }

/-- A routing key that starts with the measurement (the accounting does not depend on
the choice). -/
def sampleKey (db meas : Bytes) : Bytes := meas ++ 44 :: db

/-! ## Sample answers for the replay loop -/

/-- Answers of a `Rewrite` whose `Read` finds nothing. -/
def idleRewriteEnv : RewriteEnv :=
  { read := (none, none), httpWrite := fun _ _ => none, updateMeta := none, rollbackMeta := none }

/-- Two passes of the replay loop: the backlog has data and the backend is not active,
then the backlog has no data. -/
def inactiveThenEmpty (k : Nat) : LoopEnv :=
  if k = 0 then { isData := true, active := false, rewrite := idleRewriteEnv }
  else { isData := false, active := false, rewrite := idleRewriteEnv }

/-- Answers of a `Rewrite` whose `Read` fails with an error that is not `io.EOF` and
yields no record. -/
def failedReadEnv : RewriteEnv :=
  { read := (none, some (Error.Other 5)), httpWrite := fun _ _ => none, updateMeta := none,
    rollbackMeta := none }

/-! ## The map -/

theorem mapGet_mapSet (m : List (Bytes × CacheBuffer)) (db k : Bytes) (cb : CacheBuffer) :
    mapGet (mapSet m db cb) k = if k = db then some cb else mapGet m k := by
  induction m with
  | nil =>
    by_cases h : k = db
    · simp [mapSet, mapGet, h]
    · have h2 : ¬ db = k := fun e => h e.symm
      simp [mapSet, mapGet, h, h2]
  | cons hd tl ih =>
    obtain ⟨k0, v0⟩ := hd
    by_cases h0 : k0 = db
    · by_cases h : k = db
      · simp [mapSet, mapGet, h0, h]
      · have h2 : ¬ db = k := fun e => h e.symm
        simp [mapSet, mapGet, h0, h, h2]
    · by_cases h : k = db
      · rw [if_pos h] at ih
        rw [if_pos h]
        simp only [mapSet, if_neg h0, mapGet]
        rw [if_neg (fun e => h0 (e.trans h))]
        exact ih
      · by_cases h3 : k0 = k
        · simp [mapSet, mapGet, h0, h, h3]
        · simp [mapSet, mapGet, h0, h, h3, ih]

theorem mapGet_some_of_mem (m : List (Bytes × CacheBuffer)) (k : Bytes)
    (h : k ∈ m.map Prod.fst) : ∃ cb, mapGet m k = some cb := by
  induction m with
  | nil => simp at h
  | cons hd tl ih =>
    obtain ⟨k0, v0⟩ := hd
    by_cases h0 : k0 = k
    · exact ⟨v0, by simp [mapGet, h0]⟩
    · have hk : k ∈ tl.map Prod.fst := by
        simp only [List.map_cons, List.mem_cons] at h
        rcases h with h | h
        · exact absurd h.symm h0
        · exact h
      obtain ⟨cb, hcb⟩ := ih hk
      exact ⟨cb, by simp [mapGet, h0, hcb]⟩

theorem mem_of_mapGet_some (m : List (Bytes × CacheBuffer)) (k : Bytes) (cb : CacheBuffer)
    (h : mapGet m k = some cb) : k ∈ m.map Prod.fst := by
  induction m with
  | nil => simp [mapGet] at h
  | cons hd tl ih =>
    obtain ⟨k0, v0⟩ := hd
    by_cases h0 : k0 = k
    · simp [h0]
    · simp only [mapGet, h0, if_false] at h
      simp only [List.map_cons, List.mem_cons]
      exact Or.inr (ih h)

/-! ## FlushBuffer and Flush, entry by entry -/

theorem batchesFor_append (ib ib1 : Backend) (extra : List (Bytes × Bytes)) (db : Bytes)
    (h : ib1.submitted = ib.submitted ++ extra) :
    batchesFor ib1 db = batchesFor ib db ++ (extra.filter (fun t => t.1 = db)).map Prod.snd := by
  simp [batchesFor, h]

theorem FlushBuffer_spec (ib : Backend) (db : Bytes) (cb : CacheBuffer)
    (h : mapGet ib.buffers db = some cb) :
    ∃ ib1, FlushBuffer ib db = Except.ok ib1 ∧ SameFrame ib ib1 ∧
      (∀ k, mapGet ib1.buffers k = if k = db then some (resetEntry cb) else mapGet ib.buffers k) ∧
      ib1.submitted = ib.submitted ++ resetBatch db cb := by
  cases hb : cb.Buffer with
  | none =>
    refine ⟨ib, by simp [FlushBuffer, h, hb], ⟨rfl, rfl, rfl, rfl, rfl, rfl, rfl⟩, ?_, ?_⟩
    · intro k
      by_cases hk : k = db
      · simp [hk, resetEntry, hb, h]
      · simp [hk]
    · simp [resetBatch, hb]
  | some p =>
    by_cases hp : p.length = 0
    · refine ⟨{ ib with buffers := mapSet ib.buffers db { Buffer := none, Counter := 0 } },
        by simp only [FlushBuffer, h, hb, hp, if_true],
        ⟨rfl, rfl, rfl, rfl, rfl, rfl, rfl⟩, ?_, ?_⟩
      · intro k
        simp [mapGet_mapSet, resetEntry, hb]
      · simp [resetBatch, hb, hp]
    · refine ⟨{ ib with buffers := mapSet ib.buffers db { Buffer := none, Counter := 0 }
                        submitted := ib.submitted ++ [(db, p)] },
        by simp only [FlushBuffer, h, hb, hp, if_false],
        ⟨rfl, rfl, rfl, rfl, rfl, rfl, rfl⟩, ?_, ?_⟩
      · intro k
        simp [mapGet_mapSet, resetEntry, hb]
      · simp [resetBatch, hb, hp]

theorem flushedBatch_fst (db : Bytes) (cb : CacheBuffer) (t : Bytes × Bytes)
    (h : t ∈ flushedBatch db cb) : t.1 = db := by
  unfold flushedBatch resetBatch at h
  split_ifs at h
  · split at h
    · split_ifs at h
      · simp at h
      · simp at h
        rw [h]
    · simp at h
  · simp at h

theorem flushedEntry_idem (cb : CacheBuffer) : flushedEntry (flushedEntry cb) = flushedEntry cb := by
  unfold flushedEntry resetEntry
  by_cases hc : cb.Counter > 0
  · cases hb : cb.Buffer with
    | none => simp [hc, hb]
    | some b => simp [hc, hb]
  · simp [hc]

theorem flushedBatch_flushedEntry (db : Bytes) (cb : CacheBuffer) :
    flushedBatch db (flushedEntry cb) = [] := by
  unfold flushedBatch flushedEntry resetEntry resetBatch
  by_cases hc : cb.Counter > 0
  · cases hb : cb.Buffer with
    | none => simp [hc, hb]
    | some b => simp [hc, hb]
  · simp [hc]

theorem flushIfCounted_spec (ib : Backend) (db : Bytes) (cb : CacheBuffer)
    (h : mapGet ib.buffers db = some cb) :
    ∃ ib1, flushIfCounted ib db = Except.ok ib1 ∧ SameFrame ib ib1 ∧
      (∀ k, mapGet ib1.buffers k = if k = db then some (flushedEntry cb) else mapGet ib.buffers k) ∧
      ib1.submitted = ib.submitted ++ flushedBatch db cb := by
  by_cases hc : cb.Counter > 0
  · obtain ⟨ib1, h1, h2, h3, h4⟩ := FlushBuffer_spec ib db cb h
    refine ⟨ib1, by simp only [flushIfCounted, h, hc, if_true, h1], h2, ?_, ?_⟩
    · intro k
      simp only [flushedEntry, hc, if_true]
      exact h3 k
    · simp only [flushedBatch, hc, if_true]
      exact h4
  · refine ⟨ib, by simp only [flushIfCounted, h, hc, if_false],
      ⟨rfl, rfl, rfl, rfl, rfl, rfl, rfl⟩, ?_, ?_⟩
    · intro k
      by_cases hk : k = db
      · simp [hk, flushedEntry, hc, h]
      · simp [hk]
    · simp [flushedBatch, hc]

theorem SameFrame.trans {a b c : Backend} (h1 : SameFrame a b) (h2 : SameFrame b c) :
    SameFrame a c := by
  obtain ⟨a1, a2, a3, a4, a5, a6, a7⟩ := h1
  obtain ⟨b1, b2, b3, b4, b5, b6, b7⟩ := h2
  exact ⟨b1.trans a1, b2.trans a2, b3.trans a3, b4.trans a4, b5.trans a5, b6.trans a6,
    b7.trans a7⟩

/-- The batches the loop of `Flush` over `keys` adds for `db`. -/
theorem flushRange_spec (keys : List Bytes) :
    ∀ ib : Backend, (∀ k ∈ keys, ∃ cb, mapGet ib.buffers k = some cb) →
    ∃ ib1, flushRange keys ib = Except.ok ib1 ∧ SameFrame ib ib1 ∧
      (∀ k, mapGet ib1.buffers k =
        if k ∈ keys then (mapGet ib.buffers k).map flushedEntry else mapGet ib.buffers k) ∧
      (∀ db, batchesFor ib1 db = batchesFor ib db ++
        (if db ∈ keys then
          match mapGet ib.buffers db with
          | some cb => (flushedBatch db cb).map Prod.snd
          | none => []
         else [])) := by
  induction keys with
  | nil =>
    intro ib _
    exact ⟨ib, rfl, ⟨rfl, rfl, rfl, rfl, rfl, rfl, rfl⟩, by simp, by simp⟩
  | cons k rest ih =>
    intro ib hall
    obtain ⟨cb, hcb⟩ := hall k (List.mem_cons_self k rest)
    obtain ⟨ib1, e1, f1, g1, s1⟩ := flushIfCounted_spec ib k cb hcb
    have hall1 : ∀ j ∈ rest, ∃ c, mapGet ib1.buffers j = some c := by
      intro j hj
      rw [g1 j]
      by_cases hjk : j = k
      · exact ⟨flushedEntry cb, by simp [hjk]⟩
      · obtain ⟨c, hc⟩ := hall j (List.mem_cons_of_mem k hj)
        exact ⟨c, by simp [hjk, hc]⟩
    obtain ⟨ib2, e2, f2, g2, s2⟩ := ih ib1 hall1
    refine ⟨ib2, by simp only [flushRange, e1, e2], f1.trans f2, ?_, ?_⟩
    · intro j
      rw [g2 j, g1 j]
      by_cases hjk : j = k
      · subst hjk
        by_cases hjr : j ∈ rest
        · simp [hjr, hcb, flushedEntry_idem]
        · simp [hjr, hcb]
      · by_cases hjr : j ∈ rest
        · simp [hjk, hjr]
        · simp [hjk, hjr]
    · intro db
      rw [s2 db, batchesFor_append ib ib1 _ db s1, g1 db]
      by_cases hdk : db = k
      · subst hdk
        have hfil : (flushedBatch db cb).filter (fun t => t.1 = db) = flushedBatch db cb := by
          apply List.filter_eq_self.mpr
          intro t ht
          simp [flushedBatch_fst db cb t ht]
        by_cases hdr : db ∈ rest
        · simp [hdr, hcb, hfil, flushedBatch_flushedEntry]
        · simp [hdr, hcb, hfil]
      · have hfil : (flushedBatch k cb).filter (fun t => t.1 = db) = [] := by
          apply List.filter_eq_nil_iff.mpr
          intro t ht
          have h1 := flushedBatch_fst k cb t ht
          have h2 : ¬ t.1 = db := fun e => hdk (e.symm.trans h1)
          simp [h2]
        by_cases hdr : db ∈ rest
        · simp [hdk, hdr, hfil]
        · simp [hdk, hdr, hfil]

theorem Flush_spec (ib : Backend) :
    ∃ ib1, Flush ib = Except.ok ib1 ∧
      ib1.flushSize = ib.flushSize ∧ ib1.flushTime = ib.flushTime ∧
      ib1.chTimer = none ∧ ib1.timeAfter = ib.timeAfter ∧
      (∀ k, mapGet ib1.buffers k = (mapGet ib.buffers k).map flushedEntry) ∧
      (∀ db, batchesFor ib1 db = batchesFor ib db ++
          match mapGet ib.buffers db with
          | some cb => (flushedBatch db cb).map Prod.snd
          | none => []) := by
  have hall : ∀ k ∈ ib.buffers.map Prod.fst,
      ∃ cb, mapGet ({ ib with chTimer := none } : Backend).buffers k = some cb :=
    fun k hk => mapGet_some_of_mem ib.buffers k hk
  obtain ⟨ib1, e1, f1, g1, s1⟩ := flushRange_spec (ib.buffers.map Prod.fst) _ hall
  obtain ⟨a1, a2, _, _, a5, a6, _⟩ := f1
  refine ⟨ib1, e1, a1, a2, a5, a6, ?_, ?_⟩
  · intro k
    rw [g1 k]
    cases hk : mapGet ib.buffers k with
    | none => simp
    | some cb => simp [mem_of_mapGet_some ib.buffers k cb hk]
  · intro db
    rw [s1 db]
    cases hk : mapGet ib.buffers db with
    | none => simp [batchesFor]
    | some cb => simp [mem_of_mapGet_some ib.buffers db cb hk, batchesFor]

theorem terminated_ne_nil (line : Bytes) : terminated line ≠ [] := by
  unfold terminated
  split_ifs with h
  · intro e
    rw [e] at h
    simp at h
  · simp

theorem WriteBuffer_spec (ib : Backend) (p : LinePoint) (hline : p.Line ≠ []) :
    ∃ ib1, WriteBuffer ib p = Except.ok ib1 ∧
      ib1.flushSize = ib.flushSize ∧ ib1.flushTime = ib.flushTime ∧
      (∀ k, mapGet ib1.buffers k =
        if k = p.Db then
          some (if (appended ib p).Counter ≥ ib.flushSize then
            { Buffer := none, Counter := 0 } else appended ib p)
        else mapGet ib.buffers k) ∧
      ib1.submitted = ib.submitted ++
        (if (appended ib p).Counter ≥ ib.flushSize then
          [(p.Db, (entryFor ib p.Db).bytes ++ terminated p.Line)] else []) ∧
      ib1.chTimer =
        (if (appended ib p).Counter ≥ ib.flushSize then ib.chTimer
         else match ib.chTimer with
          | some t => some t
          | none => some (secondsDuration ib.flushTime)) ∧
      ib1.timeAfter = ib.timeAfter ++
        (if (appended ib p).Counter ≥ ib.flushSize then []
         else match ib.chTimer with
          | some _ => []
          | none => [secondsDuration ib.flushTime]) := by
  obtain ⟨last, hlast⟩ : ∃ c, p.Line.getLast? = some c := by
    cases hl : p.Line.getLast? with
    | none => exact absurd (List.getLast?_eq_none_iff.mp hl) hline
    | some c => exact ⟨c, rfl⟩
  have hterm : ∀ buf : Bytes, (if ¬ last = NL then bytesBufferWriteByte (buf ++ p.Line) NL
      else (buf ++ p.Line, none)) = (buf ++ terminated p.Line, (none : Option Error)) := by
    intro buf
    unfold terminated bytesBufferWriteByte
    rw [hlast]
    by_cases hnl : last = NL
    · simp [hnl]
    · simp [hnl]
  have hW : WriteBuffer ib p =
      (if (appended ib p).Counter ≥ ib.flushSize then
        FlushBuffer { ib with buffers := mapSet ib.buffers p.Db (appended ib p) } p.Db
       else if ib.chTimer = none then
          Except.ok { ib with buffers := mapSet ib.buffers p.Db (appended ib p)
                              chTimer := some (secondsDuration ib.flushTime)
                              timeAfter := ib.timeAfter ++ [secondsDuration ib.flushTime] }
       else Except.ok { ib with buffers := mapSet ib.buffers p.Db (appended ib p) }) := by
    unfold WriteBuffer
    simp only [bytesBufferWrite, hlast, ne_eq, not_true_eq_false, if_false, hterm]
    rfl
  have hget : mapGet ({ ib with buffers := mapSet ib.buffers p.Db (appended ib p) } :
      Backend).buffers p.Db = some (appended ib p) := by
    simp [mapGet_mapSet]
  by_cases hc : (appended ib p).Counter ≥ ib.flushSize
  · obtain ⟨ib1, e1, f1, g1, s1⟩ := FlushBuffer_spec _ p.Db _ hget
    obtain ⟨a1, a2, _, _, a5, a6, _⟩ := f1
    have hne : (entryFor ib p.Db).bytes ++ terminated p.Line ≠ [] := by
      simp [terminated_ne_nil]
    refine ⟨ib1, by rw [hW, if_pos hc, e1], a1, a2, ?_, ?_, ?_, ?_⟩
    · intro k
      rw [g1 k, if_pos hc]
      by_cases hk : k = p.Db
      · rw [if_pos hk, if_pos hk]
        rfl
      · rw [if_neg hk, if_neg hk]
        simp [mapGet_mapSet, hk]
    · rw [s1, if_pos hc]
      have hb : (appended ib p).Buffer = some ((entryFor ib p.Db).bytes ++ terminated p.Line) :=
        rfl
      have hlen : ¬ ((entryFor ib p.Db).bytes ++ terminated p.Line).length = 0 := by
        intro e
        exact hne (List.length_eq_zero.mp e)
      simp only [resetBatch, hb, hlen, if_false]
    · rw [a5, if_pos hc]
    · rw [a6, if_pos hc]
      simp
  · cases ht : ib.chTimer with
    | none =>
      refine ⟨{ ib with buffers := mapSet ib.buffers p.Db (appended ib p)
                        chTimer := some (secondsDuration ib.flushTime)
                        timeAfter := ib.timeAfter ++ [secondsDuration ib.flushTime] },
        by rw [hW, if_neg hc, if_pos ht], rfl, rfl, ?_, ?_, ?_, ?_⟩
      · intro k
        simp only [mapGet_mapSet, if_neg hc]
      · simp only [if_neg hc, List.append_nil]
      · simp only [if_neg hc]
      · simp only [if_neg hc]
    | some t =>
      have ht2 : ¬ ib.chTimer = none := by simp [ht]
      refine ⟨{ ib with buffers := mapSet ib.buffers p.Db (appended ib p) },
        by rw [hW, if_neg hc, if_neg ht2], rfl, rfl, ?_, ?_, ?_, ?_⟩
      · intro k
        simp only [mapGet_mapSet, if_neg hc]
      · simp only [if_neg hc, List.append_nil]
      · simp only [if_neg hc, ht]
      · simp only [if_neg hc, List.append_nil]

/-! ## Invariants of the worker loop -/

theorem GoodEntry_empty (P : Bytes → Prop) (fs : Nat) :
    GoodEntry P fs { Buffer := none, Counter := 0 } :=
  ⟨[], by simp, by simp [CacheBuffer.bytes], by simp, Or.inl rfl⟩

theorem GoodEntry_flushed (P : Bytes → Prop) (fs : Nat) (cb : CacheBuffer)
    (h : GoodEntry P fs cb) : GoodEntry P fs (flushedEntry cb) := by
  unfold flushedEntry resetEntry
  by_cases hc : cb.Counter > 0
  · cases hb : cb.Buffer with
    | none => simpa [hc, hb] using h
    | some b =>
      simp only [hc, if_true]
      exact GoodEntry_empty P fs
  · simpa [hc] using h

theorem GoodEntry_entryFor (P : Bytes → Prop) (ib : Backend) (db : Bytes)
    (h : GoodBuffers P ib) : GoodEntry P ib.flushSize (entryFor ib db) := by
  unfold entryFor
  cases hg : mapGet ib.buffers db with
  | none => exact ⟨[], by simp, by simp [CacheBuffer.bytes], by simp, Or.inl rfl⟩
  | some cb => exact h db cb hg

theorem GoodEntry_appended (P : Bytes → Prop) (ib : Backend) (p : LinePoint)
    (hfs : ib.flushSize < 2 ^ 64) (hP : P (terminated p.Line)) (h : GoodBuffers P ib)
    (hc : ¬ (appended ib p).Counter ≥ ib.flushSize) :
    GoodEntry P ib.flushSize (appended ib p) := by
  obtain ⟨ls, h1, h2, h3, h4⟩ := GoodEntry_entryFor P ib p.Db h
  have hcnt : (appended ib p).Counter = ((entryFor ib p.Db).Counter + 1) % 2 ^ 64 := rfl
  have hno : ((entryFor ib p.Db).Counter + 1) % 2 ^ 64 = (entryFor ib p.Db).Counter + 1 := by
    omega
  refine ⟨ls ++ [terminated p.Line], ?_, ?_, ?_, ?_⟩
  · intro l hl
    rcases List.mem_append.mp hl with hl | hl
    · exact h1 l hl
    · simp only [List.mem_singleton] at hl
      rw [hl]
      exact hP
  · show (entryFor ib p.Db).bytes ++ terminated p.Line = _
    rw [h2]
    simp
  · rw [hcnt, hno, h3]
    simp
  · right
    omega

theorem WriteBuffer_good (P : Bytes → Prop) (ib : Backend) (p : LinePoint)
    (hline : p.Line ≠ []) (hfs : ib.flushSize < 2 ^ 64) (hP : P (terminated p.Line))
    (h : GoodBuffers P ib) :
    ∃ ib1, WriteBuffer ib p = Except.ok ib1 ∧ ib1.flushSize = ib.flushSize ∧
      GoodBuffers P ib1 := by
  obtain ⟨ib1, e1, a1, _, g1, _, _, _⟩ := WriteBuffer_spec ib p hline
  refine ⟨ib1, e1, a1, ?_⟩
  intro db cb hcb
  rw [a1]
  rw [g1 db] at hcb
  by_cases hk : db = p.Db
  · rw [if_pos hk] at hcb
    by_cases hc : (appended ib p).Counter ≥ ib.flushSize
    · rw [if_pos hc] at hcb
      cases hcb
      exact GoodEntry_empty P _
    · rw [if_neg hc] at hcb
      cases hcb
      exact GoodEntry_appended P ib p hfs hP h hc
  · rw [if_neg hk] at hcb
    exact h db cb hcb

theorem Flush_good (P : Bytes → Prop) (ib : Backend) (h : GoodBuffers P ib) :
    ∃ ib1, Flush ib = Except.ok ib1 ∧ ib1.flushSize = ib.flushSize ∧ GoodBuffers P ib1 := by
  obtain ⟨ib1, e1, a1, _, _, _, g1, _⟩ := Flush_spec ib
  refine ⟨ib1, e1, a1, ?_⟩
  intro db cb hcb
  rw [a1]
  rw [g1 db] at hcb
  cases hg : mapGet ib.buffers db with
  | none => simp [hg] at hcb
  | some cb0 =>
    simp only [hg, Option.map_some', Option.some.injEq] at hcb
    rw [← hcb]
    exact GoodEntry_flushed P _ cb0 (h db cb0 hg)

theorem workerRun_good (P : Bytes → Prop) (evs : List Event) :
    ∀ ib : Backend, ib.flushSize < 2 ^ 64 →
      (∀ e ∈ evs, e.lineNonEmpty = true) →
      (∀ q, Event.write q ∈ evs → P (terminated q.Line)) →
      GoodBuffers P ib →
      ∃ ib1, workerRun ib evs = Except.ok ib1 ∧ ib1.flushSize = ib.flushSize ∧
        GoodBuffers P ib1 := by
  induction evs with
  | nil =>
    intro ib _ _ _ h
    exact ⟨ib, rfl, rfl, h⟩
  | cons e rest ih =>
    intro ib hfs hne hP h
    have hne1 : ∀ e1 ∈ rest, e1.lineNonEmpty = true :=
      fun e1 he1 => hne e1 (List.mem_cons_of_mem e he1)
    have hP1 : ∀ q, Event.write q ∈ rest → P (terminated q.Line) :=
      fun q hq => hP q (List.mem_cons_of_mem e hq)
    cases e with
    | write q =>
      have hq : q.Line ≠ [] := by
        have := hne (Event.write q) (List.mem_cons_self _ _)
        simpa [Event.lineNonEmpty] using this
      obtain ⟨ib1, e1, a1, g1⟩ :=
        WriteBuffer_good P ib q hq hfs (hP q (List.mem_cons_self _ _)) h
      obtain ⟨ib2, e2, a2, g2⟩ := ih ib1 (by rw [a1]; exact hfs) hne1 hP1 g1
      exact ⟨ib2, by simp only [workerRun, workerStep, e1, e2], a2.trans a1, g2⟩
    | flush =>
      obtain ⟨ib1, e1, a1, g1⟩ := Flush_good P ib h
      obtain ⟨ib2, e2, a2, g2⟩ := ih ib1 (by rw [a1]; exact hfs) hne1 hP1 g1
      exact ⟨ib2, by simp only [workerRun, workerStep, e1, e2], a2.trans a1, g2⟩

theorem GoodBuffers_new (P : Bytes → Prop) (fs : Nat) (ft ri : Int) :
    GoodBuffers P (NewBackend fs ft ri) := by
  intro db cb h
  simp [NewBackend, mapGet] at h

theorem terminated_isLine (line : Bytes) (h1 : line ≠ []) (h2 : NL ∉ line.dropLast) :
    IsLine (terminated line) := by
  unfold terminated
  split_ifs with h
  · refine ⟨line.dropLast, h2, ?_⟩
    exact (List.dropLast_append_getLast? NL (by simp [h])).symm
  · refine ⟨line, ?_, rfl⟩
    intro hmem
    obtain ⟨c, hc⟩ : ∃ c, line.getLast? = some c := by
      cases hl : line.getLast? with
      | none => exact absurd (List.getLast?_eq_none_iff.mp hl) h1
      | some c => exact ⟨c, rfl⟩
    have hsplit : line.dropLast ++ [c] = line :=
      List.dropLast_append_getLast? c (by simp [hc])
    rw [← hsplit] at hmem
    rcases List.mem_append.mp hmem with hm | hm
    · exact h2 hm
    · simp only [List.mem_singleton] at hm
      rw [← hm] at hc
      exact h hc

theorem count_lines (ls : List Bytes) (h : ∀ l ∈ ls, IsLine l) :
    ls.flatten.count NL = ls.length := by
  induction ls with
  | nil => simp
  | cons l rest ih =>
    obtain ⟨body, hb, hl⟩ := h l (List.mem_cons_self _ _)
    have ih1 := ih (fun l1 h1 => h l1 (List.mem_cons_of_mem _ h1))
    rw [List.flatten_cons, List.count_append, ih1, hl, List.count_append,
      List.count_eq_zero.mpr hb]
    simp
    omega

/-! ## Conservation of the buffered lines -/

theorem flushed_conserve (db : Bytes) (cb : CacheBuffer) :
    ((flushedBatch db cb).map Prod.snd).flatten ++ (flushedEntry cb).bytes = cb.bytes := by
  unfold flushedBatch flushedEntry resetBatch resetEntry
  by_cases hc : cb.Counter > 0
  · cases hb : cb.Buffer with
    | none => simp [hc, hb, CacheBuffer.bytes]
    | some b =>
      by_cases hl : b.length = 0
      · have hnil : b = [] := List.length_eq_zero.mp hl
        simp [hc, hb, CacheBuffer.bytes, hnil]
      · simp [hc, hb, CacheBuffer.bytes, hl]
  · simp [hc]

theorem bufferedFor_entryFor (ib : Backend) (db : Bytes) :
    (entryFor ib db).bytes = bufferedFor ib db := by
  unfold entryFor bufferedFor
  cases mapGet ib.buffers db with
  | none => rfl
  | some cb => rfl

theorem bytes_reset : ({ Buffer := none, Counter := 0 } : CacheBuffer).bytes = [] := rfl

theorem bytes_appended (ib : Backend) (p : LinePoint) :
    (appended ib p).bytes = bufferedFor ib p.Db ++ terminated p.Line := by
  rw [← bufferedFor_entryFor]
  rfl

theorem WriteBuffer_conserve (ib : Backend) (p : LinePoint) (hline : p.Line ≠ []) :
    ∃ ib1, WriteBuffer ib p = Except.ok ib1 ∧
      ∀ db, (batchesFor ib1 db).flatten ++ bufferedFor ib1 db =
        (batchesFor ib db).flatten ++ bufferedFor ib db ++
          (if p.Db = db then terminated p.Line else []) := by
  obtain ⟨ib1, e1, _, _, g1, s1, _, _⟩ := WriteBuffer_spec ib p hline
  refine ⟨ib1, e1, ?_⟩
  intro db
  rw [batchesFor_append ib ib1 _ db s1]
  have hb : bufferedFor ib1 db = match mapGet ib1.buffers db with
      | some cb => cb.bytes
      | none => [] := rfl
  rw [hb, g1 db]
  by_cases hk : db = p.Db
  · subst hk
    by_cases hc : (appended ib p).Counter ≥ ib.flushSize
    · simp [hc, bytes_reset, bufferedFor_entryFor]
    · simp [hc, bytes_appended]
  · have hk2 : ¬ p.Db = db := fun e => hk e.symm
    by_cases hc : (appended ib p).Counter ≥ ib.flushSize
    · simp [hc, hk, hk2, bufferedFor]
    · simp [hc, hk, hk2, bufferedFor]

theorem Flush_conserve (ib : Backend) :
    ∃ ib1, Flush ib = Except.ok ib1 ∧
      ∀ db, (batchesFor ib1 db).flatten ++ bufferedFor ib1 db =
        (batchesFor ib db).flatten ++ bufferedFor ib db := by
  obtain ⟨ib1, e1, _, _, _, _, g1, s1⟩ := Flush_spec ib
  refine ⟨ib1, e1, ?_⟩
  intro db
  have hb : bufferedFor ib1 db = match mapGet ib1.buffers db with
      | some cb => cb.bytes
      | none => [] := rfl
  rw [s1 db, hb, g1 db]
  cases hg : mapGet ib.buffers db with
  | none => simp [bufferedFor, hg]
  | some cb =>
    simp only [bufferedFor, hg, Option.map_some', List.flatten_append, List.append_assoc]
    rw [flushed_conserve db cb]

theorem workerRun_conserve (evs : List Event) :
    ∀ ib : Backend, (∀ e ∈ evs, e.lineNonEmpty = true) →
      ∃ ib1, workerRun ib evs = Except.ok ib1 ∧
        ∀ db, (batchesFor ib1 db).flatten ++ bufferedFor ib1 db =
          (batchesFor ib db).flatten ++ bufferedFor ib db ++ (arrivedFor db evs).flatten := by
  induction evs with
  | nil =>
    intro ib _
    exact ⟨ib, rfl, by simp [arrivedFor]⟩
  | cons e rest ih =>
    intro ib hne
    have hne1 : ∀ e1 ∈ rest, e1.lineNonEmpty = true :=
      fun e1 he1 => hne e1 (List.mem_cons_of_mem e he1)
    cases e with
    | write q =>
      have hq : q.Line ≠ [] := by
        have := hne (Event.write q) (List.mem_cons_self _ _)
        simpa [Event.lineNonEmpty] using this
      obtain ⟨ib1, e1, c1⟩ := WriteBuffer_conserve ib q hq
      obtain ⟨ib2, e2, c2⟩ := ih ib1 hne1
      refine ⟨ib2, by simp only [workerRun, workerStep, e1, e2], ?_⟩
      intro db
      rw [c2 db, c1 db]
      by_cases hk : q.Db = db
      · simp [arrivedFor, hk]
      · simp [arrivedFor, hk]
    | flush =>
      obtain ⟨ib1, e1, c1⟩ := Flush_conserve ib
      obtain ⟨ib2, e2, c2⟩ := ih ib1 hne1
      refine ⟨ib2, by simp only [workerRun, workerStep, e1, e2], ?_⟩
      intro db
      rw [c2 db, c1 db]
      simp [arrivedFor]

/-! ## The claims on the buffers -/

/-- C1 (buffer shape): from an empty buffer map, after any sequence of worker steps
(`WriteBuffer` of a point whose line is non-empty with no newline before its last byte,
or `Flush`), the run has not panicked and for every db entry the buffered bytes are a
concatenation of lines, each some newline-free bytes followed by one newline, `Counter`
is the number of these lines and the number of newline bytes in the buffer, and a
positive `Counter` means a non-nil, non-empty buffer. -/
theorem buffer_shape (flushSize : Nat) (flushTime rewriteInterval : Int) (evs : List Event)
    (hfs : flushSize < 2 ^ 64) (hev : ∀ e ∈ evs, e.lineSingle = true) :
    ∃ ib, workerRun (NewBackend flushSize flushTime rewriteInterval) evs = Except.ok ib ∧
      ∀ db cb, mapGet ib.buffers db = some cb →
        (∃ ls : List Bytes, (∀ l ∈ ls, IsLine l) ∧ cb.bytes = ls.flatten ∧
          cb.Counter = ls.length) ∧
        cb.Counter = cb.bytes.count NL ∧
        (cb.Counter > 0 → ∃ b, cb.Buffer = some b ∧ b ≠ []) := by
  have hne : ∀ e ∈ evs, e.lineNonEmpty = true := by
    intro e he
    have h := hev e he
    cases e with
    | write q =>
      simp only [Event.lineSingle, Bool.and_eq_true] at h
      exact h.1
    | flush => rfl
  have hP : ∀ q, Event.write q ∈ evs → IsLine (terminated q.Line) := by
    intro q hq
    have h := hev _ hq
    simp only [Event.lineSingle, Bool.and_eq_true, Bool.not_eq_true',
      List.isEmpty_eq_false] at h
    apply terminated_isLine q.Line
    · intro e
      rw [e] at h
      simp at h
    · intro hmem
      have h2 := h.2
      simp [hmem] at h2
  obtain ⟨ib, e1, a1, g1⟩ := workerRun_good IsLine evs
    (NewBackend flushSize flushTime rewriteInterval) hfs hne hP (GoodBuffers_new _ _ _ _)
  refine ⟨ib, e1, ?_⟩
  intro db cb hcb
  obtain ⟨ls, h1, h2, h3, _⟩ := g1 db cb hcb
  have hcount : cb.Counter = cb.bytes.count NL := by
    rw [h2, count_lines ls h1, h3]
  refine ⟨⟨ls, h1, h2, h3⟩, hcount, ?_⟩
  intro hpos
  cases hb : cb.Buffer with
  | none =>
    have : cb.bytes = [] := by simp [CacheBuffer.bytes, hb]
    rw [this] at hcount
    simp at hcount
    omega
  | some b =>
    refine ⟨b, rfl, ?_⟩
    intro hnil
    have : cb.bytes = [] := by simp [CacheBuffer.bytes, hb, hnil]
    rw [this] at hcount
    simp at hcount
    omega

/-- C1 at a concrete run: three points for two dbs with a flush in between,
`flushSize = 3`. -/
theorem buffer_shape_witness :
    (3 < 2 ^ 64) ∧
    (∀ e ∈ [Event.write ⟨[109, 49], [97]⟩, Event.write ⟨[109, 50], [98, 10]⟩, Event.flush,
        Event.write ⟨[109, 49], [99, 32, 100]⟩], e.lineSingle = true) ∧
    ∃ ib, workerRun (NewBackend 3 60 10)
        [Event.write ⟨[109, 49], [97]⟩, Event.write ⟨[109, 50], [98, 10]⟩, Event.flush,
          Event.write ⟨[109, 49], [99, 32, 100]⟩] = Except.ok ib ∧
      ∀ db cb, mapGet ib.buffers db = some cb →
        (∃ ls : List Bytes, (∀ l ∈ ls, IsLine l) ∧ cb.bytes = ls.flatten ∧
          cb.Counter = ls.length) ∧
        cb.Counter = cb.bytes.count NL ∧
        (cb.Counter > 0 → ∃ b, cb.Buffer = some b ∧ b ≠ []) :=
  ⟨by decide, by decide, buffer_shape 3 60 10 _ (by decide) (by decide)⟩

/-- C2 (line conservation and order): from empty buffers, after any sequence of worker
events with non-empty lines, the run has not panicked and for every db the batches
submitted for it, concatenated in submission order, followed by its buffered bytes, are
the lines that arrived for it, in arrival order, each with a newline added only when
it had none at its end. -/
theorem line_conservation (flushSize : Nat) (flushTime rewriteInterval : Int)
    (evs : List Event) (hev : ∀ e ∈ evs, e.lineNonEmpty = true) :
    ∃ ib, workerRun (NewBackend flushSize flushTime rewriteInterval) evs = Except.ok ib ∧
      ∀ db, (batchesFor ib db).flatten ++ bufferedFor ib db = (arrivedFor db evs).flatten := by
  obtain ⟨ib, e1, c1⟩ := workerRun_conserve evs
    (NewBackend flushSize flushTime rewriteInterval) hev
  refine ⟨ib, e1, ?_⟩
  intro db
  rw [c1 db]
  simp [batchesFor, bufferedFor, NewBackend, mapGet]

/-- C2 at a concrete run: the three points of the flush-by-size scenario and a
fourth one. -/
theorem line_conservation_witness :
    (∀ e ∈ [Event.write ⟨[109, 49], [97]⟩, Event.write ⟨[109, 49], [98, 10]⟩,
        Event.write ⟨[109, 49], [99]⟩, Event.write ⟨[109, 49], [100]⟩],
      e.lineNonEmpty = true) ∧
    ∃ ib, workerRun (NewBackend 3 60 10)
        [Event.write ⟨[109, 49], [97]⟩, Event.write ⟨[109, 49], [98, 10]⟩,
          Event.write ⟨[109, 49], [99]⟩, Event.write ⟨[109, 49], [100]⟩] = Except.ok ib ∧
      ∀ db, (batchesFor ib db).flatten ++ bufferedFor ib db =
        (arrivedFor db [Event.write ⟨[109, 49], [97]⟩, Event.write ⟨[109, 49], [98, 10]⟩,
          Event.write ⟨[109, 49], [99]⟩, Event.write ⟨[109, 49], [100]⟩]).flatten :=
  ⟨by decide, line_conservation 3 60 10 _ (by decide)⟩

/-! ## The spill record: escape, split, unescape -/

set_option maxRecDepth 100000 in
theorem hex_facts (c : UInt8) :
    ishex (upperhex (c >>> 4)) = true ∧ ishex (upperhex (c &&& 15)) = true ∧
    ((unhex (upperhex (c >>> 4)) <<< 4) ||| unhex (upperhex (c &&& 15))) = c ∧
    upperhex (c >>> 4) ≠ SP ∧ upperhex (c &&& 15) ≠ SP := by
  cases c with
  | mk v =>
    revert v
    decide

set_option maxRecDepth 100000 in
theorem kept_facts (c : UInt8) (h : shouldEscape c = false) : c ≠ 37 ∧ c ≠ 43 ∧ c ≠ SP := by
  revert h
  cases c with
  | mk v =>
    revert v
    decide

theorem unescapeCheck_skip (c : UInt8) (s : Bytes) (h : c ≠ 37) :
    unescapeCheck (c :: s) = unescapeCheck s := by
  match s with
  | [] => simp [unescapeCheck, h]
  | [a] => simp [unescapeCheck, h]
  | a :: b :: t => simp [unescapeCheck, h]

theorem unescapeBuild_skip (c : UInt8) (s : Bytes) (h : c ≠ 37) :
    unescapeBuild (c :: s) = (if c = 43 then SP else c) :: unescapeBuild s := by
  match s with
  | [] =>
    by_cases h2 : c = 43
    · simp [unescapeBuild, h2]
    · simp [unescapeBuild, h, h2]
  | [a] => simp [unescapeBuild, h]
  | a :: b :: t => simp [unescapeBuild, h]

theorem unescapeCheck_escape (d : Bytes) : unescapeCheck (QueryEscape d) = none := by
  induction d with
  | nil => simp [QueryEscape, unescapeCheck]
  | cons c s ih =>
    obtain ⟨h1, h2, _, _, _⟩ := hex_facts c
    unfold QueryEscape escapeByte
    by_cases hsp : c = SP
    · simp only [hsp, if_true, List.singleton_append]
      rw [unescapeCheck_skip 43 _ (by decide)]
      exact ih
    · by_cases hesc : shouldEscape c = true
      · simp only [hsp, hesc, if_true, if_false, List.cons_append, List.nil_append]
        simp [unescapeCheck, h1, h2, ih]
      · have hesc2 : shouldEscape c = false := by simpa using hesc
        obtain ⟨k1, _, _⟩ := kept_facts c hesc2
        simp only [hsp, hesc2, if_false, List.singleton_append, Bool.false_eq_true]
        rw [unescapeCheck_skip c _ k1]
        exact ih

theorem unescapeBuild_escape (d : Bytes) : unescapeBuild (QueryEscape d) = d := by
  induction d with
  | nil => simp [QueryEscape, unescapeBuild]
  | cons c s ih =>
    obtain ⟨_, _, h3, _, _⟩ := hex_facts c
    unfold QueryEscape escapeByte
    by_cases hsp : c = SP
    · simp only [hsp, if_true, List.singleton_append]
      rw [unescapeBuild_skip 43 _ (by decide), ih]
      simp
    · by_cases hesc : shouldEscape c = true
      · simp only [hsp, hesc, if_true, if_false, List.cons_append, List.nil_append]
        simp [unescapeBuild, h3, ih]
      · have hesc2 : shouldEscape c = false := by simpa using hesc
        obtain ⟨k1, k2, _⟩ := kept_facts c hesc2
        simp only [hsp, hesc2, if_false, List.singleton_append, Bool.false_eq_true]
        rw [unescapeBuild_skip c _ k1, ih]
        simp [k2]

theorem QueryUnescape_QueryEscape (d : Bytes) : QueryUnescape (QueryEscape d) = (d, none) := by
  unfold QueryUnescape
  rw [unescapeCheck_escape, unescapeBuild_escape]

theorem SP_not_mem_QueryEscape (d : Bytes) : SP ∉ QueryEscape d := by
  induction d with
  | nil => simp [QueryEscape]
  | cons c s ih =>
    obtain ⟨_, _, _, h4, h5⟩ := hex_facts c
    unfold QueryEscape escapeByte
    by_cases hsp : c = SP
    · simp only [hsp, if_true, List.singleton_append, List.mem_cons, not_or]
      exact ⟨by decide, ih⟩
    · by_cases hesc : shouldEscape c = true
      · simp only [hsp, hesc, if_true, if_false, List.cons_append, List.nil_append,
          List.mem_cons, not_or]
        exact ⟨by decide, fun e => h4 e.symm, fun e => h5 e.symm, ih⟩
      · have hesc2 : shouldEscape c = false := by simpa using hesc
        simp only [hsp, hesc2, if_false, List.singleton_append, Bool.false_eq_true,
          List.mem_cons, not_or]
        exact ⟨fun e => hsp e.symm, ih⟩

theorem bytesCut_first (a p : Bytes) (h : SP ∉ a) :
    bytesCut (a ++ SP :: p) [SP] = some (a, p) := by
  induction a with
  | nil => simp [bytesCut, bytesHasPrefix]
  | cons c rest ih =>
    have hc : ¬ c = SP := fun e => h (by simp [e])
    have hr : SP ∉ rest := fun e => h (List.mem_cons_of_mem _ e)
    simp [bytesCut, bytesHasPrefix, hc, ih hr]

theorem spillRecord_eq (d p : Bytes) : spillRecord d p = QueryEscape d ++ SP :: p := by
  simp [spillRecord, bytesJoin]

theorem bytesSplitN_spillRecord (d p : Bytes) :
    bytesSplitN (spillRecord d p) [SP] 2 = [QueryEscape d, p] := by
  rw [spillRecord_eq]
  simp [bytesSplitN, bytesCut_first _ _ (SP_not_mem_QueryEscape d)]

theorem Rewrite_decoded (env : RewriteEnv) (d p : Bytes)
    (hb : env.read.1 = some (spillRecord d p))
    (herr : env.read.2 = none ∨ env.read.2 = some Error.EOF) :
    Rewrite env =
      match env.httpWrite d p with
      | some Error.ErrBadRequest =>
        (env.updateMeta, [Call.fbRead, Call.WriteUNCompressed d p, Call.fbUpdateMeta])
      | some Error.ErrNotFound =>
        (env.updateMeta, [Call.fbRead, Call.WriteUNCompressed d p, Call.fbUpdateMeta])
      | none =>
        (env.updateMeta, [Call.fbRead, Call.WriteUNCompressed d p, Call.fbUpdateMeta])
      | some _ =>
        (env.rollbackMeta, [Call.fbRead, Call.WriteUNCompressed d p, Call.fbRollbackMeta]) := by
  have hguard : ¬ (env.read.2 ≠ none ∧ env.read.2 ≠ some Error.EOF) := by
    rcases herr with h | h
    · simp [h]
    · simp [h]
  unfold Rewrite
  simp only [hguard, if_false, hb, bytesSplitN_spillRecord, QueryUnescape_QueryEscape]

/-! ## The size trigger and the timer -/

theorem WriteBuffer_bound (ib : Backend) (p : LinePoint) (hline : p.Line ≠ [])
    (hfs : 1 ≤ ib.flushSize)
    (h : ∀ db cb, mapGet ib.buffers db = some cb → cb.Counter < ib.flushSize) :
    ∃ ib1, WriteBuffer ib p = Except.ok ib1 ∧ ib1.flushSize = ib.flushSize ∧
      ∀ db cb, mapGet ib1.buffers db = some cb → cb.Counter < ib.flushSize := by
  obtain ⟨ib1, e1, a1, _, g1, _, _, _⟩ := WriteBuffer_spec ib p hline
  refine ⟨ib1, e1, a1, ?_⟩
  intro db cb hcb
  rw [g1 db] at hcb
  by_cases hk : db = p.Db
  · rw [if_pos hk] at hcb
    by_cases hc : (appended ib p).Counter ≥ ib.flushSize
    · rw [if_pos hc] at hcb
      cases hcb
      exact hfs
    · rw [if_neg hc] at hcb
      cases hcb
      omega
  · rw [if_neg hk] at hcb
    exact h db cb hcb

theorem Flush_bound (ib : Backend)
    (h : ∀ db cb, mapGet ib.buffers db = some cb → cb.Counter < ib.flushSize) :
    ∃ ib1, Flush ib = Except.ok ib1 ∧ ib1.flushSize = ib.flushSize ∧
      ∀ db cb, mapGet ib1.buffers db = some cb → cb.Counter < ib.flushSize := by
  obtain ⟨ib1, e1, a1, _, _, _, g1, _⟩ := Flush_spec ib
  refine ⟨ib1, e1, a1, ?_⟩
  intro db cb hcb
  rw [g1 db] at hcb
  cases hg : mapGet ib.buffers db with
  | none => simp [hg] at hcb
  | some cb0 =>
    simp only [hg, Option.map_some', Option.some.injEq] at hcb
    have h0 := h db cb0 hg
    rw [← hcb]
    unfold flushedEntry resetEntry
    by_cases hc : cb0.Counter > 0
    · cases hb : cb0.Buffer with
      | none => simpa [hc, hb] using h0
      | some b =>
        simp only [hc, if_true]
        omega
    · simpa [hc] using h0

theorem workerRun_bound (evs : List Event) :
    ∀ ib : Backend, 1 ≤ ib.flushSize → (∀ e ∈ evs, e.lineNonEmpty = true) →
      (∀ db cb, mapGet ib.buffers db = some cb → cb.Counter < ib.flushSize) →
      ∃ ib1, workerRun ib evs = Except.ok ib1 ∧ ib1.flushSize = ib.flushSize ∧
        ∀ db cb, mapGet ib1.buffers db = some cb → cb.Counter < ib.flushSize := by
  induction evs with
  | nil =>
    intro ib _ _ h
    exact ⟨ib, rfl, rfl, h⟩
  | cons e rest ih =>
    intro ib hfs hne h
    have hne1 : ∀ e1 ∈ rest, e1.lineNonEmpty = true :=
      fun e1 he1 => hne e1 (List.mem_cons_of_mem e he1)
    cases e with
    | write q =>
      have hq : q.Line ≠ [] := by
        have := hne (Event.write q) (List.mem_cons_self _ _)
        simpa [Event.lineNonEmpty] using this
      obtain ⟨ib1, e1, a1, g1⟩ := WriteBuffer_bound ib q hq hfs h
      obtain ⟨ib2, e2, a2, g2⟩ := ih ib1 (by rw [a1]; exact hfs) hne1 (by rw [a1]; exact g1)
      exact ⟨ib2, by simp only [workerRun, workerStep, e1, e2], a2.trans a1,
        by rw [← a1]; exact g2⟩
    | flush =>
      obtain ⟨ib1, e1, a1, g1⟩ := Flush_bound ib h
      obtain ⟨ib2, e2, a2, g2⟩ := ih ib1 (by rw [a1]; exact hfs) hne1 (by rw [a1]; exact g1)
      exact ⟨ib2, by simp only [workerRun, workerStep, e1, e2], a2.trans a1,
        by rw [← a1]; exact g2⟩

/-- C3 (size trigger): in every backend state, `WriteBuffer` of a point with a non-empty
line returns, and if the Counter after the append is at least `flushSize` the call
submits exactly one batch, the whole buffer of the db, and leaves the db with Counter 0
and no buffer; when `flushSize ≥ 1` the written db has Counter below `flushSize`
afterwards, the bound on all dbs is kept by the call, and it holds for every db after
every run of worker steps from the empty backend. -/
theorem size_trigger :
    (∀ (ib : Backend) (p : LinePoint), p.Line ≠ [] →
      ∃ ib1, WriteBuffer ib p = Except.ok ib1 ∧
        ((appended ib p).Counter ≥ ib.flushSize →
          ib1.submitted = ib.submitted ++ [(p.Db, (appended ib p).bytes)] ∧
          mapGet ib1.buffers p.Db = some { Buffer := none, Counter := 0 }) ∧
        (1 ≤ ib.flushSize →
          ∀ cb, mapGet ib1.buffers p.Db = some cb → cb.Counter < ib.flushSize) ∧
        (1 ≤ ib.flushSize →
          (∀ db cb, mapGet ib.buffers db = some cb → cb.Counter < ib.flushSize) →
          ∀ db cb, mapGet ib1.buffers db = some cb → cb.Counter < ib.flushSize)) ∧
    (∀ (flushSize : Nat) (flushTime rewriteInterval : Int) (evs : List Event),
      1 ≤ flushSize → (∀ e ∈ evs, e.lineNonEmpty = true) →
      ∃ ib, workerRun (NewBackend flushSize flushTime rewriteInterval) evs = Except.ok ib ∧
        ∀ db cb, mapGet ib.buffers db = some cb → cb.Counter < flushSize) := by
  constructor
  · intro ib p hline
    obtain ⟨ib1, e1, _, _, g1, s1, _, _⟩ := WriteBuffer_spec ib p hline
    refine ⟨ib1, e1, ?_, ?_, ?_⟩
    · intro hc
      rw [s1, if_pos hc, g1 p.Db, if_pos rfl, if_pos hc]
      exact ⟨rfl, rfl⟩
    · intro hfs cb hcb
      rw [g1 p.Db] at hcb
      simp only [if_true] at hcb
      by_cases hc : (appended ib p).Counter ≥ ib.flushSize
      · rw [if_pos hc] at hcb
        cases hcb
        exact hfs
      · rw [if_neg hc] at hcb
        cases hcb
        omega
    · intro hfs h
      obtain ⟨ib2, e2, _, g2⟩ := WriteBuffer_bound ib p hline hfs h
      rw [e1] at e2
      cases e2
      exact g2
  · intro flushSize flushTime rewriteInterval evs hfs hev
    obtain ⟨ib, e1, _, g1⟩ := workerRun_bound evs
      (NewBackend flushSize flushTime rewriteInterval) hfs hev
      (by intro db cb h; simp [NewBackend, mapGet] at h)
    exact ⟨ib, e1, g1⟩

/-- C3 at concrete inputs: the third point of the flush-by-size scenario
(`flushSize = 3`, two lines buffered) is submitted with the two before it, and a run
of four points leaves every Counter below 3. -/
theorem size_trigger_witness :
    (∃ ib1, WriteBuffer
        { NewBackend 3 60 10 with
          buffers := [([109, 49], { Buffer := some [97, 10, 98, 10], Counter := 2 })] }
        ⟨[109, 49], [99]⟩ = Except.ok ib1 ∧
      ib1.submitted = [([109, 49], [97, 10, 98, 10, 99, 10])] ∧
      mapGet ib1.buffers [109, 49] = some { Buffer := none, Counter := 0 }) ∧
    (∃ ib, workerRun (NewBackend 3 60 10)
        [Event.write ⟨[109, 49], [97]⟩, Event.write ⟨[109, 49], [98, 10]⟩,
          Event.write ⟨[109, 49], [99]⟩, Event.write ⟨[109, 50], [100]⟩] = Except.ok ib ∧
      ∀ db cb, mapGet ib.buffers db = some cb → cb.Counter < 3) := by
  constructor
  · obtain ⟨ib1, e1, h1, _, _⟩ := size_trigger.1
      { NewBackend 3 60 10 with
        buffers := [([109, 49], { Buffer := some [97, 10, 98, 10], Counter := 2 })] }
      ⟨[109, 49], [99]⟩ (by decide)
    exact ⟨ib1, e1, h1 (by decide)⟩
  · exact size_trigger.2 3 60 10 _ (by decide) (by decide)

/-- C9 (timer flush): in every state reached from the empty backend by worker steps with
non-empty lines (`flushSize` a uint64), `Flush` returns, leaves `chTimer` nil and calls
no `time.After`; for a db whose Counter is positive it submits exactly one batch, the
db's whole non-empty buffer; for a db whose Counter is 0, and for a db without entry,
it submits nothing; afterwards every entry has Counter 0 and no buffered bytes. -/
theorem timer_flush (flushSize : Nat) (flushTime rewriteInterval : Int) (evs : List Event)
    (hfs : flushSize < 2 ^ 64) (hev : ∀ e ∈ evs, e.lineNonEmpty = true) :
    ∃ ib ib1, workerRun (NewBackend flushSize flushTime rewriteInterval) evs = Except.ok ib ∧
      Flush ib = Except.ok ib1 ∧ ib1.chTimer = none ∧ ib1.timeAfter = ib.timeAfter ∧
      (∀ db cb, mapGet ib.buffers db = some cb →
        (cb.Counter > 0 → ∃ b, cb.Buffer = some b ∧ b ≠ [] ∧
          batchesFor ib1 db = batchesFor ib db ++ [b]) ∧
        (cb.Counter = 0 → batchesFor ib1 db = batchesFor ib db)) ∧
      (∀ db, mapGet ib.buffers db = none →
        batchesFor ib1 db = batchesFor ib db ∧ mapGet ib1.buffers db = none) ∧
      (∀ db cb1, mapGet ib1.buffers db = some cb1 → cb1.Counter = 0 ∧ cb1.bytes = []) := by
  have hP : ∀ q, Event.write q ∈ evs → (fun l : Bytes => l ≠ []) (terminated q.Line) :=
    fun q _ => terminated_ne_nil q.Line
  obtain ⟨ib, e1, _, g1⟩ := workerRun_good (fun l : Bytes => l ≠ []) evs
    (NewBackend flushSize flushTime rewriteInterval) hfs hev hP (GoodBuffers_new _ _ _ _)
  obtain ⟨ib1, e2, _, _, t1, t2, g2, s2⟩ := Flush_spec ib
  have hpos : ∀ db cb, mapGet ib.buffers db = some cb → cb.Counter > 0 →
      ∃ b, cb.Buffer = some b ∧ b ≠ [] := by
    intro db cb hcb hc
    obtain ⟨ls, h1, h2, h3, _⟩ := g1 db cb hcb
    have hne : cb.bytes ≠ [] := by
      rw [h2]
      cases ls with
      | nil => simp at h3; omega
      | cons l rest =>
        have := h1 l (List.mem_cons_self _ _)
        simp [this]
    cases hb : cb.Buffer with
    | none => simp [CacheBuffer.bytes, hb] at hne
    | some b =>
      refine ⟨b, rfl, ?_⟩
      simpa [CacheBuffer.bytes, hb] using hne
  have hzero : ∀ db cb, mapGet ib.buffers db = some cb → cb.Counter = 0 → cb.bytes = [] := by
    intro db cb hcb hc
    obtain ⟨ls, _, h2, h3, _⟩ := g1 db cb hcb
    have : ls = [] := List.length_eq_zero.mp (by omega)
    rw [h2, this]
    rfl
  refine ⟨ib, ib1, e1, e2, t1, t2, ?_, ?_, ?_⟩
  · intro db cb hcb
    constructor
    · intro hc
      obtain ⟨b, hb, hne⟩ := hpos db cb hcb hc
      refine ⟨b, hb, hne, ?_⟩
      have hlen : ¬ b.length = 0 := fun e => hne (List.length_eq_zero.mp e)
      rw [s2 db]
      simp [hcb, flushedBatch, resetBatch, hc, hb, hlen]
    · intro hc
      rw [s2 db]
      simp [hcb, flushedBatch, hc]
  · intro db hnone
    rw [s2 db, g2 db]
    simp [hnone]
  · intro db cb1 hcb1
    rw [g2 db] at hcb1
    cases hg : mapGet ib.buffers db with
    | none => simp [hg] at hcb1
    | some cb0 =>
      simp only [hg, Option.map_some', Option.some.injEq] at hcb1
      rw [← hcb1]
      by_cases hc : cb0.Counter > 0
      · obtain ⟨b, hb, _⟩ := hpos db cb0 hg hc
        simp [flushedEntry, resetEntry, hc, hb, CacheBuffer.bytes]
      · have hc0 : cb0.Counter = 0 := by omega
        simp only [flushedEntry, hc, if_false]
        exact ⟨hc0, hzero db cb0 hg hc0⟩

/-- C9 at a concrete run: two dbs with one buffered line each, `flushSize = 3`. -/
theorem timer_flush_witness :
    (3 < 2 ^ 64) ∧
    (∀ e ∈ [Event.write ⟨[109, 49], [97]⟩, Event.write ⟨[109, 50], [98, 10]⟩],
      e.lineNonEmpty = true) ∧
    ∃ ib ib1, workerRun (NewBackend 3 60 10)
        [Event.write ⟨[109, 49], [97]⟩, Event.write ⟨[109, 50], [98, 10]⟩] = Except.ok ib ∧
      Flush ib = Except.ok ib1 ∧ ib1.chTimer = none ∧ ib1.timeAfter = ib.timeAfter ∧
      (∀ db cb, mapGet ib.buffers db = some cb →
        (cb.Counter > 0 → ∃ b, cb.Buffer = some b ∧ b ≠ [] ∧
          batchesFor ib1 db = batchesFor ib db ++ [b]) ∧
        (cb.Counter = 0 → batchesFor ib1 db = batchesFor ib db)) ∧
      (∀ db, mapGet ib.buffers db = none →
        batchesFor ib1 db = batchesFor ib db ∧ mapGet ib1.buffers db = none) ∧
      (∀ db cb1, mapGet ib1.buffers db = some cb1 → cb1.Counter = 0 ∧ cb1.bytes = []) :=
  ⟨by decide, by decide, timer_flush 3 60 10 _ (by decide) (by decide)⟩

theorem secondsDuration_exact (n : Int) (h1 : -9223372036 ≤ n) (h2 : n ≤ 9223372036) :
    secondsDuration n = n * 1000000000 := by
  unfold secondsDuration wrapInt64
  omega

/-- C10 (counterexample): with `flushTime = 9223372037`, a value `setDefault` keeps, the
first point on a new backend arms the timer with `time.After` of the duration
`time.Duration(9223372037) * time.Second`; the int64 product wraps to
`-9223372036709551616` nanoseconds, a negative duration, not 9223372037 seconds. -/
theorem timer_arming_duration_wraps :
    (setDefault { zeroConfig with FlushTime := 9223372037 }).FlushTime = 9223372037 ∧
    WriteBuffer (NewBackend 3 9223372037 10) ⟨[109, 49], [97]⟩ =
      Except.ok { NewBackend 3 9223372037 10 with
        buffers := [([109, 49], { Buffer := some [97, 10], Counter := 1 })]
        chTimer := some (-9223372036709551616)
        timeAfter := [-9223372036709551616] } ∧
    (-9223372036709551616 : Int) < 0 ∧
    (-9223372036709551616 : Int) ≠ 9223372037 * 1000000000 := by
  refine ⟨by decide, rfl, by decide, by decide⟩

/-- C10 (amended, timer arming in `WriteBuffer`): for every state and every point with a
non-empty line the call returns; if the Counter after the append is below `flushSize` the
timer is armed afterwards: with no timer armed before, `time.After` is called once, with
the duration `time.Duration(flushTime) * time.Second` (int64 nanoseconds), and `chTimer`
is that timer; with a timer armed before, `chTimer` is unchanged and `time.After` is not
called. If the append reaches `flushSize`, `chTimer` is unchanged and `time.After` is not
called. The duration is `flushTime` seconds when `flushTime` is at most 9223372036 in
absolute value, the range in which the product fits an int64. -/
theorem timer_arming (ib : Backend) (p : LinePoint) (hline : p.Line ≠ []) :
    ∃ ib1, WriteBuffer ib p = Except.ok ib1 ∧
      ((appended ib p).Counter < ib.flushSize →
        ib1.chTimer ≠ none ∧
        (ib.chTimer = none →
          ib1.chTimer = some (secondsDuration ib.flushTime) ∧
          ib1.timeAfter = ib.timeAfter ++ [secondsDuration ib.flushTime]) ∧
        (∀ t, ib.chTimer = some t →
          ib1.chTimer = some t ∧ ib1.timeAfter = ib.timeAfter)) ∧
      ((appended ib p).Counter ≥ ib.flushSize →
        ib1.chTimer = ib.chTimer ∧ ib1.timeAfter = ib.timeAfter) ∧
      (-9223372036 ≤ ib.flushTime → ib.flushTime ≤ 9223372036 →
        secondsDuration ib.flushTime = ib.flushTime * 1000000000) := by
  obtain ⟨ib1, e1, _, _, _, _, t1, t2⟩ := WriteBuffer_spec ib p hline
  refine ⟨ib1, e1, ?_, ?_, secondsDuration_exact ib.flushTime⟩
  · intro hlt
    have hc : ¬ (appended ib p).Counter ≥ ib.flushSize := by omega
    rw [if_neg hc] at t1 t2
    refine ⟨?_, ?_, ?_⟩
    · rw [t1]
      cases ib.chTimer with
      | none => simp
      | some t => simp
    · intro hn
      rw [t1, t2, hn]
      exact ⟨rfl, rfl⟩
    · intro t ht
      rw [t1, t2, ht]
      simp
  · intro hc
    rw [if_pos hc] at t1 t2
    rw [t1, t2]
    simp

/-- C10 at a concrete input: the first point for a db on a fresh backend arms the
timer for `flushTime = 60` seconds, 60000000000 nanoseconds. -/
theorem timer_arming_witness :
    ([97] : Bytes) ≠ [] ∧
    ∃ ib1, WriteBuffer (NewBackend 3 60 10) ⟨[109, 49], [97]⟩ = Except.ok ib1 ∧
      ib1.chTimer = some (60 * 1000000000) ∧ ib1.timeAfter = [60 * 1000000000] := by
  refine ⟨by decide, ?_⟩
  obtain ⟨ib1, e1, h1, _, h3⟩ :=
    timer_arming (NewBackend 3 60 10) ⟨[109, 49], [97]⟩ (by decide)
  obtain ⟨_, h2, _⟩ := h1 (by decide)
  have h4 := h3 (by decide) (by decide)
  have h5 := h2 rfl
  rw [h4] at h5
  exact ⟨ib1, e1, h5⟩

/-! ## The flush task and the replay -/

/-- C4 (flush-task decision table): the task first asks `IsActive`; it calls
`WriteUNCompressed(db, p)` exactly when the backend is active; it writes the backlog
exactly when the backend is inactive or the remote write returned an error other than
`ErrBadRequest` and `ErrNotFound`, and then with one `fb.Write` of `escape(db) SP p`; so
either the batch was POSTed with result nil, `ErrBadRequest` or `ErrNotFound` and the
backlog is not written, or the backlog receives the batch as one record. -/
theorem flush_task_table (active : Bool) (httpWrite : Bytes → Bytes → Option Error)
    (db p : Bytes) :
    flushTask active httpWrite db p =
      [Call.IsActive] ++ (if active = true then [Call.WriteUNCompressed db p] else []) ++
        (if active = false ∨ (httpWrite db p ≠ none ∧
            httpWrite db p ≠ some Error.ErrBadRequest ∧
            httpWrite db p ≠ some Error.ErrNotFound)
         then [Call.fbWrite (QueryEscape db ++ SP :: p)] else []) ∧
    (Call.WriteUNCompressed db p ∈ flushTask active httpWrite db p ↔ active = true) ∧
    (Call.fbWrite (QueryEscape db ++ SP :: p) ∈ flushTask active httpWrite db p ↔
      (active = false ∨ (httpWrite db p ≠ none ∧
            httpWrite db p ≠ some Error.ErrBadRequest ∧
            httpWrite db p ≠ some Error.ErrNotFound))) ∧
    (∀ b, Call.fbWrite b ∈ flushTask active httpWrite db p → b = QueryEscape db ++ SP :: p) ∧
    ((active = true ∧
        (httpWrite db p = none ∨ httpWrite db p = some Error.ErrBadRequest ∨
          httpWrite db p = some Error.ErrNotFound) ∧
        flushTask active httpWrite db p = [Call.IsActive, Call.WriteUNCompressed db p]) ∨
      (flushTask active httpWrite db p).count
        (Call.fbWrite (QueryEscape db ++ SP :: p)) = 1) := by
  cases active with
  | false => simp [flushTask, spillRecord_eq]
  | true =>
    cases h : httpWrite db p with
    | none => simp [flushTask, h]
    | some e => cases e <;> simp [flushTask, h, spillRecord_eq]

theorem Rewrite_transient (env : RewriteEnv) (d p : Bytes)
    (hb : env.read.1 = some (spillRecord d p))
    (herr : env.read.2 = none ∨ env.read.2 = some Error.EOF)
    (hw : env.httpWrite d p ≠ none ∧ env.httpWrite d p ≠ some Error.ErrBadRequest ∧
      env.httpWrite d p ≠ some Error.ErrNotFound) :
    Rewrite env =
      (env.rollbackMeta, [Call.fbRead, Call.WriteUNCompressed d p, Call.fbRollbackMeta]) := by
  rw [Rewrite_decoded env d p hb herr]
  obtain ⟨h1, h2, h3⟩ := hw
  cases h : env.httpWrite d p with
  | none => exact absurd h h1
  | some e =>
    cases e with
    | ErrBadRequest => exact absurd h h2
    | ErrNotFound => exact absurd h h3
    | ErrShortWrite => rfl
    | EOF => rfl
    | EscapeError s => rfl
    | Other m => rfl

/-- C5 (the code at the failing input): the record `db cpu\n` is read, the remote write
fails with a transient error (503) and `RollbackMeta` succeeds. `Rewrite` calls
`RollbackMeta` and not `UpdateMeta`, but returns nil, the result of `RollbackMeta`, not
the write error; the pass of `RewriteLoop` therefore ends without a `Sleep`. -/
theorem rewrite_transient_returns_rollback_result :
    Rewrite { read := (some (spillRecord [100, 98] [99, 112, 117, 10]), none)
              httpWrite := fun _ _ => some (Error.Other 503)
              updateMeta := none
              rollbackMeta := none } =
      (none, [Call.fbRead, Call.WriteUNCompressed [100, 98] [99, 112, 117, 10],
        Call.fbRollbackMeta]) ∧
    RewriteLoopPass (NewBackend 3 60 10)
        { isData := true
          active := true
          rewrite := { read := (some (spillRecord [100, 98] [99, 112, 117, 10]), none)
                       httpWrite := fun _ _ => some (Error.Other 503)
                       updateMeta := none
                       rollbackMeta := none } } =
      ([Call.fbIsData, Call.IsActive, Call.fbRead,
        Call.WriteUNCompressed [100, 98] [99, 112, 117, 10], Call.fbRollbackMeta], true) := by
  constructor
  · exact Rewrite_transient _ [100, 98] [99, 112, 117, 10] rfl (Or.inl rfl)
      ⟨by decide, by decide, by decide⟩
  · unfold RewriteLoopPass
    rw [Rewrite_transient _ [100, 98] [99, 112, 117, 10] rfl (Or.inl rfl)
      ⟨by decide, by decide, by decide⟩]
    rfl

/-- C6 (rewrite commit): for a record `escape(db) SP p` read from the backlog (with a nil
or EOF read error) whose remote write returns nil, `ErrBadRequest` or `ErrNotFound`,
`Rewrite` reads, writes `(db, p)` to the remote, calls `UpdateMeta` once and nothing
else (no `RollbackMeta`), and returns exactly what `UpdateMeta` returned. -/
theorem rewrite_commit (env : RewriteEnv) (db p : Bytes)
    (hb : env.read.1 = some (spillRecord db p))
    (herr : env.read.2 = none ∨ env.read.2 = some Error.EOF)
    (hw : env.httpWrite db p = none ∨ env.httpWrite db p = some Error.ErrBadRequest ∨
      env.httpWrite db p = some Error.ErrNotFound) :
    Rewrite env =
      (env.updateMeta, [Call.fbRead, Call.WriteUNCompressed db p, Call.fbUpdateMeta]) ∧
    (Rewrite env).2.count Call.fbUpdateMeta = 1 ∧
    Call.fbRollbackMeta ∉ (Rewrite env).2 ∧
    (env.updateMeta = none → (Rewrite env).1 = none) := by
  have h : Rewrite env =
      (env.updateMeta, [Call.fbRead, Call.WriteUNCompressed db p, Call.fbUpdateMeta]) := by
    rw [Rewrite_decoded env db p hb herr]
    rcases hw with h | h | h
    · rw [h]
    · rw [h]
    · rw [h]
  rw [h]
  refine ⟨rfl, by simp, by simp, fun hu => hu⟩

/-- C6 at a concrete input: the record `db cpu\n` replayed against a remote that
answers 400. -/
theorem rewrite_commit_witness :
    Rewrite { read := (some (spillRecord [100, 98] [99, 112, 117, 10]), none)
              httpWrite := fun _ _ => some Error.ErrBadRequest
              updateMeta := none
              rollbackMeta := none } =
      (none, [Call.fbRead, Call.WriteUNCompressed [100, 98] [99, 112, 117, 10],
        Call.fbUpdateMeta]) :=
  (rewrite_commit
    { read := (some (spillRecord [100, 98] [99, 112, 117, 10]), none)
      httpWrite := fun _ _ => some Error.ErrBadRequest
      updateMeta := none
      rollbackMeta := none }
    [100, 98] [99, 112, 117, 10] rfl (Or.inl rfl) (Or.inr (Or.inl rfl))).1

/-- C7 (spill record round trip): for every db `d` and payload `p` the spilled record is
`QueryEscape(d)`, a space, `p`; `QueryEscape(d)` holds no space byte; `SplitN` at the first
space gives back the two parts; `QueryUnescape(QueryEscape(d))` is `d` with a nil error; and
`Rewrite`, reading that record, sends exactly `(d, p)` to the remote. -/
theorem spill_round_trip (d p : Bytes) :
    spillRecord d p = QueryEscape d ++ [SP] ++ p ∧
    SP ∉ QueryEscape d ∧
    bytesSplitN (spillRecord d p) [SP] 2 = [QueryEscape d, p] ∧
    QueryUnescape (QueryEscape d) = (d, none) ∧
    (∀ (w : Bytes → Bytes → Option Error) (u r : Option Error),
      (Rewrite { read := (some (spillRecord d p), none)
                 httpWrite := w
                 updateMeta := u
                 rollbackMeta := r }).2.take 2 = [Call.fbRead, Call.WriteUNCompressed d p]) := by
  refine ⟨by simp [spillRecord_eq], SP_not_mem_QueryEscape d, bytesSplitN_spillRecord d p,
    QueryUnescape_QueryEscape d, ?_⟩
  intro w u r
  rw [Rewrite_decoded _ d p rfl (Or.inl rfl)]
  cases h : w d p with
  | none => simp [h]
  | some e => cases e <;> simp [h]

/-! ## The rewriter -/

theorem rewriterStep_inv (ib ib1 : Backend) (e : RewriterEvent)
    (hinv : ib.rewriteLoops ≤ 1 ∧ (ib.rewriteRunning = true ↔ ib.rewriteLoops = 1))
    (h : rewriterStep ib e = some ib1) :
    ib1.rewriteLoops ≤ 1 ∧ (ib1.rewriteRunning = true ↔ ib1.rewriteLoops = 1) := by
  obtain ⟨h1, h2⟩ := hinv
  cases e with
  | tick isData =>
    simp only [rewriterStep, Option.some.injEq] at h
    rw [← h]
    unfold RewriteIdle
    cases hr : ib.rewriteRunning with
    | true =>
      have hl : ib.rewriteLoops = 1 := h2.mp hr
      simp [hr, hl]
    | false =>
      have hl : ib.rewriteLoops = 0 := by
        have : ¬ ib.rewriteLoops = 1 := fun e1 => by
          have := h2.mpr e1
          rw [hr] at this
          exact Bool.noConfusion this
        omega
      cases isData with
      | true => simp [hr, hl]
      | false => simp [hr, hl]
  | loopExit =>
    simp only [rewriterStep] at h
    split_ifs at h with hpos
    simp only [Option.some.injEq] at h
    rw [← h]
    have hl : ib.rewriteLoops = 1 := by omega
    simp [RewriteLoopExit, hl]

theorem rewriterRun_inv (evs : List RewriterEvent) :
    ∀ ib ib1 : Backend,
      (ib.rewriteLoops ≤ 1 ∧ (ib.rewriteRunning = true ↔ ib.rewriteLoops = 1)) →
      rewriterRun ib evs = some ib1 →
      ib1.rewriteLoops ≤ 1 ∧ (ib1.rewriteRunning = true ↔ ib1.rewriteLoops = 1) := by
  induction evs with
  | nil =>
    intro ib ib1 hinv h
    simp only [rewriterRun, Option.some.injEq] at h
    rw [← h]
    exact hinv
  | cons e rest ih =>
    intro ib ib1 hinv h
    simp only [rewriterRun] at h
    cases hs : rewriterStep ib e with
    | none => simp [hs] at h
    | some ib2 =>
      simp only [hs] at h
      exact ih ib2 ib1 (rewriterStep_inv ib ib2 e hinv hs) h

/-- C8 (single rewriter): in every state reached from the new backend by ticks of the
rewrite ticker and exits of a running `RewriteLoop`, at most one loop runs and
`rewriteRunning` is true exactly when one runs; in that state a tick is always enabled,
and `RewriteIdle` starts a loop (one more running loop, `rewriteRunning` set) if and only
if `rewriteRunning` is false and the backlog has data, and otherwise returns the state
unchanged. -/
theorem single_rewriter (flushSize : Nat) (flushTime rewriteInterval : Int)
    (evs : List RewriterEvent) (ib : Backend)
    (h : rewriterRun (NewBackend flushSize flushTime rewriteInterval) evs = some ib) :
    ib.rewriteLoops ≤ 1 ∧ (ib.rewriteRunning = true ↔ ib.rewriteLoops = 1) ∧
    (∀ isData : Bool,
      rewriterStep ib (RewriterEvent.tick isData) = some (RewriteIdle ib isData) ∧
      ((RewriteIdle ib isData).rewriteLoops = ib.rewriteLoops + 1 ↔
        (ib.rewriteRunning = false ∧ isData = true)) ∧
      (ib.rewriteRunning = false ∧ isData = true →
        RewriteIdle ib isData =
          { ib with rewriteRunning := true, rewriteLoops := ib.rewriteLoops + 1 }) ∧
      (¬ (ib.rewriteRunning = false ∧ isData = true) → RewriteIdle ib isData = ib)) := by
  obtain ⟨h1, h2⟩ := rewriterRun_inv evs _ ib
    (by simp [NewBackend]) h
  refine ⟨h1, h2, ?_⟩
  intro isData
  refine ⟨rfl, ?_, ?_, ?_⟩
  · unfold RewriteIdle
    cases hr : ib.rewriteRunning <;> cases isData <;> simp [hr]
  · rintro ⟨hr, hd⟩
    simp [RewriteIdle, hr, hd]
  · intro hn
    unfold RewriteIdle
    cases hr : ib.rewriteRunning <;> cases hd : isData <;> simp [hr, hd] at hn ⊢

/-- C8 at a concrete run: a tick with data starts the loop, two more ticks start
nothing, the loop exits, a tick without data starts nothing. -/
theorem single_rewriter_witness :
    rewriterRun (NewBackend 3 60 10)
        [RewriterEvent.tick true, RewriterEvent.tick true, RewriterEvent.tick false,
          RewriterEvent.loopExit, RewriterEvent.tick false] = some (NewBackend 3 60 10) ∧
    (NewBackend 3 60 10).rewriteLoops ≤ 1 ∧
    ((NewBackend 3 60 10).rewriteRunning = true ↔ (NewBackend 3 60 10).rewriteLoops = 1) :=
  have h : rewriterRun (NewBackend 3 60 10)
      [RewriterEvent.tick true, RewriterEvent.tick true, RewriterEvent.tick false,
        RewriterEvent.loopExit, RewriterEvent.tick false] = some (NewBackend 3 60 10) := by
    decide
  ⟨h, (single_rewriter 3 60 10 _ _ h).1, (single_rewriter 3 60 10 _ _ h).2.1⟩

/-! ## Configuration defaults and validation -/

theorem setDefaultListenAddr_eq (cfg : ProxyConfig) :
    setDefaultListenAddr cfg = { cfg with ListenAddr := if cfg.ListenAddr = [] then str ":80" else cfg.ListenAddr } := by
  unfold setDefaultListenAddr
  by_cases h : cfg.ListenAddr = []
  · rw [if_pos h, if_pos h]
  · rw [if_neg h, if_neg h]

theorem setDefaultDataDir_eq (cfg : ProxyConfig) :
    setDefaultDataDir cfg = { cfg with DataDir := if cfg.DataDir = [] then str "data" else cfg.DataDir } := by
  unfold setDefaultDataDir
  by_cases h : cfg.DataDir = []
  · rw [if_pos h, if_pos h]
  · rw [if_neg h, if_neg h]

theorem setDefaultTLogDir_eq (cfg : ProxyConfig) :
    setDefaultTLogDir cfg = { cfg with TLogDir := if cfg.TLogDir = [] then str "log" else cfg.TLogDir } := by
  unfold setDefaultTLogDir
  by_cases h : cfg.TLogDir = []
  · rw [if_pos h, if_pos h]
  · rw [if_neg h, if_neg h]

theorem setDefaultHashKey_eq (cfg : ProxyConfig) :
    setDefaultHashKey cfg = { cfg with HashKey := if cfg.HashKey = [] then str "idx" else cfg.HashKey } := by
  unfold setDefaultHashKey
  by_cases h : cfg.HashKey = []
  · rw [if_pos h, if_pos h]
  · rw [if_neg h, if_neg h]

theorem setDefaultFlushSize_eq (cfg : ProxyConfig) :
    setDefaultFlushSize cfg = { cfg with FlushSize := if cfg.FlushSize ≤ 0 then 10000 else cfg.FlushSize } := by
  unfold setDefaultFlushSize
  by_cases h : cfg.FlushSize ≤ 0
  · rw [if_pos h, if_pos h]
  · rw [if_neg h, if_neg h]

theorem setDefaultFlushTime_eq (cfg : ProxyConfig) :
    setDefaultFlushTime cfg = { cfg with FlushTime := if cfg.FlushTime ≤ 0 then 1 else cfg.FlushTime } := by
  unfold setDefaultFlushTime
  by_cases h : cfg.FlushTime ≤ 0
  · rw [if_pos h, if_pos h]
  · rw [if_neg h, if_neg h]

theorem setDefaultCheckInterval_eq (cfg : ProxyConfig) :
    setDefaultCheckInterval cfg = { cfg with CheckInterval := if cfg.CheckInterval ≤ 0 then 1 else cfg.CheckInterval } := by
  unfold setDefaultCheckInterval
  by_cases h : cfg.CheckInterval ≤ 0
  · rw [if_pos h, if_pos h]
  · rw [if_neg h, if_neg h]

theorem setDefaultRewriteInterval_eq (cfg : ProxyConfig) :
    setDefaultRewriteInterval cfg = { cfg with RewriteInterval := if cfg.RewriteInterval ≤ 0 then 10 else cfg.RewriteInterval } := by
  unfold setDefaultRewriteInterval
  by_cases h : cfg.RewriteInterval ≤ 0
  · rw [if_pos h, if_pos h]
  · rw [if_neg h, if_neg h]

theorem setDefaultConnPoolSize_eq (cfg : ProxyConfig) :
    setDefaultConnPoolSize cfg = { cfg with ConnPoolSize := if cfg.ConnPoolSize ≤ 0 then 20 else cfg.ConnPoolSize } := by
  unfold setDefaultConnPoolSize
  by_cases h : cfg.ConnPoolSize ≤ 0
  · rw [if_pos h, if_pos h]
  · rw [if_neg h, if_neg h]

theorem setDefaultWriteTimeout_eq (cfg : ProxyConfig) :
    setDefaultWriteTimeout cfg = { cfg with WriteTimeout := if cfg.WriteTimeout ≤ 0 then 10 else cfg.WriteTimeout } := by
  unfold setDefaultWriteTimeout
  by_cases h : cfg.WriteTimeout ≤ 0
  · rw [if_pos h, if_pos h]
  · rw [if_neg h, if_neg h]

theorem setDefaultIdleTimeout_eq (cfg : ProxyConfig) :
    setDefaultIdleTimeout cfg = { cfg with IdleTimeout := if cfg.IdleTimeout ≤ 0 then 10 else cfg.IdleTimeout } := by
  unfold setDefaultIdleTimeout
  by_cases h : cfg.IdleTimeout ≤ 0
  · rw [if_pos h, if_pos h]
  · rw [if_neg h, if_neg h]

theorem setDefault_fields (cfg : ProxyConfig) :
    setDefault cfg =
      { cfg with
        ListenAddr := if cfg.ListenAddr = [] then str ":80" else cfg.ListenAddr
        DataDir := if cfg.DataDir = [] then str "data" else cfg.DataDir
        TLogDir := if cfg.TLogDir = [] then str "log" else cfg.TLogDir
        HashKey := if cfg.HashKey = [] then str "idx" else cfg.HashKey
        FlushSize := if cfg.FlushSize ≤ 0 then 10000 else cfg.FlushSize
        FlushTime := if cfg.FlushTime ≤ 0 then 1 else cfg.FlushTime
        CheckInterval := if cfg.CheckInterval ≤ 0 then 1 else cfg.CheckInterval
        RewriteInterval := if cfg.RewriteInterval ≤ 0 then 10 else cfg.RewriteInterval
        ConnPoolSize := if cfg.ConnPoolSize ≤ 0 then 20 else cfg.ConnPoolSize
        WriteTimeout := if cfg.WriteTimeout ≤ 0 then 10 else cfg.WriteTimeout
        IdleTimeout := if cfg.IdleTimeout ≤ 0 then 10 else cfg.IdleTimeout } := by
  cases cfg
  simp only [setDefault, setDefaultListenAddr_eq, setDefaultDataDir_eq, setDefaultTLogDir_eq,
    setDefaultHashKey_eq, setDefaultFlushSize_eq, setDefaultFlushTime_eq,
    setDefaultCheckInterval_eq, setDefaultRewriteInterval_eq, setDefaultConnPoolSize_eq,
    setDefaultWriteTimeout_eq, setDefaultIdleTimeout_eq]

theorem setDefault_idem (cfg : ProxyConfig) : setDefault (setDefault cfg) = setDefault cfg := by
  rw [setDefault_fields (setDefault cfg), setDefault_fields cfg]
  apply ProxyConfig.ext <;> dsimp only <;> split_ifs <;> rfl

/-- C14 (counterexample): on the zero configuration `setDefault` changes `tlog_dir`, a
field the claim counts among the unchanged ones: the empty `tlog_dir` becomes `log`. -/
theorem setDefault_changes_tlog_dir :
    zeroConfig.TLogDir = [] ∧ (setDefault zeroConfig).TLogDir = str "log" ∧
    (setDefault zeroConfig).TLogDir ≠ zeroConfig.TLogDir := by
  decide

/-- C14 (amended, configuration defaults): after `setDefault` an empty `listen_addr`,
`data_dir`, `tlog_dir`, `hash_key` is `:80`, `data`, `log`, `idx`; a zero `flush_size` is
10000; a non-positive `flush_time`, `check_interval`, `rewrite_interval`,
`conn_pool_size`, `write_timeout`, `idle_timeout` is 1, 1, 10, 20, 10, 10; each of these
fields that was non-empty or positive keeps its value and every other field is unchanged;
and `setDefault` is idempotent. -/
theorem setDefault_defaults (cfg : ProxyConfig) :
    setDefault cfg =
      { cfg with
        ListenAddr := if cfg.ListenAddr = [] then str ":80" else cfg.ListenAddr
        DataDir := if cfg.DataDir = [] then str "data" else cfg.DataDir
        TLogDir := if cfg.TLogDir = [] then str "log" else cfg.TLogDir
        HashKey := if cfg.HashKey = [] then str "idx" else cfg.HashKey
        FlushSize := if cfg.FlushSize = 0 then 10000 else cfg.FlushSize
        FlushTime := if cfg.FlushTime ≤ 0 then 1 else cfg.FlushTime
        CheckInterval := if cfg.CheckInterval ≤ 0 then 1 else cfg.CheckInterval
        RewriteInterval := if cfg.RewriteInterval ≤ 0 then 10 else cfg.RewriteInterval
        ConnPoolSize := if cfg.ConnPoolSize ≤ 0 then 20 else cfg.ConnPoolSize
        WriteTimeout := if cfg.WriteTimeout ≤ 0 then 10 else cfg.WriteTimeout
        IdleTimeout := if cfg.IdleTimeout ≤ 0 then 10 else cfg.IdleTimeout } ∧
    setDefault (setDefault cfg) = setDefault cfg := by
  refine ⟨?_, setDefault_idem cfg⟩
  rw [setDefault_fields cfg]
  simp only [Nat.le_zero_eq]

theorem plainCheckBackends_refines (bs : List Config) :
    ∀ (set : List Bytes) (before rest : List CheckItem),
      (∀ n, n ∈ set ↔ CheckItem.backendName n ∈ before) →
      (∀ e, plainCheckBackends set bs = Except.error e →
        firstViolationFrom before
          (bs.map (fun b => CheckItem.backendName b.Name) ++ rest) = some e) ∧
      (∀ set1, plainCheckBackends set bs = Except.ok set1 →
        (∀ n, n ∈ set1 ↔
          CheckItem.backendName n ∈ before ++ bs.map (fun b => CheckItem.backendName b.Name)) ∧
        firstViolationFrom before
          (bs.map (fun b => CheckItem.backendName b.Name) ++ rest) =
        firstViolationFrom (before ++ bs.map (fun b => CheckItem.backendName b.Name)) rest) := by
  induction bs with
  | nil =>
    intro set before rest hrel
    constructor
    · intro e h
      simp [plainCheckBackends] at h
    · intro set1 h
      simp only [plainCheckBackends, Except.ok.injEq] at h
      subst h
      simpa using hrel
  | cons b bs ih =>
    intro set before rest hrel
    by_cases h1 : b.Name = []
    · constructor
      · intro e h
        simp only [plainCheckBackends, h1, if_true, Except.error.injEq] at h
        subst h
        simp [firstViolationFrom, violationAt, h1]
      · intro set1 h
        simp [plainCheckBackends, h1] at h
    · by_cases h2 : b.Name ∈ set
      · constructor
        · intro e h
          simp only [plainCheckBackends, h1, h2, if_true, if_false, Except.error.injEq] at h
          subst h
          have hb : CheckItem.backendName b.Name ∈ before := (hrel _).mp h2
          simp [firstViolationFrom, violationAt, h1, hb]
        · intro set1 h
          simp [plainCheckBackends, h1, h2] at h
      · have hb : CheckItem.backendName b.Name ∉ before := fun h => h2 ((hrel _).mpr h)
        have hrel1 : ∀ n, n ∈ b.Name :: set ↔
            CheckItem.backendName n ∈ before ++ [CheckItem.backendName b.Name] := by
          intro n
          simp only [List.mem_cons, List.mem_append, List.mem_singleton,
            CheckItem.backendName.injEq]
          rw [hrel n]
          tauto
        have hstep : ∀ l, firstViolationFrom before (CheckItem.backendName b.Name :: l) =
            firstViolationFrom (before ++ [CheckItem.backendName b.Name]) l := by
          intro l
          simp [firstViolationFrom, violationAt, h1, hb]
        obtain ⟨ih1, ih2⟩ := ih (b.Name :: set) (before ++ [CheckItem.backendName b.Name])
          rest hrel1
        have hcb : plainCheckBackends set (b :: bs) = plainCheckBackends (b.Name :: set) bs := by
          simp [plainCheckBackends, h1, h2]
        constructor
        · intro e h
          rw [hcb] at h
          rw [List.map_cons, List.cons_append, hstep]
          exact ih1 e h
        · intro set1 h
          rw [hcb] at h
          obtain ⟨r1, r2⟩ := ih2 set1 h
          rw [List.map_cons, List.cons_append, hstep]
          simp only [List.append_assoc, List.singleton_append] at r1 r2
          exact ⟨r1, r2⟩

theorem plainCheckCircles_refines (cs : List PlainCircle) :
    ∀ (set : List Bytes) (before : List CheckItem),
      (∀ n, n ∈ set ↔ CheckItem.backendName n ∈ before) →
      plainCheckCircles set cs = firstViolationFrom before (checkItems cs) := by
  induction cs with
  | nil =>
    intro set before _
    simp [plainCheckCircles, checkItems, firstViolationFrom]
  | cons c rest ih =>
    intro set before hrel
    by_cases h0 : c.Backends = []
    · simp [plainCheckCircles, checkItems, h0, firstViolationFrom, violationAt]
    · have hlen : ¬ c.Backends.length = 0 := fun e => h0 (List.length_eq_zero.mp e)
      obtain ⟨r1, r2⟩ := plainCheckBackends_refines c.Backends set before (checkItems rest) hrel
      simp only [plainCheckCircles, hlen, if_false, checkItems, h0]
      cases hcb : plainCheckBackends set c.Backends with
      | error e =>
        simp only []
        exact (r1 e hcb).symm
      | ok set1 =>
        obtain ⟨q1, q2⟩ := r2 set1 hcb
        simp only []
        rw [q2]
        exact ih set1 _ q1

theorem plainCheckCircles_eq_firstViolation (cs : List PlainCircle) (h : cs ≠ []) :
    plainCheckCircles [] cs = firstViolation cs := by
  unfold firstViolation
  rw [if_neg h]
  exact plainCheckCircles_refines cs [] [] (by simp)

theorem plainCheckBackends_ok_iff (bs : List Config) :
    ∀ set : List Bytes,
      ((∃ set1, plainCheckBackends set bs = Except.ok set1) ↔
        (∀ n ∈ bs.map (fun b => b.Name), n ≠ [] ∧ n ∉ set) ∧
        (bs.map (fun b => b.Name)).Nodup) ∧
      (∀ set1, plainCheckBackends set bs = Except.ok set1 →
        ∀ n, n ∈ set1 ↔ n ∈ set ∨ n ∈ bs.map (fun b => b.Name)) := by
  induction bs with
  | nil =>
    intro set
    simp [plainCheckBackends]
  | cons b bs ih =>
    intro set
    by_cases h1 : b.Name = []
    · simp [plainCheckBackends, h1]
    · by_cases h2 : b.Name ∈ set
      · simp only [plainCheckBackends, h1, h2, if_true, if_false, reduceCtorEq, exists_false,
          List.map_cons, List.mem_cons, forall_eq_or_imp, false_iff, not_and, false_implies,
          implies_true, and_true]
        intro h
        exact absurd trivial h.1.2
      · have hcb : plainCheckBackends set (b :: bs) = plainCheckBackends (b.Name :: set) bs := by
          simp [plainCheckBackends, h1, h2]
        obtain ⟨i1, i2⟩ := ih (b.Name :: set)
        rw [hcb]
        constructor
        · rw [i1]
          simp only [List.map_cons, List.mem_cons, forall_eq_or_imp, List.nodup_cons, not_or,
            List.mem_map]
          constructor
          · rintro ⟨ha, hb⟩
            refine ⟨⟨⟨h1, h2⟩, fun n hn => ⟨(ha n hn).1, (ha n hn).2.2⟩⟩, ?_, hb⟩
            rintro ⟨x, hx, hxe⟩
            exact (ha b.Name ⟨x, hx, hxe⟩).2.1 rfl
          · rintro ⟨⟨_, ha⟩, hb, hc⟩
            refine ⟨fun n hn => ⟨(ha n hn).1, ?_, (ha n hn).2⟩, hc⟩
            intro e
            apply hb
            obtain ⟨x, hx, hxe⟩ := hn
            exact ⟨x, hx, hxe.trans e⟩
        · intro set1 h n
          rw [i2 set1 h n]
          simp only [List.mem_cons, List.map_cons]
          tauto

theorem plainCheckCircles_none_iff (cs : List PlainCircle) :
    ∀ set : List Bytes,
      plainCheckCircles set cs = none ↔
        (∀ c ∈ cs, c.Backends ≠ []) ∧ (∀ n ∈ plainBackendNames cs, n ≠ [] ∧ n ∉ set) ∧
        (plainBackendNames cs).Nodup := by
  induction cs with
  | nil =>
    intro set
    simp [plainCheckCircles, plainBackendNames]
  | cons c rest ih =>
    intro set
    by_cases h0 : c.Backends = []
    · simp [plainCheckCircles, h0]
    · have hlen : ¬ c.Backends.length = 0 := fun e => h0 (List.length_eq_zero.mp e)
      obtain ⟨k1, k2⟩ := plainCheckBackends_ok_iff c.Backends set
      have hnames : plainBackendNames (c :: rest) =
          c.Backends.map (fun b => b.Name) ++ plainBackendNames rest := by
        simp [plainBackendNames]
      simp only [plainCheckCircles, hlen, if_false]
      rw [hnames]
      cases hcb : plainCheckBackends set c.Backends with
      | error e =>
        simp only [reduceCtorEq, false_iff]
        intro h
        have hok : ∃ set1, plainCheckBackends set c.Backends = Except.ok set1 :=
          k1.mpr ⟨fun n hn => h.2.1 n (List.mem_append_left _ hn),
            (List.nodup_append.mp h.2.2).1⟩
        rw [hcb] at hok
        obtain ⟨_, hbad⟩ := hok
        cases hbad
      | ok set1 =>
        have hk := k1.mp ⟨set1, hcb⟩
        have hmem := k2 set1 hcb
        simp only []
        rw [ih set1]
        simp only [List.mem_cons, forall_eq_or_imp, List.mem_append, List.nodup_append]
        constructor
        · rintro ⟨a1, a2, a3⟩
          refine ⟨⟨h0, a1⟩, ?_, hk.2, a3, ?_⟩
          · intro n hn
            rcases hn with hn | hn
            · exact hk.1 n hn
            · exact ⟨(a2 n hn).1, fun e => (a2 n hn).2 ((hmem n).mpr (Or.inl e))⟩
          · intro n hn1 hn2
            exact (a2 n hn2).2 ((hmem n).mpr (Or.inr hn1))
        · rintro ⟨⟨_, a1⟩, a2, _, a3, a4⟩
          refine ⟨a1, ?_, a3⟩
          intro n hn
          refine ⟨(a2 n (Or.inr hn)).1, ?_⟩
          intro e
          rcases (hmem n).mp e with e1 | e1
          · exact (a2 n (Or.inr hn)).2 e1
          · exact a4 e1 hn

theorem plainCheckCircles_valid_iff (cs : List PlainCircle) :
    (cs ≠ [] ∧ plainCheckCircles [] cs = none) ↔ plainValid cs := by
  unfold plainValid
  rw [plainCheckCircles_none_iff cs []]
  simp

theorem firstViolationFrom_ne_hashKey (items : List CheckItem) :
    ∀ before, firstViolationFrom before items ≠ some ConfigError.ErrInvalidHashKey ∧
      firstViolationFrom before items ≠ some ConfigError.ErrEmptyCircles := by
  induction items with
  | nil =>
    intro before
    simp [firstViolationFrom]
  | cons item rest ih =>
    intro before
    cases item with
    | noBackends => simp [firstViolationFrom, violationAt]
    | backendName n =>
      by_cases h1 : n = []
      · simp [firstViolationFrom, violationAt, h1]
      · by_cases h2 : CheckItem.backendName n ∈ before
        · simp [firstViolationFrom, violationAt, h1, h2]
        · simp only [firstViolationFrom, violationAt, h1, h2, if_false]
          exact ih _

theorem firstViolation_none_iff (cs : List PlainCircle) :
    firstViolation cs = none ↔ plainValid cs := by
  rw [← plainCheckCircles_valid_iff]
  by_cases h0 : cs = []
  · simp [h0, firstViolation]
  · rw [plainCheckCircles_eq_firstViolation cs h0]
    simp [h0]

theorem checkBackends_plain (bs : List Config) :
    ∀ set : List Bytes,
      checkBackends set (bs.map some) = Except.ok (plainCheckBackends set bs) := by
  induction bs with
  | nil =>
    intro set
    rfl
  | cons b rest ih =>
    intro set
    by_cases h1 : b.Name = []
    · simp [checkBackends, plainCheckBackends, h1]
    · by_cases h2 : b.Name ∈ set
      · simp [checkBackends, plainCheckBackends, h1, h2]
      · simp [checkBackends, plainCheckBackends, h1, h2, ih]

theorem checkCircles_plain (vs : List PlainCircle) :
    ∀ set : List Bytes,
      checkCircles set (vs.map PlainCircle.pointer) =
        Except.ok (plainCheckCircles set vs) := by
  induction vs with
  | nil =>
    intro set
    rfl
  | cons c rest ih =>
    intro set
    by_cases h0 : c.Backends.length = 0
    · simp [checkCircles, plainCheckCircles, PlainCircle.pointer, h0]
    · simp only [List.map_cons, PlainCircle.pointer, checkCircles, List.length_map, h0,
        if_false, plainCheckCircles, checkBackends_plain]
      cases plainCheckBackends set c.Backends with
      | error e => rfl
      | ok set1 => exact ih set1

theorem map_some_reduceOption (l : List (Option Config)) (h : ∀ x ∈ l, x ≠ none) :
    l.reduceOption.map some = l := by
  induction l with
  | nil => rfl
  | cons x rest ih =>
    have hrest : ∀ y ∈ rest, y ≠ none := fun y hy => h y (List.mem_cons_of_mem _ hy)
    cases x with
    | none => exact absurd rfl (h none (List.mem_cons_self _ _))
    | some b =>
      rw [List.reduceOption_cons_of_some, List.map_cons, ih hrest]

theorem pointer_plainCircles (cs : List (Option CircleConfig)) (h : noNil cs) :
    (plainCircles cs).map PlainCircle.pointer = cs := by
  induction cs with
  | nil => rfl
  | cons x rest ih =>
    obtain ⟨h1, h2⟩ := h
    cases x with
    | none => exact absurd rfl (h1 none (List.mem_cons_self _ _))
    | some c =>
      have hrest : noNil rest := by
        refine ⟨fun y hy => h1 y (List.mem_cons_of_mem _ hy), ?_⟩
        intro y hy
        apply h2 y
        rw [List.reduceOption_cons_of_some]
        exact List.mem_cons_of_mem _ hy
      have hc : ∀ b ∈ c.Backends, b ≠ none := by
        apply h2 c
        rw [List.reduceOption_cons_of_some]
        exact List.mem_cons_self _ _
      have ih1 := ih hrest
      unfold plainCircles at ih1 ⊢
      rw [List.reduceOption_cons_of_some, List.map_cons, List.map_cons, ih1]
      simp only [PlainCircle.pointer, CircleConfig.plain, map_some_reduceOption _ hc]

theorem checkConfig_plain (u : Bytes → Bytes) (cfg : ProxyConfig) (vs : List PlainCircle)
    (hc : cfg.Circles = vs.map PlainCircle.pointer) :
    checkConfig u cfg =
      Except.ok
        (match firstViolation vs with
        | some e => some e
        | none =>
          if ToLower u cfg.HashKey ∈ hashKeys then none
          else some ConfigError.ErrInvalidHashKey) := by
  unfold checkConfig
  rw [hc, checkCircles_plain]
  by_cases h0 : vs = []
  · simp [h0, firstViolation]
  · have hlen : ¬ (vs.map PlainCircle.pointer).length = 0 := by
      rw [List.length_map]
      exact fun e => h0 (List.length_eq_zero.mp e)
    rw [if_neg hlen, plainCheckCircles_eq_firstViolation vs h0]
    cases firstViolation vs with
    | some e => rfl
    | none =>
      simp only [hashKeys, List.mem_cons, List.mem_singleton, List.not_mem_nil, or_false]
      by_cases k1 : ToLower u cfg.HashKey = str "idx"
      · simp [k1]
      · by_cases k2 : ToLower u cfg.HashKey = str "exi"
        · simp [k2]
        · by_cases k3 : ToLower u cfg.HashKey = str "name"
          · simp [k3]
          · by_cases k4 : ToLower u cfg.HashKey = str "url"
            · simp [k4]
            · simp [k1, k2, k3, k4]

theorem checkConfig_eq (u : Bytes → Bytes) (cfg : ProxyConfig) (hn : noNil cfg.Circles) :
    checkConfig u cfg =
      Except.ok
        (match firstViolation (plainCircles cfg.Circles) with
        | some e => some e
        | none =>
          if ToLower u cfg.HashKey ∈ hashKeys then none
          else some ConfigError.ErrInvalidHashKey) :=
  checkConfig_plain u cfg (plainCircles cfg.Circles) (pointer_plainCircles _ hn).symm

/-- C15 (counterexample): a configuration with valid circles and the hash key `IDX`, which
is none of `idx`, `exi`, `name`, `url`, passes `checkConfig`. -/
theorem checkConfig_accepts_upper_case_key :
    validCircles upperKeyConfig.Circles ∧ upperKeyConfig.HashKey ∉ hashKeys ∧
    checkConfig (fun s => s) upperKeyConfig = Except.ok none := by
  refine ⟨?_, by decide, rfl⟩
  unfold validCircles noNil plainValid
  decide

/-- C15 (amended, hash_key validation): for a configuration whose circles are valid,
`checkConfig` returns nil if and only if `strings.ToLower(hash_key)` is one of `idx`,
`exi`, `name`, `url`, and returns `ErrInvalidHashKey` otherwise; the four keys themselves
are accepted, and an ASCII key is compared after its letters `A`..`Z` are moved to
lower case. -/
theorem checkConfig_hash_key (u : Bytes → Bytes) (cfg : ProxyConfig)
    (hv : validCircles cfg.Circles) :
    (checkConfig u cfg = Except.ok none ↔ ToLower u cfg.HashKey ∈ hashKeys) ∧
    (ToLower u cfg.HashKey ∉ hashKeys →
      checkConfig u cfg = Except.ok (some ConfigError.ErrInvalidHashKey)) ∧
    (cfg.HashKey ∈ hashKeys → checkConfig u cfg = Except.ok none) ∧
    (cfg.HashKey.all (fun c => c < 128) = true →
      ToLower u cfg.HashKey =
        cfg.HashKey.map (fun c => if 65 ≤ c ∧ c ≤ 90 then c + 32 else c)) := by
  have hfv : firstViolation (plainCircles cfg.Circles) = none :=
    (firstViolation_none_iff _).mpr hv.2
  have hcc : checkConfig u cfg =
      Except.ok (if ToLower u cfg.HashKey ∈ hashKeys then none
      else some ConfigError.ErrInvalidHashKey) := by
    rw [checkConfig_eq u cfg hv.1, hfv]
  refine ⟨?_, ?_, ?_, ?_⟩
  · rw [hcc]
    by_cases h : ToLower u cfg.HashKey ∈ hashKeys
    · simp [h]
    · simp [h]
  · intro h
    rw [hcc, if_neg h]
  · intro h
    have hl : ToLower u cfg.HashKey = cfg.HashKey := by
      simp only [hashKeys, List.mem_cons, List.mem_singleton, List.not_mem_nil,
        or_false] at h
      rcases h with h | h | h | h <;> rw [h] <;> rfl
    rw [hcc, hl, if_pos h]
  · intro h
    simp [ToLower, h]

/-- C15 at a concrete input: the configuration with the hash key `IDX`. -/
theorem checkConfig_hash_key_witness :
    (checkConfig (fun s => s) upperKeyConfig = Except.ok none ↔
      ToLower (fun s => s) upperKeyConfig.HashKey ∈ hashKeys) ∧
    ToLower (fun s => s) upperKeyConfig.HashKey = str "idx" :=
  ⟨(checkConfig_hash_key (fun s => s) upperKeyConfig
      (by unfold validCircles noNil plainValid; decide)).1, by decide⟩

/-- Circle and backend validation of a configuration without nil elements whose hash key
is accepted: `checkConfig` returns nil if and only if there is a circle, every circle
has a backend, every backend name is non-empty and no backend name occurs twice in the
configuration; in every case it returns the first violation in circle-then-backend
order, which is never `ErrInvalidHashKey`. -/
theorem checkConfig_circles (u : Bytes → Bytes) (cfg : ProxyConfig)
    (hn : noNil cfg.Circles) (hk : ToLower u cfg.HashKey ∈ hashKeys) :
    (checkConfig u cfg = Except.ok none ↔
      (plainCircles cfg.Circles ≠ [] ∧ (∀ c ∈ plainCircles cfg.Circles, c.Backends ≠ []) ∧
        (∀ n ∈ allBackendNames cfg.Circles, n ≠ []) ∧
        (allBackendNames cfg.Circles).Nodup)) ∧
    (checkConfig u cfg = Except.ok none ↔ validCircles cfg.Circles) ∧
    checkConfig u cfg = Except.ok (firstViolation (plainCircles cfg.Circles)) ∧
    (cfg.Circles = [] → checkConfig u cfg = Except.ok (some ConfigError.ErrEmptyCircles)) ∧
    checkConfig u cfg ≠ Except.ok (some ConfigError.ErrInvalidHashKey) := by
  have hcc : checkConfig u cfg = Except.ok (firstViolation (plainCircles cfg.Circles)) := by
    rw [checkConfig_eq u cfg hn]
    cases firstViolation (plainCircles cfg.Circles) with
    | some e => rfl
    | none => simp [hk]
  have hiff : checkConfig u cfg = Except.ok none ↔ plainValid (plainCircles cfg.Circles) := by
    rw [hcc, ← firstViolation_none_iff]
    constructor
    · intro h
      exact Except.ok.inj h
    · intro h
      rw [h]
  refine ⟨hiff, ?_, hcc, ?_, ?_⟩
  · rw [hiff]
    exact ⟨fun h => ⟨hn, h⟩, fun h => h.2⟩
  · intro h0
    rw [hcc]
    simp [firstViolation, plainCircles, h0]
  · rw [hcc]
    intro h
    have h1 : firstViolation (plainCircles cfg.Circles) =
        some ConfigError.ErrInvalidHashKey := Except.ok.inj h
    unfold firstViolation at h1
    split_ifs at h1
    · simp at h1
    · exact (firstViolationFrom_ne_hashKey _ _).1 h1

/-- Two circles whose backends share a name: the first violation is the duplicated
name. -/
theorem checkConfig_circles_witness :
    ToLower (fun s => s) duplicateNameConfig.HashKey ∈ hashKeys ∧
    checkConfig (fun s => s) duplicateNameConfig =
      Except.ok (firstViolation (plainCircles duplicateNameConfig.Circles)) ∧
    firstViolation (plainCircles duplicateNameConfig.Circles) =
      some ConfigError.ErrDuplicatedBackendName :=
  ⟨by decide,
    (checkConfig_circles (fun s => s) duplicateNameConfig
      (by unfold noNil; decide) (by decide)).2.2.1, by decide⟩

/-- C16 (the code at the failing input): a configuration whose only circle is a nil
pointer, and one whose circle holds a nil backend after a valid one, both with the
accepted hash key `idx`: `checkConfig` does not return an error value, it panics with a
nil dereference at the field access `circle.Backends`, respectively `backend.Name`. -/
theorem checkConfig_nil_element_panics :
    ToLower (fun s => s) nilCircleConfig.HashKey ∈ hashKeys ∧
    checkConfig (fun s => s) nilCircleConfig = Except.error Fault.nilDereference ∧
    checkConfig (fun s => s) nilBackendConfig = Except.error Fault.nilDereference := by
  refine ⟨by decide, rfl, rfl⟩

/-! ## The byte-slice pool -/

theorem poolStep_inv (p : Pool) (call : PoolCall)
    (h1 : ∀ c ∈ p.data, c.len = p.w ∧ c.cap ≥ p.w) (h2 : p.data.length ≤ p.maxSize) :
    (poolStep p call).w = p.w ∧ (poolStep p call).maxSize = p.maxSize ∧
    (∀ c ∈ (poolStep p call).data, c.len = p.w ∧ c.cap ≥ p.w) ∧
    (poolStep p call).data.length ≤ p.maxSize := by
  have hsame : poolStep p call = p → (poolStep p call).w = p.w ∧
      (poolStep p call).maxSize = p.maxSize ∧
      (∀ c ∈ (poolStep p call).data, c.len = p.w ∧ c.cap ≥ p.w) ∧
      (poolStep p call).data.length ≤ p.maxSize := by
    intro e
    rw [e]
    exact ⟨rfl, rfl, h1, h2⟩
  have htail : ∀ b rest, p.data = b :: rest → poolStep p call = { p with data := rest } →
      (poolStep p call).w = p.w ∧ (poolStep p call).maxSize = p.maxSize ∧
      (∀ c ∈ (poolStep p call).data, c.len = p.w ∧ c.cap ≥ p.w) ∧
      (poolStep p call).data.length ≤ p.maxSize := by
    intro b rest hd e
    rw [e]
    rw [hd] at h1 h2
    simp only [List.length_cons] at h2
    exact ⟨rfl, rfl, fun c hc => h1 c (List.mem_cons_of_mem _ hc), by show rest.length ≤ _; omega⟩
  cases call with
  | Get =>
    cases hd : p.data with
    | nil =>
      apply hsame
      simp only [poolStep, Pool.Get, hd]
    | cons b rest =>
      apply htail b rest hd
      simp only [poolStep, Pool.Get, hd]
  | GetBySize sz =>
    cases hd : p.data with
    | nil =>
      apply hsame
      simp only [poolStep, Pool.GetBySize, hd]
    | cons b rest =>
      apply htail b rest hd
      by_cases hc : b.cap < sz
      · simp only [poolStep, Pool.GetBySize, hd, hc, if_true]
      · simp only [poolStep, Pool.GetBySize, hd, hc, if_false]
  | Put c0 =>
    by_cases hc : c0.cap < p.w
    · apply hsame
      simp only [poolStep, Pool.Put, hc, if_true]
    · by_cases hl : p.data.length < p.maxSize
      · have e : poolStep p (PoolCall.Put c0) = { p with data := p.data ++ [c0.upTo p.w] } := by
          simp only [poolStep, Pool.Put, hc, hl, if_true, if_false]
        rw [e]
        refine ⟨rfl, rfl, ?_, ?_⟩
        · intro c hmem
          rcases List.mem_append.mp hmem with hm | hm
          · exact h1 c hm
          · simp only [List.mem_singleton] at hm
            rw [hm]
            have hcap : (c0.upTo p.w).cap = c0.cap := rfl
            have hlen : (c0.upTo p.w).len = p.w := rfl
            rw [hcap, hlen]
            exact ⟨rfl, by omega⟩
        · simp only [List.length_append, List.length_singleton]
          omega
      · apply hsame
        simp only [poolStep, Pool.Put, hc, hl, if_false]

theorem poolRun_inv (calls : List PoolCall) :
    ∀ p : Pool, (∀ c ∈ p.data, c.len = p.w ∧ c.cap ≥ p.w) → p.data.length ≤ p.maxSize →
      (poolRun p calls).w = p.w ∧ (poolRun p calls).maxSize = p.maxSize ∧
      (∀ c ∈ (poolRun p calls).data, c.len = p.w ∧ c.cap ≥ p.w) ∧
      (poolRun p calls).data.length ≤ p.maxSize := by
  induction calls with
  | nil =>
    intro p h1 h2
    exact ⟨rfl, rfl, h1, h2⟩
  | cons call rest ih =>
    intro p h1 h2
    obtain ⟨a1, a2, a3, a4⟩ := poolStep_inv p call h1 h2
    obtain ⟨b1, b2, b3, b4⟩ := ih (poolStep p call) (by rw [a1]; exact a3) (by rw [a2]; exact a4)
    simp only [poolRun]
    rw [a1] at b1 b3
    rw [a2] at b2 b4
    exact ⟨b1, b2, b3, b4⟩

/-- C17 (pool width): after any sequence of `Get`, `GetBySize` and `Put` calls on
`NewPool(maxSize, w)`, every slice held in the pool has length `w` and capacity at least
`w`, the pool holds at most `maxSize` slices, `Put` of a slice of capacity below `w` and
`Put` on a full pool change nothing, and `Get` returns a slice of length `w`, taken from
the pool when it holds one and freshly made otherwise. -/
theorem pool_width (maxSize w : Nat) (calls : List PoolCall) :
    (∀ c ∈ (poolRun (NewPool maxSize w) calls).data, c.len = w ∧ c.cap ≥ w) ∧
    (poolRun (NewPool maxSize w) calls).data.length ≤ maxSize ∧
    (∀ c : Slice, c.cap < w →
      (poolRun (NewPool maxSize w) calls).Put c = poolRun (NewPool maxSize w) calls) ∧
    (∀ c : Slice, (poolRun (NewPool maxSize w) calls).data.length = maxSize →
      (poolRun (NewPool maxSize w) calls).Put c = poolRun (NewPool maxSize w) calls) ∧
    (poolRun (NewPool maxSize w) calls).Get.1.len = w ∧
    ((poolRun (NewPool maxSize w) calls).data = [] →
      (poolRun (NewPool maxSize w) calls).Get.1 = makeSlice w) ∧
    (∀ b rest, (poolRun (NewPool maxSize w) calls).data = b :: rest →
      (poolRun (NewPool maxSize w) calls).Get.1 = b) := by
  obtain ⟨b1, b2, a3, a4⟩ := poolRun_inv calls (NewPool maxSize w)
    (by simp [NewPool]) (by simp [NewPool])
  have a1 : (poolRun (NewPool maxSize w) calls).w = w := b1
  have a2 : (poolRun (NewPool maxSize w) calls).maxSize = maxSize := b2
  refine ⟨a3, a4, ?_, ?_, ?_, ?_, ?_⟩
  · intro c hc
    unfold Pool.Put
    rw [a1, if_pos hc]
  · intro c hfull
    unfold Pool.Put
    rw [a1, a2, hfull]
    simp
  · cases hd : (poolRun (NewPool maxSize w) calls).data with
    | nil => simp [Pool.Get, hd, makeSlice, a1]
    | cons b rest =>
      simp only [Pool.Get, hd]
      exact (a3 b (by rw [hd]; exact List.mem_cons_self _ _)).1
  · intro hd
    simp [Pool.Get, hd, a1]
  · intro b rest hd
    simp [Pool.Get, hd]

/-- C17 at a concrete run: a pool of size 1 and width 4; a slice of capacity 8 is kept
with length 4, a second one is discarded, a slice of capacity 2 is dropped, and `Get`
returns a slice of length 4. -/
theorem pool_width_witness :
    (poolRun (NewPool 1 4)
      [PoolCall.Put (makeSlice 8), PoolCall.Put (makeSlice 8), PoolCall.Put (makeSlice 2)]).data =
        [(makeSlice 8).upTo 4] ∧
    (poolRun (NewPool 1 4)
      [PoolCall.Put (makeSlice 8), PoolCall.Put (makeSlice 8),
        PoolCall.Put (makeSlice 2)]).Get.1.len = 4 :=
  ⟨by decide, (pool_width 1 4 _).2.2.2.2.1⟩

/-! ## The HTTP service -/

theorem headerLookup_headerSet (h : Header) (key k v : Bytes) :
    headerLookup (headerSet h key v) k = if k = key then some v else headerLookup h k := by
  induction h with
  | nil =>
    by_cases hk : k = key
    · simp [headerSet, headerLookup, hk]
    · have hk2 : ¬ key = k := fun e => hk e.symm
      simp [headerSet, headerLookup, hk, hk2]
  | cons hd tl ih =>
    obtain ⟨k0, v0⟩ := hd
    by_cases h0 : k0 = key
    · by_cases hk : k = key
      · simp [headerSet, headerLookup, h0, hk]
      · have hk2 : ¬ key = k := fun e => hk e.symm
        simp [headerSet, headerLookup, h0, hk, hk2]
    · by_cases hk : k = key
      · rw [if_pos hk] at ih
        rw [if_pos hk]
        simp only [headerSet, if_neg h0, headerLookup]
        rw [if_neg (fun e => h0 (e.trans hk))]
        exact ih
      · by_cases h3 : k0 = k
        · simp [headerSet, headerLookup, h0, hk, h3]
        · simp [headerSet, headerLookup, h0, hk, h3, ih]

theorem WriteHeader_fresh (w : ResponseWriter) (status : Nat) (hw : w.sent = none) :
    WriteHeader w status =
      { header := headerSet w.header (str "X-Influxdb-Version") Version
        sent := some (status, headerSet w.header (str "X-Influxdb-Version") Version)
        body := w.body } := by
  simp [WriteHeader, ResponseWriter.WriteHeader, ResponseWriter.setHeader, hw]

theorem Write_sent (w : ResponseWriter) (b : Bytes) (x : Nat × Header) (hw : w.sent = some x) :
    (w.Write b).sent = some x := by
  simp [ResponseWriter.Write, hw]

theorem WriteHeader_fresh_facts (w : ResponseWriter) (status : Nat) (hw : w.sent = none) :
    (WriteHeader w status).finalStatus = status ∧
    (WriteHeader w status).sentHeader (str "X-Influxdb-Version") = some Version ∧
    (WriteHeader w status).sentHeader (str "X-Influxdb-Error") =
      headerLookup w.header (str "X-Influxdb-Error") := by
  rw [WriteHeader_fresh w status hw]
  have hne : ¬ str "X-Influxdb-Error" = str "X-Influxdb-Version" := by decide
  simp [ResponseWriter.finalStatus, ResponseWriter.sentHeader, headerLookup_headerSet, hne]

theorem Write_after_WriteHeader (w : ResponseWriter) (status : Nat) (b : Bytes)
    (hw : w.sent = none) :
    ((WriteHeader w status).Write b).finalStatus = status ∧
    ((WriteHeader w status).Write b).sentHeader (str "X-Influxdb-Version") = some Version ∧
    ((WriteHeader w status).Write b).sentHeader (str "X-Influxdb-Error") =
      headerLookup w.header (str "X-Influxdb-Error") := by
  obtain ⟨f1, f2, f3⟩ := WriteHeader_fresh_facts w status hw
  have hs : (WriteHeader w status).sent =
      some (status, headerSet w.header (str "X-Influxdb-Version") Version) := by
    rw [WriteHeader_fresh w status hw]
  have hs2 := Write_sent (WriteHeader w status) b _ hs
  simp only [ResponseWriter.finalStatus, ResponseWriter.sentHeader, hs2, hs] at f1 f2 f3 ⊢
  exact ⟨trivial, f2, f3⟩

theorem writeError_facts (ext : External) (w : ResponseWriter) (req : Request) (status : Nat)
    (err : Bytes) (hw : w.sent = none) :
    (writeError ext w req status err).finalStatus = status ∧
    (writeError ext w req status err).sentHeader (str "X-Influxdb-Version") = some Version ∧
    (writeError ext w req status err).sentHeader (str "X-Influxdb-Error") = some err := by
  have hw2 : ((w.setHeader (str "Content-Type") (str "application/json")).setHeader
      (str "X-Influxdb-Error") err).sent = none := hw
  obtain ⟨f1, f2, f3⟩ := Write_after_WriteHeader _ status
    (ext.errorBody err (decide (valuesGet req.query (str "pretty") = str "true"))) hw2
  refine ⟨f1, f2, ?_⟩
  have h3 : (writeError ext w req status err).sentHeader (str "X-Influxdb-Error") =
      headerLookup ((w.setHeader (str "Content-Type") (str "application/json")).setHeader
        (str "X-Influxdb-Error") err).header (str "X-Influxdb-Error") := f3
  rw [h3]
  simp [ResponseWriter.setHeader, headerLookup_headerSet]

/-- C13 (the code at the failing input): the 400 response that `handlerRebalance` sends
while the proxy is resyncing, through `writeText`, carries `X-Influxdb-Version` but no
`X-Influxdb-Error` header; the 400 response of the same handler for an invalid operation,
sent through `writeError`, carries both. -/
theorem resyncing_response_without_error_header :
    transferGate newResponseWriter 0 false true =
      some (writeText newResponseWriter 400 (str "proxy is resyncing")) ∧
    (writeText newResponseWriter 400 (str "proxy is resyncing")).finalStatus = 400 ∧
    (writeText newResponseWriter 400 (str "proxy is resyncing")).sentHeader
      (str "X-Influxdb-Version") = some Version ∧
    (writeText newResponseWriter 400 (str "proxy is resyncing")).sentHeader
      (str "X-Influxdb-Error") = none ∧
    (writeError plainExternal newResponseWriter writeRequest 400
      (str "invalid operation")).finalStatus = 400 ∧
    (writeError plainExternal newResponseWriter writeRequest 400
      (str "invalid operation")).sentHeader (str "X-Influxdb-Error") =
        some (str "invalid operation") := by
  refine ⟨by decide, by decide, by decide, by decide, by decide, by decide⟩

/-- The response helpers: on a writer on which no status has been sent, every
response helper (`WriteHeader`, `writeError`, `writeBody`, `writeText`, `Write`) sends the
given status with the header `X-Influxdb-Version` equal to `Version`; `writeError`, and
`Write` with a status of 400 or more, also send `X-Influxdb-Error` set to the message;
`WriteHeader`, `writeBody` and `writeText` leave `X-Influxdb-Error` as the writer had it,
so the 400 responses of the transferring and resyncing checks, sent with `writeText`,
carry it only if it was set before. -/
theorem response_headers (ext : External) (w : ResponseWriter) (req : Request)
    (hw : w.sent = none) :
    (∀ status,
      (WriteHeader w status).finalStatus = status ∧
      (WriteHeader w status).sentHeader (str "X-Influxdb-Version") = some Version ∧
      (WriteHeader w status).sentHeader (str "X-Influxdb-Error") =
        headerLookup w.header (str "X-Influxdb-Error")) ∧
    (∀ status err,
      (writeError ext w req status err).finalStatus = status ∧
      (writeError ext w req status err).sentHeader (str "X-Influxdb-Version") = some Version ∧
      (writeError ext w req status err).sentHeader (str "X-Influxdb-Error") = some err) ∧
    (∀ body,
      (writeBody w body).finalStatus = 200 ∧
      (writeBody w body).sentHeader (str "X-Influxdb-Version") = some Version ∧
      (writeBody w body).sentHeader (str "X-Influxdb-Error") =
        headerLookup w.header (str "X-Influxdb-Error")) ∧
    (∀ status text,
      (writeText w status text).finalStatus = status ∧
      (writeText w status text).sentHeader (str "X-Influxdb-Version") = some Version ∧
      (writeText w status text).sentHeader (str "X-Influxdb-Error") =
        headerLookup w.header (str "X-Influxdb-Error")) ∧
    (∀ status data s, status ≥ 400 → data.asString = some s →
      Write ext w req status data = some (writeError ext w req status s)) ∧
    (∀ status data, status < 400 →
      ∃ r, Write ext w req status data = some r ∧ r.finalStatus = status ∧
        r.sentHeader (str "X-Influxdb-Version") = some Version) ∧
    (∀ circleId transferring resyncing r,
      transferGate w circleId transferring resyncing = some r →
      r.finalStatus = 400 ∧ r.sentHeader (str "X-Influxdb-Version") = some Version ∧
      r.sentHeader (str "X-Influxdb-Error") = headerLookup w.header (str "X-Influxdb-Error")) := by
  refine ⟨fun status => WriteHeader_fresh_facts w status hw,
    fun status err => writeError_facts ext w req status err hw,
    fun body => Write_after_WriteHeader w 200 body hw,
    fun status text => Write_after_WriteHeader w status _ hw, ?_, ?_, ?_⟩
  · intro status data s hs hd
    simp [Write, hs, hd]
  · intro status data hs
    have hlt : ¬ status ≥ 400 := by omega
    have hw2 : (w.setHeader (str "Content-Type") (str "application/json")).sent = none := hw
    obtain ⟨f1, f2, _⟩ := Write_after_WriteHeader _ status
      (data.json (decide (valuesGet req.query (str "pretty") = str "true"))) hw2
    exact ⟨_, by simp only [Write, hlt, if_false], f1, f2⟩
  · intro circleId transferring resyncing r hr
    unfold transferGate at hr
    split_ifs at hr
    · simp only [Option.some.injEq] at hr
      rw [← hr]
      exact Write_after_WriteHeader w 400 _ hw
    · simp only [Option.some.injEq] at hr
      rw [← hr]
      exact Write_after_WriteHeader w 400 _ hw

/-- The response helpers at a concrete input: `writeError` with status 401 on a new
writer. -/
theorem response_headers_witness :
    newResponseWriter.sent = none ∧
    (writeError plainExternal newResponseWriter writeRequest 401
        (str "authentication failed")).finalStatus = 401 ∧
    (writeError plainExternal newResponseWriter writeRequest 401
        (str "authentication failed")).sentHeader (str "X-Influxdb-Version") = some Version ∧
    (writeError plainExternal newResponseWriter writeRequest 401
        (str "authentication failed")).sentHeader (str "X-Influxdb-Error") =
      some (str "authentication failed") :=
  ⟨rfl, (response_headers plainExternal newResponseWriter writeRequest rfl).2.1 401
    (str "authentication failed")⟩

/-- C20 (authentication): `checkAuth` rejects, writing the 401 error response
`authentication failed` and returning false, exactly when the configured credentials are
not both empty, the query pair `(u, p)` does not equal them after `transAuth`, and no
Basic-Auth pair is present that equals them after `transAuth`; in every other case it
returns true and leaves the writer untouched. `transAuth` is the identity when
`auth_secure` is false. -/
theorem check_auth (ext : External) (hs : HttpService) (w : ResponseWriter) (req : Request) :
    ((¬ (hs.Username = [] ∧ hs.Password = []) ∧
      ¬ (transAuth ext hs (valuesGet req.query (str "u")) = hs.Username ∧
          transAuth ext hs (valuesGet req.query (str "p")) = hs.Password) ∧
      ¬ (∃ u p, req.basicAuth = some (u, p) ∧ transAuth ext hs u = hs.Username ∧
          transAuth ext hs p = hs.Password)) →
      checkAuth ext hs w req =
        (false, writeError ext w req 401 (str "authentication failed"))) ∧
    (¬ (¬ (hs.Username = [] ∧ hs.Password = []) ∧
      ¬ (transAuth ext hs (valuesGet req.query (str "u")) = hs.Username ∧
          transAuth ext hs (valuesGet req.query (str "p")) = hs.Password) ∧
      ¬ (∃ u p, req.basicAuth = some (u, p) ∧ transAuth ext hs u = hs.Username ∧
          transAuth ext hs p = hs.Password)) →
      checkAuth ext hs w req = (true, w)) ∧
    (w.sent = none →
      (writeError ext w req 401 (str "authentication failed")).finalStatus = 401) ∧
    (hs.AuthSecure = false → ∀ text, transAuth ext hs text = text) := by
  refine ⟨?_, ?_, fun hw => (writeError_facts ext w req 401 _ hw).1, ?_⟩
  · rintro ⟨h1, h2, h3⟩
    unfold checkAuth
    rw [if_neg h1]
    simp only [h2, if_false]
    cases hb : req.basicAuth with
    | none => rfl
    | some up =>
      obtain ⟨u, p⟩ := up
      have h4 : ¬ (transAuth ext hs u = hs.Username ∧ transAuth ext hs p = hs.Password) :=
        fun h => h3 ⟨u, p, hb, h.1, h.2⟩
      simp only [h4, if_false]
  · intro hn
    unfold checkAuth
    by_cases h1 : hs.Username = [] ∧ hs.Password = []
    · rw [if_pos h1]
    · rw [if_neg h1]
      by_cases h2 : transAuth ext hs (valuesGet req.query (str "u")) = hs.Username ∧
          transAuth ext hs (valuesGet req.query (str "p")) = hs.Password
      · simp only [h2, and_self, if_true]
      · simp only [h2, if_false]
        have h3 : ∃ u p, req.basicAuth = some (u, p) ∧ transAuth ext hs u = hs.Username ∧
            transAuth ext hs p = hs.Password := by
          by_contra h3
          exact hn ⟨h1, h2, h3⟩
        obtain ⟨u, p, hb, hu, hp⟩ := h3
        simp only [hb, hu, hp, and_self, if_true]
  · intro hsec text
    simp [transAuth, hsec]

/-- C20 at a concrete input: credentials `admin`/`secret` configured, a request without
any credentials is rejected with 401. -/
theorem check_auth_witness :
    (checkAuth plainExternal
        { DBSet := [], Username := str "admin", Password := str "secret", AuthSecure := false }
        newResponseWriter writeRequest).1 = false ∧
    (checkAuth plainExternal
        { DBSet := [], Username := str "admin", Password := str "secret", AuthSecure := false }
        newResponseWriter writeRequest).2.finalStatus = 401 := by
  have h := (check_auth plainExternal
    { DBSet := [], Username := str "admin", Password := str "secret", AuthSecure := false }
    newResponseWriter writeRequest).1
    ⟨by decide, by decide, fun ⟨_, _, hb, _⟩ => Option.noConfusion hb⟩
  rw [h]
  exact ⟨rfl, by decide⟩

theorem checkAuth_true (ext : External) (hs : HttpService) (w w1 : ResponseWriter)
    (req : Request) (h : checkAuth ext hs w req = (true, w1)) : w1 = w := by
  unfold checkAuth at h
  by_cases h1 : hs.Username = [] ∧ hs.Password = []
  · rw [if_pos h1] at h
    exact (Prod.mk.inj h).2.symm
  · rw [if_neg h1] at h
    by_cases h2 : transAuth ext hs (valuesGet req.query (str "u")) = hs.Username ∧
        transAuth ext hs (valuesGet req.query (str "p")) = hs.Password
    · simp only [h2, and_self, if_true] at h
      exact (Prod.mk.inj h).2.symm
    · simp only [h2, if_false] at h
      cases hb : req.basicAuth with
      | none =>
        simp only [hb] at h
        exact absurd (Prod.mk.inj h).1 (by decide)
      | some up =>
        obtain ⟨u, p⟩ := up
        simp only [hb] at h
        by_cases h3 : transAuth ext hs u = hs.Username ∧ transAuth ext hs p = hs.Password
        · simp only [h3, and_self, if_true] at h
          exact (Prod.mk.inj h).2.symm
        · simp only [h3, if_false] at h
          exact absurd (Prod.mk.inj h).1 (by decide)

theorem checkMethodAndAuth_true (ext : External) (hs : HttpService) (w w1 : ResponseWriter)
    (req : Request) (methods : List Bytes)
    (h : checkMethodAndAuth ext hs w req methods = (true, w1)) : w1 = w := by
  unfold checkMethodAndAuth checkMethod at h
  by_cases hm : req.Method ∈ methods
  · simp only [hm, if_true] at h
    exact checkAuth_true ext hs w w1 req h
  · simp only [hm, if_false] at h
    exact absurd (Prod.mk.inj h).1 (by decide)

theorem handlerWrite_passed (ext : External) (hs : HttpService)
    (ipWrite : Bytes → Bytes → Bytes → Option Bytes) (w : ResponseWriter) (req : Request)
    (hpass : (checkMethodAndAuth ext hs w req [str "POST"]).1 = true) :
    handlerWrite ext hs ipWrite w req =
      if valuesGet req.query (str "db") = [] then
        (writeError ext w req 400 (str "database not found"), [])
      else if hs.DBSet.length > 0 ∧ valuesGet req.query (str "db") ∉ hs.DBSet then
        (writeError ext w req 400
          (str "database forbidden: " ++ valuesGet req.query (str "db")), [])
      else handlerWriteBody ext ipWrite w req (valuesGet req.query (str "db"))
        (if valuesGet req.query (str "precision") = [] then str "ns"
         else valuesGet req.query (str "precision")) := by
  cases hc : checkMethodAndAuth ext hs w req [str "POST"] with
  | mk ok w1 =>
    rw [hc] at hpass
    simp only at hpass
    subst hpass
    have hw : w1 = w := checkMethodAndAuth_true ext hs w w1 req _ hc
    subst hw
    simp only [handlerWrite, hc]

/-- C11 (the code at the failing input): `POST /write?db=mydb` with the body `cpu`, no
credentials configured, no allowlist, and `Proxy.Write` returning an error. `Proxy.Write`
is called once, and the handler returns without any `WriteHeader` or `Write`: the client
receives status 200, not 400. With `Proxy.Write` returning nil the same request gets 204,
and without the `db` parameter it gets 400. -/
theorem handlerWrite_error_sends_no_status :
    handlerWrite plainExternal openService (fun _ _ _ => some (str "malformed line"))
        newResponseWriter writeRequest =
      (newResponseWriter, [(str "cpu", str "mydb", str "ns")]) ∧
    (handlerWrite plainExternal openService (fun _ _ _ => some (str "malformed line"))
        newResponseWriter writeRequest).1.sent = none ∧
    (handlerWrite plainExternal openService (fun _ _ _ => some (str "malformed line"))
        newResponseWriter writeRequest).1.finalStatus = 200 ∧
    (handlerWrite plainExternal openService (fun _ _ _ => none)
        newResponseWriter writeRequest).1.finalStatus = 204 ∧
    (handlerWrite plainExternal openService (fun _ _ _ => none)
        newResponseWriter { writeRequest with query := [] }).1.finalStatus = 400 := by
  refine ⟨by decide, by decide, by decide, by decide, by decide⟩

theorem handlerWriteBody_cases (ext : External)
    (ipWrite : Bytes → Bytes → Bytes → Option Bytes) (w : ResponseWriter) (req : Request)
    (db precision p : Bytes)
    (hgz : ¬ (req.contentEncoding = str "gzip" ∧ req.gzipFails = true))
    (hread : req.readAll = (p, none)) :
    (ipWrite p db precision = none →
      handlerWriteBody ext ipWrite w req db precision =
        (WriteHeader w 204, [(p, db, precision)])) ∧
    (ipWrite p db precision ≠ none →
      handlerWriteBody ext ipWrite w req db precision = (w, [(p, db, precision)])) := by
  unfold handlerWriteBody
  rw [if_neg hgz, hread]
  constructor
  · intro h
    simp only [h]
  · intro h
    simp only []
    cases hi : ipWrite p db precision with
    | none => exact absurd hi h
    | some e => simp only [hi]

/-- C12 (database allowlist): for a `/write` request that passes the method and
authentication checks and has a non-empty `db`: if `DBSet` is non-empty and does not hold
`db`, the handler answers with the 400 error response `database forbidden: db` and
`Proxy.Write` is not called; if `DBSet` is empty or holds `db`, the handler goes on with
the part after the allowlist check (reading the body and calling `Proxy.Write`). -/
theorem write_allowlist (ext : External) (hs : HttpService)
    (ipWrite : Bytes → Bytes → Bytes → Option Bytes) (w : ResponseWriter) (req : Request)
    (hpass : (checkMethodAndAuth ext hs w req [str "POST"]).1 = true)
    (hdb : valuesGet req.query (str "db") ≠ []) :
    ((hs.DBSet ≠ [] ∧ valuesGet req.query (str "db") ∉ hs.DBSet) →
      handlerWrite ext hs ipWrite w req =
        (writeError ext w req 400
          (str "database forbidden: " ++ valuesGet req.query (str "db")), []) ∧
      (handlerWrite ext hs ipWrite w req).2 = [] ∧
      (w.sent = none → (handlerWrite ext hs ipWrite w req).1.finalStatus = 400)) ∧
    ((hs.DBSet = [] ∨ valuesGet req.query (str "db") ∈ hs.DBSet) →
      handlerWrite ext hs ipWrite w req =
        handlerWriteBody ext ipWrite w req (valuesGet req.query (str "db"))
          (if valuesGet req.query (str "precision") = [] then str "ns"
           else valuesGet req.query (str "precision"))) := by
  rw [handlerWrite_passed ext hs ipWrite w req hpass, if_neg hdb]
  constructor
  · rintro ⟨h1, h2⟩
    have hlen : hs.DBSet.length > 0 := List.length_pos.mpr h1
    rw [if_pos ⟨hlen, h2⟩]
    exact ⟨rfl, rfl, fun hw => (writeError_facts ext w req 400 _ hw).1⟩
  · intro h
    have hn : ¬ (hs.DBSet.length > 0 ∧ valuesGet req.query (str "db") ∉ hs.DBSet) := by
      rintro ⟨h1, h2⟩
      rcases h with h | h
      · rw [h] at h1
        simp at h1
      · exact h2 h
    rw [if_neg hn]

/-- C12 at a concrete input: the allowlist holds `otherdb` only and the request names
`mydb`. -/
theorem write_allowlist_witness :
    (handlerWrite plainExternal
        { DBSet := [str "otherdb"], Username := [], Password := [], AuthSecure := false }
        (fun _ _ _ => none) newResponseWriter writeRequest).2 = [] ∧
    (handlerWrite plainExternal
        { DBSet := [str "otherdb"], Username := [], Password := [], AuthSecure := false }
        (fun _ _ _ => none) newResponseWriter writeRequest).1.finalStatus = 400 := by
  have h := (write_allowlist plainExternal
    { DBSet := [str "otherdb"], Username := [], Password := [], AuthSecure := false }
    (fun _ _ _ => none) newResponseWriter writeRequest (by decide) (by decide)).1
    ⟨by decide, by decide⟩
  exact ⟨h.2.1, h.2.2 rfl⟩

/-! ## The InfluxQL routing-parser -/

theorem token_not_regex (n : Name) (r : Bytes) : n.token ≠ Token.regex r := by
  cases n <;> simp [Name.token]

theorem token_not_dot (n : Name) : n.token ≠ Token.other 46 := by
  cases n <;> simp [Name.token]

set_option maxRecDepth 100000 in
theorem parser_passes_test_corpus : ∀ t ∈ testCorpus, corpusResult t = some t.2.2 := by
  decide

theorem RewriteLoop_exit (ib : Backend) (env : Nat → LoopEnv) (fuel k : Nat)
    (h : (env k).isData = false) :
    RewriteLoop ib env (fuel + 1) k = some (RewriteLoopExit ib, [Call.fbIsData]) := by
  simp [RewriteLoop, RewriteLoopPass, h]

theorem RewriteLoopPass_data (ib : Backend) (e : LoopEnv) (h : e.isData = true) :
    (RewriteLoopPass ib e).2 = true := by
  unfold RewriteLoopPass
  simp only [h, if_true]
  split_ifs <;> rfl

theorem RewriteLoop_pass (ib : Backend) (env : Nat → LoopEnv) (fuel k : Nat)
    (h : (env k).isData = true) :
    RewriteLoop ib env (fuel + 1) k =
      match RewriteLoop ib env fuel (k + 1) with
      | none => none
      | some (ib1, more) => some (ib1, (RewriteLoopPass ib (env k)).1 ++ more) := by
  have h2 := RewriteLoopPass_data ib (env k) h
  rw [RewriteLoop]
  cases hp : RewriteLoopPass ib (env k) with
  | mk calls go =>
    rw [hp] at h2
    simp only at h2
    subst h2
    rfl

theorem RewriteLoop_returns (ib : Backend) (env : Nat → LoopEnv) (fuel : Nat) :
    ∀ (k : Nat) (ib1 : Backend) (calls : List Call),
      RewriteLoop ib env fuel k = some (ib1, calls) →
      ∃ n, n < fuel ∧ (∀ j, j < n → (env (k + j)).isData = true) ∧
        (env (k + n)).isData = false ∧
        calls = ((List.range n).map (fun j => (RewriteLoopPass ib (env (k + j))).1)).flatten ++
          [Call.fbIsData] ∧
        ib1 = RewriteLoopExit ib := by
  induction fuel with
  | zero =>
    intro k ib1 calls h
    simp [RewriteLoop] at h
  | succ fuel ih =>
    intro k ib1 calls h
    cases hd : (env k).isData with
    | false =>
      rw [RewriteLoop_exit ib env fuel k hd] at h
      simp only [Option.some.injEq, Prod.mk.injEq] at h
      refine ⟨0, Nat.succ_pos _, ?_, ?_, ?_, h.1.symm⟩
      · intro j hj
        exact absurd hj (Nat.not_lt_zero j)
      · simpa using hd
      · simp [h.2]
    | true =>
      rw [RewriteLoop_pass ib env fuel k hd] at h
      cases hr : RewriteLoop ib env fuel (k + 1) with
      | none => simp [hr] at h
      | some r =>
        obtain ⟨ib2, more⟩ := r
        simp only [hr, Option.some.injEq, Prod.mk.injEq] at h
        obtain ⟨n, hn, hall, hend, hcalls, hib⟩ := ih (k + 1) ib2 more hr
        refine ⟨n + 1, Nat.succ_lt_succ hn, ?_, ?_, ?_, ?_⟩
        · intro j hj
          cases j with
          | zero => simpa using hd
          | succ j =>
            have := hall j (by omega)
            rwa [show k + 1 + j = k + (j + 1) by omega] at this
        · rwa [show k + 1 + n = k + (n + 1) by omega] at hend
        · rw [← h.2, hcalls, List.range_succ_eq_map]
          simp only [List.map_cons, List.map_map, List.flatten_cons, List.append_assoc,
            Nat.add_zero]
          congr 3
          apply List.map_congr_left
          intro j _
          simp only [Function.comp, Nat.succ_eq_add_one]
          rw [show k + 1 + j = k + (j + 1) by omega]
        · rw [← h.1, hib]

theorem RewriteLoop_terminates (ib : Backend) (env : Nat → LoopEnv) (n : Nat) :
    ∀ k : Nat, (∀ j, j < n → (env (k + j)).isData = true) → (env (k + n)).isData = false →
      ∀ fuel, n < fuel → ∃ calls, RewriteLoop ib env fuel k = some (RewriteLoopExit ib, calls) := by
  induction n with
  | zero =>
    intro k _ hend fuel hf
    obtain ⟨f, rfl⟩ : ∃ f, fuel = f + 1 := ⟨fuel - 1, by omega⟩
    exact ⟨_, RewriteLoop_exit ib env f k (by simpa using hend)⟩
  | succ n ih =>
    intro k hall hend fuel hf
    obtain ⟨f, rfl⟩ : ∃ f, fuel = f + 1 := ⟨fuel - 1, by omega⟩
    have hd : (env k).isData = true := by simpa using hall 0 (Nat.succ_pos n)
    obtain ⟨more, hmore⟩ := ih (k + 1)
      (fun j hj => by
        have := hall (j + 1) (by omega)
        rwa [show k + (j + 1) = k + 1 + j by omega] at this)
      (by rwa [show k + (n + 1) = k + 1 + n by omega] at hend) f (by omega)
    exact ⟨_, by rw [RewriteLoop_pass ib env f k hd, hmore]⟩

/-- C21 (replay waits for health): a pass of `RewriteLoop` that finds data in the backlog
and the backend not Active makes the calls `IsData`, `IsActive` and `Sleep` (of
`time.Duration(rewriteInterval) * time.Second`)
and no other (no `Read`, no remote write, no `UpdateMeta`, no `RollbackMeta`), and the
loop goes on. Whenever the loop returns, it has run some `n` passes in which `IsData` was
true, then found `IsData` false; its calls are those of the `n` passes followed by the
last `IsData`, each pass with an inactive backend being the three calls above; and
`rewriteRunning` is false in the state it leaves. Conversely, once `IsData` answers false
at some pass the loop does return. -/
theorem replay_waits_for_health (ib : Backend) (env : Nat → LoopEnv) :
    (∀ e : LoopEnv, e.isData = true → e.active = false →
      RewriteLoopPass ib e =
        ([Call.fbIsData, Call.IsActive, Call.Sleep (secondsDuration ib.rewriteInterval)], true)) ∧
    (∀ (fuel k : Nat) (ib1 : Backend) (calls : List Call),
      RewriteLoop ib env fuel k = some (ib1, calls) →
      ∃ n, n < fuel ∧ (∀ j, j < n → (env (k + j)).isData = true) ∧
        (env (k + n)).isData = false ∧
        calls = ((List.range n).map (fun j => (RewriteLoopPass ib (env (k + j))).1)).flatten ++
          [Call.fbIsData] ∧
        (∀ j, j < n → (env (k + j)).active = false →
          (RewriteLoopPass ib (env (k + j))).1 =
            [Call.fbIsData, Call.IsActive, Call.Sleep (secondsDuration ib.rewriteInterval)]) ∧
        ib1.rewriteRunning = false) ∧
    (∀ n k : Nat, (∀ j, j < n → (env (k + j)).isData = true) → (env (k + n)).isData = false →
      ∀ fuel, n < fuel →
        ∃ calls, RewriteLoop ib env fuel k = some (RewriteLoopExit ib, calls) ∧
          (RewriteLoopExit ib).rewriteRunning = false) := by
  have hpass : ∀ e : LoopEnv, e.isData = true → e.active = false →
      RewriteLoopPass ib e =
        ([Call.fbIsData, Call.IsActive, Call.Sleep (secondsDuration ib.rewriteInterval)], true) := by
    intro e h1 h2
    simp [RewriteLoopPass, h1, h2]
  refine ⟨hpass, ?_, ?_⟩
  · intro fuel k ib1 calls h
    obtain ⟨n, hn, hall, hend, hcalls, hib⟩ := RewriteLoop_returns ib env fuel k ib1 calls h
    refine ⟨n, hn, hall, hend, hcalls, ?_, ?_⟩
    · intro j hj ha
      rw [hpass _ (hall j hj) ha]
    · rw [hib]
      rfl
  · intro n k hall hend fuel hf
    obtain ⟨calls, hc⟩ := RewriteLoop_terminates ib env n k hall hend fuel hf
    exact ⟨calls, hc, rfl⟩

/-- C21 at a concrete run: data and an inactive backend in the first pass, no data in
the second; the loop sleeps once, never reads, and leaves `rewriteRunning` false. -/
theorem replay_waits_for_health_witness :
    RewriteLoop { NewBackend 3 60 10 with rewriteRunning := true, rewriteLoops := 1 }
        inactiveThenEmpty 5 0 =
      some (NewBackend 3 60 10,
        [Call.fbIsData, Call.IsActive, Call.Sleep 10000000000, Call.fbIsData]) ∧
    (∃ n, n < 5 ∧ (inactiveThenEmpty (0 + n)).isData = false ∧
      (NewBackend 3 60 10).rewriteRunning = false) :=
  have h : RewriteLoop { NewBackend 3 60 10 with rewriteRunning := true, rewriteLoops := 1 }
      inactiveThenEmpty 5 0 =
      some (NewBackend 3 60 10,
        [Call.fbIsData, Call.IsActive, Call.Sleep 10000000000, Call.fbIsData]) := by decide
  ⟨h, by
    obtain ⟨n, h1, _, h3, _, _, h6⟩ :=
      (replay_waits_for_health
        { NewBackend 3 60 10 with rewriteRunning := true, rewriteLoops := 1 }
        inactiveThenEmpty).2.1 5 0 _ _ h
    exact ⟨n, h1, h3, h6⟩⟩

/-! ## Replica-health accounting -/

theorem healthCount_spec (GetKey : Bytes → Bytes → Bytes) (ic : Circle) (url db : Bytes)
    (ms : List Bytes) :
    ∀ a b : Nat, healthCount GetKey ic url db ms (a, b) =
      (a + ms.countP (fun m => decide ((ic.GetBackend (GetKey db m)).Url = url)),
        b + ms.countP (fun m => !decide ((ic.GetBackend (GetKey db m)).Url = url))) := by
  induction ms with
  | nil =>
    intro a b
    simp [healthCount]
  | cons m rest ih =>
    intro a b
    by_cases h : (ic.GetBackend (GetKey db m)).Url = url
    · simp only [healthCount, h, if_true, ih, List.countP_cons, decide_True, Bool.not_true,
        Bool.false_eq_true, if_false, Nat.add_zero, Prod.mk.injEq, and_true]
      omega
    · simp only [healthCount, h, if_false, ih, List.countP_cons, decide_False, Bool.not_false,
        Bool.false_eq_true, if_true, Nat.add_zero, Prod.mk.injEq, true_and]
      omega

theorem countP_split (p : Bytes → Bool) (ms : List Bytes) :
    ms.countP p + ms.countP (fun m => !p m) = ms.length := by
  induction ms with
  | nil => rfl
  | cons m rest ih =>
    cases hp : p m with
    | true =>
      simp only [List.countP_cons, hp, if_true, Bool.not_true, Bool.false_eq_true, if_false,
        List.length_cons]
      omega
    | false =>
      simp only [List.countP_cons, hp, Bool.false_eq_true, if_false, Bool.not_false, if_true,
        List.length_cons]
      omega

theorem healthOfDb_spec (GetKey : Bytes → Bytes → Bytes) (ic : Circle) (url db : Bytes)
    (ms : List Bytes) :
    (healthOfDb GetKey ic url db ms).measurements = ms.length ∧
    (healthOfDb GetKey ic url db ms).inplace =
      ms.countP (fun m => decide ((ic.GetBackend (GetKey db m)).Url = url)) ∧
    (healthOfDb GetKey ic url db ms).incorrect =
      ms.countP (fun m => !decide ((ic.GetBackend (GetKey db m)).Url = url)) ∧
    (healthOfDb GetKey ic url db ms).inplace + (healthOfDb GetKey ic url db ms).incorrect =
      (healthOfDb GetKey ic url db ms).measurements := by
  have hc := healthCount_spec GetKey ic url db ms 0 0
  have h1 : (healthOfDb GetKey ic url db ms).inplace =
      ms.countP (fun m => decide ((ic.GetBackend (GetKey db m)).Url = url)) := by
    show (healthCount GetKey ic url db ms (0, 0)).1 = _
    rw [hc]
    simp
  have h2 : (healthOfDb GetKey ic url db ms).incorrect =
      ms.countP (fun m => !decide ((ic.GetBackend (GetKey db m)).Url = url)) := by
    show (healthCount GetKey ic url db ms (0, 0)).2 = _
    rw [hc]
    simp
  refine ⟨rfl, h1, h2, ?_⟩
  rw [h1, h2]
  exact countP_split _ ms

theorem statsGet_statsSet (m : List (Bytes × DbStats)) (db k : Bytes) (v : DbStats) :
    statsGet (statsSet m db v) k = if k = db then some v else statsGet m k := by
  induction m with
  | nil =>
    by_cases hk : k = db
    · simp [statsSet, statsGet, hk]
    · have hk2 : ¬ db = k := fun e => hk e.symm
      simp [statsSet, statsGet, hk, hk2]
  | cons kv rest ih =>
    obtain ⟨k0, v0⟩ := kv
    by_cases h0 : k0 = db
    · by_cases hk : k = db
      · simp [statsSet, statsGet, h0, hk]
      · have hk2 : ¬ db = k := fun e => hk e.symm
        simp [statsSet, statsGet, h0, hk, hk2]
    · by_cases hk : k = db
      · rw [if_pos hk] at ih
        rw [if_pos hk]
        simp only [statsSet, if_neg h0, statsGet]
        rw [if_neg (fun e => h0 (e.trans hk))]
        exact ih
      · by_cases hk0 : k0 = k
        · simp [statsSet, statsGet, h0, hk, hk0]
        · simp [statsSet, statsGet, h0, hk, hk0, ih]

theorem healthStores_entries (GetKey : Bytes → Bytes → Bytes) (ic : Circle) (url : Bytes)
    (env : HealthEnv) (order : List Nat) :
    ∀ smap : List (Bytes × DbStats),
      (∀ db st, statsGet smap db = some st →
        ∃ i, env.databases.get? i = some db ∧
          st = healthOfDb GetKey ic url db (env.measurements i)) →
      ∀ db st, statsGet (healthStores GetKey ic url env order smap) db = some st →
        ∃ i, env.databases.get? i = some db ∧
          st = healthOfDb GetKey ic url db (env.measurements i) := by
  induction order with
  | nil =>
    intro smap h db st hst
    exact h db st hst
  | cons i rest ih =>
    intro smap h db st hst
    cases hi : env.databases.get? i with
    | none =>
      simp only [healthStores, hi] at hst
      exact ih smap h db st hst
    | some d =>
      simp only [healthStores, hi] at hst
      refine ih _ ?_ db st hst
      intro db1 st1 h1
      rw [statsGet_statsSet] at h1
      by_cases hk : db1 = d
      · rw [if_pos hk] at h1
        simp only [Option.some.injEq] at h1
        exact ⟨i, by rw [hi, hk], by rw [← h1, hk]⟩
      · rw [if_neg hk] at h1
        exact h db1 st1 h1

theorem healthStores_covers (GetKey : Bytes → Bytes → Bytes) (ic : Circle) (url : Bytes)
    (env : HealthEnv) (order : List Nat) :
    ∀ (smap : List (Bytes × DbStats)) (db : Bytes),
      ((∃ st, statsGet smap db = some st) ∨ ∃ i ∈ order, env.databases.get? i = some db) →
      ∃ st, statsGet (healthStores GetKey ic url env order smap) db = some st := by
  induction order with
  | nil =>
    intro smap db h
    rcases h with h | ⟨i, hi, _⟩
    · exact h
    · simp at hi
  | cons i rest ih =>
    intro smap db h
    cases hi : env.databases.get? i with
    | none =>
      simp only [healthStores, hi]
      apply ih
      rcases h with h | ⟨j, hj, hdb⟩
      · exact Or.inl h
      · rcases List.mem_cons.mp hj with rfl | hj
        · rw [hi] at hdb
          exact Option.noConfusion hdb
        · exact Or.inr ⟨j, hj, hdb⟩
    | some d =>
      simp only [healthStores, hi]
      apply ih
      by_cases hk : db = d
      · left
        exact ⟨_, by rw [statsGet_statsSet, if_pos hk]⟩
      · rcases h with ⟨st, h⟩ | ⟨j, hj, hdb⟩
        · left
          exact ⟨st, by rw [statsGet_statsSet, if_neg hk, h]⟩
        · rcases List.mem_cons.mp hj with rfl | hj
          · rw [hi] at hdb
            simp only [Option.some.injEq] at hdb
            exact absurd hdb.symm hk
          · exact Or.inr ⟨j, hj, hdb⟩

/-- C22 (health accounting): for every routing-key function, backend, ring and answers
of the backend, once every goroutine of `GetHealth` has stored its entry (in whatever
order), `stats` has an entry for every db that `GetDatabases` returned, and every entry
of `stats` is the one a goroutine computed for that db from the list `ms` that its call
of `GetMeasurements` returned: `measurements` is the length of `ms`, `inplace` the number
of `m` in `ms` for which the ring's `GetBackend(GetKey(db, m))` has the Url of this
backend, `incorrect` the number of the others, and `inplace + incorrect = measurements`. -/
theorem health_accounting (GetKey : Bytes → Bytes → Bytes) (hb : HttpBackend) (ib : Backend)
    (ic : Circle) (env : HealthEnv) (order : List Nat)
    (horder : order.Perm (List.range env.databases.length)) :
    (∀ db ∈ env.databases, ∃ st, statsGet (GetHealth GetKey hb ib ic env order).stats db = some st) ∧
    (∀ db st, statsGet (GetHealth GetKey hb ib ic env order).stats db = some st →
      ∃ i, env.databases.get? i = some db ∧
        st.measurements = (env.measurements i).length ∧
        st.inplace = (env.measurements i).countP
          (fun m => decide ((ic.GetBackend (GetKey db m)).Url = hb.Url)) ∧
        st.incorrect = (env.measurements i).countP
          (fun m => !decide ((ic.GetBackend (GetKey db m)).Url = hb.Url)) ∧
        st.inplace + st.incorrect = st.measurements) := by
  constructor
  · intro db hdb
    obtain ⟨i, hi⟩ := List.mem_iff_get?.mp hdb
    have hlt : i < env.databases.length := by
      by_contra hge
      rw [List.get?_eq_none.mpr (by omega)] at hi
      exact Option.noConfusion hi
    have hmem : i ∈ order := horder.mem_iff.mpr (List.mem_range.mpr hlt)
    exact healthStores_covers GetKey ic hb.Url env order [] db (Or.inr ⟨i, hmem, hi⟩)
  · intro db st hst
    obtain ⟨i, hi, hv⟩ := healthStores_entries GetKey ic hb.Url env order []
      (by intro d s h; simp [statsGet] at h) db st hst
    obtain ⟨h1, h2, h3, h4⟩ := healthOfDb_spec GetKey ic hb.Url db (env.measurements i)
    rw [hv]
    exact ⟨i, hi, h1, h2, h3, h4⟩

/-- C22 at a concrete input: backend `a` of a ring of two, databases `d1` (measurements
`cpu`, `xmem`, `disk`, of which `xmem` belongs to the other backend) and `d2` (`xnet`,
which belongs to the other backend), the goroutine of `d2` storing first. -/
theorem health_accounting_witness :
    [1, 0].Perm (List.range sampleHealthEnv.databases.length) ∧
    (GetHealth sampleKey (backendAt (str "a")) (NewBackend 3 60 10) sampleCircle
        sampleHealthEnv [1, 0]).stats =
      [(str "d2", { measurements := 1, inplace := 0, incorrect := 1 }),
        (str "d1", { measurements := 3, inplace := 2, incorrect := 1 })] ∧
    (∀ db ∈ sampleHealthEnv.databases, ∃ st,
      statsGet (GetHealth sampleKey (backendAt (str "a")) (NewBackend 3 60 10) sampleCircle
        sampleHealthEnv [1, 0]).stats db = some st) :=
  ⟨by decide, by decide,
    (health_accounting sampleKey (backendAt (str "a")) (NewBackend 3 60 10) sampleCircle
      sampleHealthEnv [1, 0] (by decide)).1⟩

/-! ## No buffered data without a pending timer -/

theorem TimerCovers_new (fs : Nat) (ft ri : Int) : TimerCovers (NewBackend fs ft ri) := by
  intro db cb h
  simp [NewBackend, mapGet] at h

theorem WriteBuffer_timer (ib : Backend) (p : LinePoint) (hline : p.Line ≠ [])
    (h : TimerCovers ib) :
    ∃ ib1, WriteBuffer ib p = Except.ok ib1 ∧ TimerCovers ib1 := by
  obtain ⟨ib1, e1, _, _, g1, _, t1, _⟩ := WriteBuffer_spec ib p hline
  refine ⟨ib1, e1, ?_⟩
  intro db cb hcb hpos
  rw [g1 db] at hcb
  by_cases hc : (appended ib p).Counter ≥ ib.flushSize
  · rw [if_pos hc] at t1
    by_cases hk : db = p.Db
    · rw [if_pos hk, if_pos hc] at hcb
      cases hcb
      exact absurd hpos (Nat.lt_irrefl 0)
    · rw [if_neg hk] at hcb
      rw [t1]
      exact h db cb hcb hpos
  · rw [if_neg hc] at t1
    have harmed : ib1.chTimer ≠ none := by
      rw [t1]
      cases ib.chTimer with
      | none => simp
      | some t => simp
    by_cases hk : db = p.Db
    · rw [if_pos hk, if_neg hc] at hcb
      cases hcb
      exact ⟨harmed, by simp [appended]⟩
    · rw [if_neg hk] at hcb
      exact ⟨harmed, (h db cb hcb hpos).2⟩

theorem Flush_timer (ib : Backend) (h : TimerCovers ib) :
    ∃ ib1, Flush ib = Except.ok ib1 ∧ TimerCovers ib1 ∧
      ∀ db cb, mapGet ib1.buffers db = some cb → cb.Counter = 0 := by
  obtain ⟨ib1, e1, _, _, _, _, g1, _⟩ := Flush_spec ib
  have hzero : ∀ db cb, mapGet ib1.buffers db = some cb → cb.Counter = 0 := by
    intro db cb hcb
    rw [g1 db] at hcb
    cases hg : mapGet ib.buffers db with
    | none => simp [hg] at hcb
    | some cb0 =>
      simp only [hg, Option.map_some', Option.some.injEq] at hcb
      rw [← hcb]
      by_cases hc : cb0.Counter > 0
      · cases hb : cb0.Buffer with
        | none => exact absurd hb (h db cb0 hg hc).2
        | some b => simp [flushedEntry, resetEntry, hc, hb]
      · simp only [flushedEntry, hc, if_false]
        omega
  refine ⟨ib1, e1, ?_, hzero⟩
  intro db cb hcb hpos
  have := hzero db cb hcb
  omega

theorem workerRun_timer (evs : List Event) :
    ∀ ib : Backend, (∀ e ∈ evs, e.lineNonEmpty = true) → TimerCovers ib →
      ∃ ib1, workerRun ib evs = Except.ok ib1 ∧ TimerCovers ib1 := by
  induction evs with
  | nil =>
    intro ib _ h
    exact ⟨ib, rfl, h⟩
  | cons e rest ih =>
    intro ib hne h
    have hne1 : ∀ e1 ∈ rest, e1.lineNonEmpty = true :=
      fun e1 he1 => hne e1 (List.mem_cons_of_mem e he1)
    cases e with
    | write q =>
      have hq : q.Line ≠ [] := by
        have := hne (Event.write q) (List.mem_cons_self _ _)
        simpa [Event.lineNonEmpty] using this
      obtain ⟨ib1, e1, g1⟩ := WriteBuffer_timer ib q hq h
      obtain ⟨ib2, e2, g2⟩ := ih ib1 hne1 g1
      exact ⟨ib2, by simp only [workerRun, workerStep, e1, e2], g2⟩
    | flush =>
      obtain ⟨ib1, e1, g1, _⟩ := Flush_timer ib h
      obtain ⟨ib2, e2, g2⟩ := ih ib1 hne1 g1
      exact ⟨ib2, by simp only [workerRun, workerStep, e1, e2], g2⟩

/-- C23 (no buffered data without a pending timer): from the new backend (empty buffers,
`chTimer` nil), after every sequence of worker steps (`WriteBuffer` of a point with a
non-empty line, or `Flush`, the timer firing included) the run has not panicked and, if
any db has a positive `Counter`, `chTimer` is not nil; the property is kept by each
single step; a `Flush` leaves every `Counter` at 0; and for `flushSize` a uint64 a db
with buffered bytes has a positive `Counter`, so its bytes are covered by the timer. -/
theorem timer_covers_buffered (flushSize : Nat) (flushTime rewriteInterval : Int)
    (evs : List Event) (hev : ∀ e ∈ evs, e.lineNonEmpty = true) :
    (∃ ib, workerRun (NewBackend flushSize flushTime rewriteInterval) evs = Except.ok ib ∧
      (∀ db cb, mapGet ib.buffers db = some cb → cb.Counter > 0 → ib.chTimer ≠ none) ∧
      (flushSize < 2 ^ 64 → ∀ db, bufferedFor ib db ≠ [] → ib.chTimer ≠ none) ∧
      (∀ e : Event, e.lineNonEmpty = true →
        ∃ ib1, workerStep ib e = Except.ok ib1 ∧
          (∀ db cb, mapGet ib1.buffers db = some cb → cb.Counter > 0 → ib1.chTimer ≠ none)) ∧
      (∃ ib1, Flush ib = Except.ok ib1 ∧ ib1.chTimer = none ∧
        ∀ db cb, mapGet ib1.buffers db = some cb → cb.Counter = 0)) := by
  obtain ⟨ib, e1, g1⟩ := workerRun_timer evs
    (NewBackend flushSize flushTime rewriteInterval) hev (TimerCovers_new _ _ _)
  refine ⟨ib, e1, fun db cb hcb hpos => (g1 db cb hcb hpos).1, ?_, ?_, ?_⟩
  · intro hfs db hbuf
    have hP : ∀ q, Event.write q ∈ evs → (fun l : Bytes => l ≠ []) (terminated q.Line) :=
      fun q _ => terminated_ne_nil q.Line
    obtain ⟨ib2, e2, _, g2⟩ := workerRun_good (fun l : Bytes => l ≠ []) evs
      (NewBackend flushSize flushTime rewriteInterval) hfs hev hP (GoodBuffers_new _ _ _ _)
    rw [e1] at e2
    cases e2
    cases hg : mapGet ib.buffers db with
    | none => simp [bufferedFor, hg] at hbuf
    | some cb =>
      obtain ⟨ls, _, h2, h3, _⟩ := g2 db cb hg
      have hb : cb.bytes ≠ [] := by simpa [bufferedFor, hg] using hbuf
      have hpos : cb.Counter > 0 := by
        cases ls with
        | nil => simp [h2] at hb
        | cons l rest => simp [h3]
      exact (g1 db cb hg hpos).1
  · intro e he
    cases e with
    | write q =>
      have hq : q.Line ≠ [] := by simpa [Event.lineNonEmpty] using he
      obtain ⟨ib1, e2, g2⟩ := WriteBuffer_timer ib q hq g1
      exact ⟨ib1, e2, fun db cb hcb hpos => (g2 db cb hcb hpos).1⟩
    | flush =>
      obtain ⟨ib1, e2, g2, _⟩ := Flush_timer ib g1
      exact ⟨ib1, e2, fun db cb hcb hpos => (g2 db cb hcb hpos).1⟩
  · obtain ⟨ib1, e2, _, _, t1, _, _, _⟩ := Flush_spec ib
    obtain ⟨ib2, e3, _, z⟩ := Flush_timer ib g1
    rw [e2] at e3
    cases e3
    exact ⟨ib1, e2, t1, z⟩

/-- C23 at a concrete run: a line for `m1`, a flush by the timer, then a line for `m2`
and one for `m1`, `flushSize = 3`: two dbs hold one line each and the timer is armed. -/
theorem timer_covers_buffered_witness :
    (∀ e ∈ [Event.write ⟨[109, 49], [97]⟩, Event.flush, Event.write ⟨[109, 50], [98, 10]⟩,
        Event.write ⟨[109, 49], [99]⟩], e.lineNonEmpty = true) ∧
    ∃ ib, workerRun (NewBackend 3 60 10)
        [Event.write ⟨[109, 49], [97]⟩, Event.flush, Event.write ⟨[109, 50], [98, 10]⟩,
          Event.write ⟨[109, 49], [99]⟩] = Except.ok ib ∧
      (∀ db cb, mapGet ib.buffers db = some cb → cb.Counter > 0 → ib.chTimer ≠ none) ∧
      mapGet ib.buffers [109, 49] = some { Buffer := some [99, 10], Counter := 1 } ∧
      ib.chTimer = some 60000000000 := by
  refine ⟨by decide, ?_⟩
  obtain ⟨ib, e1, h1, _⟩ := timer_covers_buffered 3 60 10
    [Event.write ⟨[109, 49], [97]⟩, Event.flush, Event.write ⟨[109, 50], [98, 10]⟩,
      Event.write ⟨[109, 49], [99]⟩] (by decide)
  have e2 : workerRun (NewBackend 3 60 10)
      [Event.write ⟨[109, 49], [97]⟩, Event.flush, Event.write ⟨[109, 50], [98, 10]⟩,
        Event.write ⟨[109, 49], [99]⟩] =
      Except.ok { NewBackend 3 60 10 with
        chTimer := some 60000000000
        buffers := [([109, 49], { Buffer := some [99, 10], Counter := 1 }),
          ([109, 50], { Buffer := some [98, 10], Counter := 1 })]
        submitted := [([109, 49], [97, 10])]
        timeAfter := [60000000000, 60000000000] } := rfl
  rw [e2] at e1
  cases e1
  exact ⟨_, rfl, h1, by decide, rfl⟩

/-! ## Rewrite on a record it cannot decode -/

theorem bytesCut_none (b : Bytes) (h : SP ∉ b) : bytesCut b [SP] = none := by
  induction b with
  | nil => simp [bytesCut]
  | cons c rest ih =>
    have hc : ¬ c = SP := fun e => h (by simp [e])
    have hr : SP ∉ rest := fun e => h (List.mem_cons_of_mem _ e)
    simp [bytesCut, bytesHasPrefix, hc, ih hr]

theorem bytesSplitN_no_space (b : Bytes) (h : SP ∉ b) : bytesSplitN b [SP] 2 = [b] := by
  simp [bytesSplitN, bytesCut_none b h]

theorem bytesSplitN_first_space (a p : Bytes) (h : SP ∉ a) :
    bytesSplitN (a ++ SP :: p) [SP] 2 = [a, p] := by
  simp [bytesSplitN, bytesCut_first a p h]

/-- C24 (the claim at a failing read): `Read` yields no record and reports an error that
is not `io.EOF`; `Rewrite` makes no remote write and no cursor call, but it returns the
read error, not nil. -/
theorem rewrite_failed_read_returns_error :
    failedReadEnv.read.1 = none ∧
    Rewrite failedReadEnv = (some (Error.Other 5), [Call.fbRead]) ∧
    (Rewrite failedReadEnv).1 ≠ none := by
  decide

/-- C24 (`Rewrite` on an undecodable record): when `Read` reports an error other than
`io.EOF`, `Rewrite` returns that error whatever the record. When `Read` reports nil or
`io.EOF`: with no record, and with a record that holds no space byte, `Rewrite` returns
nil; with a record whose part before the first space is not a valid percent-encoding
it returns the error of `QueryUnescape`. In all four cases the only call made is the
`Read`: no remote write, no `UpdateMeta`, no `RollbackMeta`. -/
theorem rewrite_undecodable (env : RewriteEnv) :
    (∀ e, env.read.2 = some e → e ≠ Error.EOF → Rewrite env = (some e, [Call.fbRead])) ∧
    (env.read.2 = none ∨ env.read.2 = some Error.EOF →
      (env.read.1 = none → Rewrite env = (none, [Call.fbRead])) ∧
      (∀ b, env.read.1 = some b → SP ∉ b → Rewrite env = (none, [Call.fbRead])) ∧
      (∀ a p e, env.read.1 = some (a ++ SP :: p) → SP ∉ a → (QueryUnescape a).2 = some e →
        Rewrite env = (some e, [Call.fbRead]))) ∧
    ((Rewrite env).2 = [Call.fbRead] →
      (∀ db p, Call.WriteUNCompressed db p ∉ (Rewrite env).2) ∧
      Call.fbUpdateMeta ∉ (Rewrite env).2 ∧ Call.fbRollbackMeta ∉ (Rewrite env).2) := by
  refine ⟨?_, ?_, ?_⟩
  · intro e he hne
    have hguard : env.read.2 ≠ none ∧ env.read.2 ≠ some Error.EOF := by
      rw [he]
      exact ⟨by simp, by simpa using hne⟩
    unfold Rewrite
    rw [if_pos hguard, he]
  · intro herr
    have hguard : ¬ (env.read.2 ≠ none ∧ env.read.2 ≠ some Error.EOF) := by
      rcases herr with h | h
      · simp [h]
      · simp [h]
    have hnil : (if env.read.2 = some Error.EOF then none else env.read.2) = none := by
      rcases herr with h | h
      · simp [h]
      · simp [h]
    refine ⟨?_, ?_, ?_⟩
    · intro hb
      unfold Rewrite
      simp only [hguard, if_false, hb, hnil]
    · intro b hb hsp
      unfold Rewrite
      simp only [hguard, if_false, hb, hnil, bytesSplitN_no_space b hsp]
    · intro a p e hb hsp hun
      unfold Rewrite
      simp only [hguard, if_false, hb, bytesSplitN_first_space a p hsp]
      cases hq : QueryUnescape a with
      | mk d err =>
        rw [hq] at hun
        simp only at hun
        subst hun
        rfl
  · intro h
    rw [h]
    simp

/-- C24 at concrete inputs: the record `abc` (no space), the record `%zz cpu` (`%zz` is
not a percent-encoding), and an empty backlog. -/
theorem rewrite_undecodable_witness :
    Rewrite { idleRewriteEnv with read := (some (str "abc"), none) } = (none, [Call.fbRead]) ∧
    Rewrite { idleRewriteEnv with read := (some (str "%zz" ++ SP :: str "cpu"), none) } =
      (some (Error.EscapeError (str "%zz")), [Call.fbRead]) ∧
    Rewrite idleRewriteEnv = (none, [Call.fbRead]) :=
  ⟨((rewrite_undecodable { idleRewriteEnv with read := (some (str "abc"), none) }).2.1
      (Or.inl rfl)).2.1 (str "abc") rfl (by decide),
    ((rewrite_undecodable
      { idleRewriteEnv with read := (some (str "%zz" ++ SP :: str "cpu"), none) }).2.1
      (Or.inl rfl)).2.2 (str "%zz") (str "cpu") _ rfl (by decide) (by decide),
    ((rewrite_undecodable idleRewriteEnv).2.1 (Or.inl rfl)).1 rfl⟩

/-! ## Safety of a worker step -/

theorem WriteBuffer_empty_line (ib : Backend) (p : LinePoint) (h : p.Line = []) :
    WriteBuffer ib p = Except.error Fault.indexOutOfRange := by
  unfold WriteBuffer
  simp [bytesBufferWrite, h]

theorem WriteBuffer_eq (ib : Backend) (p : LinePoint) (hline : p.Line ≠ []) :
    WriteBuffer ib p =
      (if (appended ib p).Counter ≥ ib.flushSize then
        FlushBuffer { ib with buffers := mapSet ib.buffers p.Db (appended ib p) } p.Db
       else if ib.chTimer = none then
          Except.ok { ib with buffers := mapSet ib.buffers p.Db (appended ib p)
                              chTimer := some (secondsDuration ib.flushTime)
                              timeAfter := ib.timeAfter ++ [secondsDuration ib.flushTime] }
       else Except.ok { ib with buffers := mapSet ib.buffers p.Db (appended ib p) }) := by
  obtain ⟨last, hlast⟩ : ∃ c, p.Line.getLast? = some c := by
    cases hl : p.Line.getLast? with
    | none => exact absurd (List.getLast?_eq_none_iff.mp hl) hline
    | some c => exact ⟨c, rfl⟩
  have hterm : ∀ buf : Bytes, (if ¬ last = NL then bytesBufferWriteByte (buf ++ p.Line) NL
      else (buf ++ p.Line, none)) = (buf ++ terminated p.Line, (none : Option Error)) := by
    intro buf
    unfold terminated bytesBufferWriteByte
    rw [hlast]
    by_cases hnl : last = NL
    · simp [hnl]
    · simp [hnl]
  unfold WriteBuffer
  simp only [bytesBufferWrite, hlast, ne_eq, not_true_eq_false, if_false, hterm]
  rfl

/-- C25 (worker-step safety): in every backend state, `WriteBuffer` panics with an index
out of range at `line[len(line)-1]` if and only if the line of the point is empty, and
for a non-empty line it returns; when the Counter reaches `flushSize` it is
`FlushBuffer` on a map that holds an entry for the db of the point. `Flush` returns in
every state, and every key it ranges over has an entry. So every worker step with a
non-empty line completes without a fault, in every state and along every run from the
new backend. `FlushBuffer` itself returns if the db has an entry and panics with a nil
dereference if it has none. -/
theorem worker_step_safety :
    (∀ (ib : Backend) (p : LinePoint),
      (WriteBuffer ib p = Except.error Fault.indexOutOfRange ↔ p.Line = []) ∧
      (p.Line.getLast? = none ↔ p.Line = []) ∧
      (p.Line ≠ [] → ∃ ib1, WriteBuffer ib p = Except.ok ib1) ∧
      (p.Line ≠ [] → (appended ib p).Counter ≥ ib.flushSize →
        WriteBuffer ib p =
          FlushBuffer { ib with buffers := mapSet ib.buffers p.Db (appended ib p) } p.Db ∧
        mapGet (mapSet ib.buffers p.Db (appended ib p)) p.Db = some (appended ib p))) ∧
    (∀ ib : Backend, (∃ ib1, Flush ib = Except.ok ib1) ∧
      ∀ k ∈ ib.buffers.map Prod.fst, ∃ cb, mapGet ib.buffers k = some cb) ∧
    (∀ (ib : Backend) (e : Event), e.lineNonEmpty = true →
      ∃ ib1, workerStep ib e = Except.ok ib1) ∧
    (∀ (flushSize : Nat) (flushTime rewriteInterval : Int) (evs : List Event),
      (∀ e ∈ evs, e.lineNonEmpty = true) →
      ∃ ib, workerRun (NewBackend flushSize flushTime rewriteInterval) evs = Except.ok ib) ∧
    (∀ (ib : Backend) (db : Bytes),
      (mapGet ib.buffers db = none → FlushBuffer ib db = Except.error Fault.nilDereference) ∧
      (∀ cb, mapGet ib.buffers db = some cb → ∃ ib1, FlushBuffer ib db = Except.ok ib1)) := by
  have hwrite : ∀ (ib : Backend) (p : LinePoint), p.Line ≠ [] →
      ∃ ib1, WriteBuffer ib p = Except.ok ib1 := by
    intro ib p hline
    obtain ⟨ib1, e1, _⟩ := WriteBuffer_spec ib p hline
    exact ⟨ib1, e1⟩
  have hflush : ∀ ib : Backend, ∃ ib1, Flush ib = Except.ok ib1 := by
    intro ib
    obtain ⟨ib1, e1, _⟩ := Flush_spec ib
    exact ⟨ib1, e1⟩
  refine ⟨?_, ?_, ?_, ?_, ?_⟩
  · intro ib p
    refine ⟨?_, List.getLast?_eq_none_iff, hwrite ib p, ?_⟩
    · constructor
      · intro hf
        by_contra hline
        obtain ⟨ib1, e1⟩ := hwrite ib p hline
        rw [e1] at hf
        exact Except.noConfusion hf
      · exact WriteBuffer_empty_line ib p
    · intro hline hc
      refine ⟨?_, by simp [mapGet_mapSet]⟩
      rw [WriteBuffer_eq ib p hline, if_pos hc]
  · intro ib
    exact ⟨hflush ib, fun k hk => mapGet_some_of_mem ib.buffers k hk⟩
  · intro ib e he
    cases e with
    | write q => exact hwrite ib q (by simpa [Event.lineNonEmpty] using he)
    | flush => exact hflush ib
  · intro flushSize flushTime rewriteInterval evs hev
    obtain ⟨ib, e1, _⟩ := workerRun_conserve evs
      (NewBackend flushSize flushTime rewriteInterval) hev
    exact ⟨ib, e1⟩
  · intro ib db
    constructor
    · intro h
      simp [FlushBuffer, h]
    · intro cb h
      obtain ⟨ib1, e1, _⟩ := FlushBuffer_spec ib db cb h
      exact ⟨ib1, e1⟩

/-- C25 at concrete inputs: a point with an empty line panics, a point with a one-byte
line in a state where the Counter reaches `flushSize` is written and flushed,
`FlushBuffer` for a db without entry panics, and `Flush` of that state returns. -/
theorem worker_step_safety_witness :
    WriteBuffer (NewBackend 3 60 10) ⟨[109, 49], []⟩ = Except.error Fault.indexOutOfRange ∧
    (∃ ib1, workerStep
        { NewBackend 3 60 10 with
          buffers := [([109, 49], { Buffer := some [97, 10, 98, 10], Counter := 2 })] }
        (Event.write ⟨[109, 49], [99]⟩) = Except.ok ib1) ∧
    FlushBuffer (NewBackend 3 60 10) [109, 49] = Except.error Fault.nilDereference ∧
    (∃ ib1, Flush
        { NewBackend 3 60 10 with
          buffers := [([109, 49], { Buffer := some [97, 10, 98, 10], Counter := 2 })] } =
      Except.ok ib1) :=
  ⟨(worker_step_safety.1 (NewBackend 3 60 10) ⟨[109, 49], []⟩).1.mpr rfl,
    worker_step_safety.2.2.1 _ (Event.write ⟨[109, 49], [99]⟩) (by decide),
    (worker_step_safety.2.2.2.2 (NewBackend 3 60 10) [109, 49]).1 rfl,
    (worker_step_safety.2.1 _).1⟩

end RedTimeProxy
